import Mathlib

/-!
# yalloc: a shallow embedding

The allocator of `yalloc.c` and the headers it includes (`heap.h`, `region.h`,
`buddy.h`, `slab.h`, `alloc.h`, `free.h`, `realloc.h`, `std.h`) as Lean functions
on an explicit state.

Conventions
* A pointer is a `Nat` address, `nil` is `0`.  Memory is total: an access through
  `nil` reads or writes the cell at address `0`.
* `ub4`, `size_t` ... arithmetic is `Nat` arithmetic reduced `% 2^32`, `% 2^64`
  where the C expression can wrap.
* Layout constants are those of an LP64 target with little-endian bytes.
* `ylog` and `error` only write text to a file descriptor; functions whose
  diagnostics matter return a tag naming the `return` statement that was taken.
-/

namespace Yalloc

/-! ## config.h, base.h -/

def Maxvm : Nat := 40
def Maxvmsiz : Nat := 2 ^ 40
def Minregion : Nat := 16
def Accel_cnt : Nat := 3
def Maxclasslen : Nat := 4096
def Clas_threshold : Nat := 0
def Maxtclass : Nat := 2048
def Maxclass : Nat := 256
def Regmem_inc : Nat := 1024
def Regfree_trim : Nat := 4
def Dir : Nat := 8
def Dirmsk : Nat := Dir - 1
def Dirmem : Nat := 8192
def Iniheap : Nat := 0x20000
def Inimem : Nat := 0x400
def Heap_del_threshhold : Nat := 16
def Minorder : Nat := 3
def Maxorder : Nat := 26
def Bin : Nat := 8
def Binmask : Nat := 2 ^ 8 - 1
def Basealign : Nat := 8
def Page : Nat := 4096
def Mmap_threshold : Nat := 2 ^ 24
def inireg : Nat := 16
def inidir : Nat := 8
def mmap_threshold : Nat := Mmap_threshold
def guardbit : Nat := 0
def hi16 : Nat := 0xffff
def hi24 : Nat := 0xffffff
def hi32 : Nat := 0xffffffff
def hi64 : Nat := 0xffffffffffffffff
def Full : Nat := 0xffffffffffffffff
def Noclass : Nat := 0xffff
def INT_MAX : Nat := 0x7fffffff
def nil : Nat := 0

/-- The size of `struct st_region` on LP64 (the enum is packed to one byte). -/
def sizeof_region : Nat := 120
/-- The size of `struct st_heap` on LP64. -/
def sizeof_heap : Nat := 59776

def u16 (x : Nat) : Nat := x % 2 ^ 16
def u32 (x : Nat) : Nat := x % 2 ^ 32
def u64 (x : Nat) : Nat := x % 2 ^ 64

/-- Unsigned subtraction `a - b` in a word of `w` bits: the difference, wrapped around
`2^w` when `b` exceeds `a`. -/
def subw (w a b : Nat) : Nat :=
  if b % 2 ^ w ≤ a % 2 ^ w then a % 2 ^ w - b % 2 ^ w else 2 ^ w - (b % 2 ^ w - a % 2 ^ w)

/-- Bitwise complement `~x` in a word of `w` bits. -/
def notw (w x : Nat) : Nat := 2 ^ w - 1 - x % 2 ^ w

def ctzAux : Nat → Nat → Nat
  | 0, _ => 0
  | fuel + 1, x => if x % 2 = 1 then 0 else 1 + ctzAux fuel (x / 2)

/-- The builtin `__builtin_ctz` on `unsigned int`; C leaves `ctz(0)` undefined, here it is 32. -/
def ctz (x : Nat) : Nat := ctzAux 32 x

/-- The builtin `__builtin_ctzl` on `unsigned long`; `ctzl(0)` is 64 here. -/
def ctzl (x : Nat) : Nat := ctzAux 64 x

def clzAux : Nat → Nat → Nat
  | 0, _ => 0
  | n + 1, x => if x / 2 ^ n % 2 = 1 then 0 else 1 + clzAux n x

/-- The builtin `__builtin_clz` on `unsigned int`; C leaves `clz(0)` undefined, here it is 32. -/
def clz (x : Nat) : Nat := clzAux 32 x

/-- The macro `doalign(p,n) = ((p) + (n) - 1) & ~((n) - 1)`, with `p` of `wp` bits and
`n` of `wn` bits: `~((n) - 1)` is formed in the type of `n` and zero-extended, the
sum in the wider of the two types. -/
def doalign (wp wn p n : Nat) : Nat :=
  subw (max wp wn) (p + n) 1 &&& notw wn (subw wn n 1)

def upd {α : Type} (f : Nat → α) (i : Nat) (v : α) : Nat → α :=
  fun j => if j = i then v else f j

/-! ## Byte memory -/

/-- Read `k` bytes at `a` as a little-endian number. -/
def rdN : Nat → (Nat → Nat) → Nat → Nat
  | 0, _, _ => 0
  | k + 1, m, a => m a + 256 * rdN k m (a + 1)

/-- Write the low `k` bytes of `v` at `a`, little-endian. -/
def wrN : Nat → (Nat → Nat) → Nat → Nat → Nat → Nat
  | 0, m, _, _ => m
  | k + 1, m, a, v => fun x => if x = a then v % 256 else wrN k m (a + 1) (v / 256) x

def rd1 (m : Nat → Nat) (a : Nat) : Nat := rdN 1 m a
def rd4 (m : Nat → Nat) (a : Nat) : Nat := rdN 4 m a
def rd8 (m : Nat → Nat) (a : Nat) : Nat := rdN 8 m a
def wr4 (m : Nat → Nat) (a v : Nat) : Nat → Nat := wrN 4 m a v
def wr8 (m : Nat → Nat) (a v : Nat) : Nat → Nat := wrN 8 m a v

/-- The library call `memset(p,0,n)`. -/
def memset0 (m : Nat → Nat) (p n : Nat) : Nat → Nat :=
  fun x => if p ≤ x ∧ x < p + n then 0 else m x

/-- The library call `memcpy(dst,src,n)`, every source byte read before the call. -/
def memcpy (m : Nat → Nat) (dst src n : Nat) : Nat → Nat :=
  fun x => if dst ≤ x ∧ x < dst + n then m (src + (x - dst)) else m x

/-! ## yalloc.c: the data model -/

inductive Rtype where
  | Rnil
  | Rbuddy
  | Rxbuddy
  | Rslab
  | Rmmap
  deriving DecidableEq, Repr

/-- The record `struct st_region`. -/
structure region where
  user : Nat := 0
  meta : Nat := 0
  prv : Nat := 0
  nxt : Nat := 0
  bin : Nat := 0
  len : Nat := 0
  metalen : Nat := 0
  linmask : Nat := 0
  linofs : Nat := 0
  frecnt : Nat := 0
  cnt : Nat := 0
  alloccelcnt : Nat := 0
  freecelcnt : Nat := 0
  smask : Nat := 0
  id : Nat := 0
  typ : Rtype := Rtype.Rnil
  cellen : Nat := 0
  celcnt : Nat := 0
  ofs : Nat := 0
  clas : Nat := 0
  minorder : Nat := 0
  celord : Nat := 0
  cntord : Nat := 0
  maxorder : Nat := 0
  order : Nat := 0
  deriving DecidableEq, Repr

/-- The record `struct direntry`. -/
structure direntry where
  dir : Nat := 0
  reg : Nat := 0
  deriving DecidableEq, Repr

/-- The record `struct binentry`. -/
structure binentry where
  p : Nat := 0
  reg : Nat := 0
  deriving DecidableEq, Repr

/-- The record `struct st_heap`; arrays are total maps from the index. -/
structure heap where
  sizecount : Nat → Nat := fun _ => 0
  len2tclas : Nat → Nat := fun _ => 0
  tclas2len : Nat → Nat := fun _ => 0
  tclascnt : Nat := 0
  tclas2clas : Nat → Nat := fun _ => 0
  clas2len : Nat → Nat := fun _ => 0
  clascnt : Nat := 0
  clasreg : Nat → Nat := fun _ => 0
  binmasks : Nat → Nat := fun _ => 0
  bins : Nat → binentry := fun _ => {}
  buddies : Nat → Nat := fun _ => 0
  buddycnt : Nat := 0
  buddyreg_f : Nat := 0
  buddymask : Nat := 0
  regmem : Nat := 0
  regmem_pos : Nat := 0
  regmem_top : Nat := 0
  allocregcnt : Nat := 0
  freeregcnt : Nat := 0
  freereg : Nat := 0
  nxtregs : Nat := 0
  rootdir : Nat → direntry := fun _ => {}
  dirmem : Nat := 0
  dirmem_len : Nat := 0
  dirmem_pos : Nat := 0
  dirmem_top : Nat := 0
  inipos : Nat := 0
  inimem : Nat := 0
  lastreg : Nat := 0
  lastptr : Nat := 0
  lastlen : Nat := 0
  iniheap : Bool := false
  delcnt : Nat := 0
  baselen : Nat := 0
  id : Nat := 0

/-- The heap of the running thread together with what its functions reach through
pointers and globals: the region descriptors (`regs`, by address), directory nodes
(`dirents`), byte memory (`mem`), the addresses the OS will hand out on the next
`mmap` calls (`os`, `0` for a failed call, none left: failure), and the statics
`global_mapcnt`, `thread_heap`, `heap_gid`, `heapmem_pos`, `nested`, with the
addresses of the static objects `heapmem`, `tls` and `zeroblock`. -/
structure world where
  hb : heap := {}
  regs : Nat → region := fun _ => {}
  dirents : Nat → direntry := fun _ => {}
  mem : Nat → Nat := fun _ => 0
  os : List Nat := []
  global_mapcnt : Nat := 1
  thread_heap : Nat := 0
  heap_gid : Nat := 0
  heapmem_pos : Nat := 0
  nested : Nat := 0
  heapmem : Nat := 0
  tls : Nat := 0
  zeroblock : Nat := 0

def mapshifts_tab : List Nat :=
  [0, 0, 0, 1, 1, 1, 1, 2, 2, 2, 2, 3, 3, 4, 4, 5, 5, 6, 6, 7, 7, 8, 8, 9, 9, 10, 11, 12, 13, 14, 15]

/-- The table `mapshifts[32]`: 31 initialisers, the last entry is zero-initialised. -/
def mapshifts (i : Nat) : Nat := mapshifts_tab.getD i 0

/-! ## heap.h, region.h -/

/-- The function `newregorder`: the order of a new region, from the count of live mappings. -/
def newregorder (w : world) : Nat :=
  let mapcnt := w.global_mapcnt
  if mapcnt = 0 ∨ mapcnt > INT_MAX then Minregion
  else Minregion + mapshifts (min (32 - ctz mapcnt) 31)

/-- The directory fields of the heap, the part of the state that `regdir` works on. -/
structure dirview where
  rootdir : Nat → direntry
  dirmem : Nat
  dirmem_len : Nat
  dirmem_pos : Nat
  dirmem_top : Nat
  dirents : Nat → direntry

/-- The body of `regdir` is the generated file `dir.h`, which is not part of the
sources; it is a parameter here: any function of the directory fields, the region
to enter (`nil` to erase), the base and the length. -/
abbrev RegdirFn : Type := dirview → Nat → Nat → Nat → dirview

/-- The function `regdir(hb,reg,bas,len)`. -/
def regdir (rd : RegdirFn) (w : world) (reg bas len : Nat) : world :=
  let v := rd ⟨w.hb.rootdir, w.hb.dirmem, w.hb.dirmem_len, w.hb.dirmem_pos, w.hb.dirmem_top,
    w.dirents⟩ reg bas len
  { w with hb.rootdir := v.rootdir, hb.dirmem := v.dirmem, hb.dirmem_len := v.dirmem_len,
           hb.dirmem_pos := v.dirmem_pos, hb.dirmem_top := v.dirmem_top, dirents := v.dirents }

/-- The function `delregmem`; `osunmem` gives the mappings back to the OS and leaves
no trace in the state. -/
def delregmem (w : world) (reg : Nat) : world :=
  let r := w.regs reg
  let mapcnt := if r.meta ≠ 0 then 2 else 1
  { w with regs := upd w.regs reg { r with user := 0, meta := 0 },
           global_mapcnt := subw 32 w.global_mapcnt mapcnt }

/-- The loop `for (i = 0; i < Regfree_trim && reg; i++)` of `delregion`; the first
argument counts the iterations left. Returns the state, `reg` and `i` at loop exit. -/
def delregion_loop (last : Bool) : Nat → Nat → world → Nat → world × Nat × Nat
  | 0, i, w, reg => (w, reg, i)
  | n + 1, i, w, reg =>
    if reg ≠ 0 then
      let w1 := if last then delregmem w reg else w
      delregion_loop last n (i + 1) w1 (w1.regs reg).bin
    else (w, reg, i)

/-- The function `delregion`; returns the new state and `last`. -/
def delregion (rd : RegdirFn) (w : world) (reg : Nat) : world × Bool :=
  let frecnt := w.hb.freeregcnt
  let allcnt := w.hb.allocregcnt
  let last : Bool := decide (allcnt = u32 (frecnt + 1))
  let ip := (w.regs reg).user
  let w1 := if (w.regs reg).typ = Rtype.Rmmap then delregmem w reg else w
  let len := if (w.regs reg).typ = Rtype.Rmmap then (w1.regs reg).len
             else u64 (2 ^ (w.regs reg).order)
  let w2 := regdir rd w1 0 ip len
  let w3 : world := { w2 with regs := upd w2.regs reg { w2.regs reg with typ := Rtype.Rnil } }
  let xreg := w3.hb.freereg
  let w4 : world :=
    if xreg ≠ 0 then { w3 with regs := upd w3.regs reg { w3.regs reg with bin := xreg } } else w3
  let w5 : world := { w4 with hb.freereg := reg }
  let lp := delregion_loop last Regfree_trim 0 w5 reg
  let w6 := if lp.2.1 ≠ 0 ∧ lp.2.2 = Regfree_trim then delregmem lp.1 lp.2.1 else lp.1
  ({ w6 with hb.freeregcnt := u32 (frecnt + 1) }, last)

/-! ## slab.h, buddy.h, free.h: what `trimbin` needs -/

/-- The function `slab_free`; returns the new state and whether the region is all free. -/
def slab_free (w : world) (reg ip : Nat) : world × Bool :=
  let r := w.regs reg
  let ibase := r.user
  let len := r.len
  let ord := r.minorder
  let reglen := u32 (2 ^ r.order)
  let linlen := reglen >>> 6
  let line := r.meta
  let line2 := r.meta + 8 * (linlen * 2)
  let ofs8 := u32 (subw 64 ip ibase)
  let cel := if ord ≠ 0 then ofs8 >>> ord else ofs8 / len
  let ofs := cel >>> 6
  let bit := subw 32 cel (u32 (ofs <<< 6))
  let msk := u64 (1 <<< bit)
  let m1 := wr8 w.mem (line + 8 * ofs) (rd8 w.mem (line + 8 * ofs) &&& notw 64 msk)
  let m2 := wr8 m1 (line2 + 8 * ofs) (rd8 m1 (line2 + 8 * ofs) ||| bit)
  let w1 : world := { w with mem := m2, regs := upd w.regs reg { r with frecnt := u32 (r.frecnt + 1) } }
  let w2 : world :=
    if r.frecnt = 0 then
      let clas := (w1.regs reg).clas
      let areg := w1.hb.clasreg clas
      let xreg := (w1.regs areg).nxt
      let yreg := (w1.regs reg).nxt
      let wa : world :=
        if xreg = reg then
          { w1 with regs := upd w1.regs areg { w1.regs areg with nxt := yreg } }
        else
          let wx : world := { w1 with regs := upd w1.regs areg { w1.regs areg with nxt := xreg } }
          { wx with regs := upd wx.regs xreg { wx.regs xreg with nxt := yreg } }
      let wb : world := { wa with regs := upd wa.regs reg { wa.regs reg with nxt := areg } }
      { wb with hb.clasreg := upd wb.hb.clasreg clas reg }
    else w1
  (w2, decide ((w2.regs reg).frecnt = (w2.regs reg).cnt))

/-- The function `buddy_free`. -/
def buddy_free (w : world) (reg ip : Nat) : world × Bool :=
  let r := w.regs reg
  let sums := r.meta
  let order := r.order
  let minord := r.minorder
  let ordrng := subw 32 order minord
  let ofs := u32 (subw 64 ip r.user) >>> minord
  let ordline := r.meta + 8 * ordrng
  let ord := rd1 w.mem (ordline + ofs)
  let cntord := u32 (2 ^ subw 32 order ord)
  let s1 := u32 (rd4 w.mem (sums + 4 * ord) + 1)
  let smask := if s1 = cntord then r.smask ||| ord else r.smask
  ({ w with mem := wr4 w.mem (sums + 4 * ord) s1, hb.buddyreg_f := u32 (w.hb.buddyreg_f + 1) },
   decide (smask = hi32))

/-- The function `free_mmap`. -/
def free_mmap (rd : RegdirFn) (w : world) (rp ip : Nat) : world × Bool :=
  let len := (w.regs rp).len
  if ip &&& (Page - 1) ≠ 0 then (w, false)
  else if len < Mmap_threshold then (w, false)
  else delregion rd w rp

/-- The function `free_reg`. -/
def free_reg (rd : RegdirFn) (w : world) (rp ip : Nat) : world × Bool :=
  match (w.regs rp).typ with
  | Rtype.Rnil => (w, false)
  | Rtype.Rbuddy => buddy_free w rp ip
  | Rtype.Rxbuddy => (w, false)
  | Rtype.Rslab => slab_free w rp ip
  | Rtype.Rmmap => free_mmap rd w rp ip

/-- The function `delheap`: unless the heap is kept, the thread slot takes the delete
count with bit 0 set; the heap and its descriptor pools go back to the OS. -/
def delheap (w : world) (trim : Bool) : world :=
  let delcnt := w.hb.delcnt
  if w.hb.iniheap = true ∨ (trim = false ∧ delcnt > Heap_del_threshhold) then w
  else { w with thread_heap := ((u32 (delcnt + 1) &&& hi24) <<< 1) ||| 1 }

/-- The inner `do ... while (binmask)` loop of `trimbin` for one class; the flag
tells that `trimbin` returned from inside the loop. -/
def trimbin_bits (rd : RegdirFn) (full : Bool) : Nat → world → Nat → Nat → Nat → world × Bool
  | 0, w, _, _, _ => (w, false)
  | n + 1, w, clas, e, binmask =>
    let st : world × Bool :=
      if binmask &&& 1 ≠ 0 then
        let b := w.hb.bins (clas * Bin + e)
        let fr := free_reg rd w b.reg b.p
        if fr.2 then
          let dl := delregion rd fr.1 b.reg
          if dl.2 then
            (if full then delheap dl.1 true else { dl.1 with hb.bins := fun _ => {} }, true)
          else (dl.1, false)
        else (fr.1, false)
      else (w, false)
    if st.2 then st
    else if binmask >>> 1 ≠ 0 then trimbin_bits rd full n st.1 clas (e + 1) (binmask >>> 1)
    else (st.1, false)

/-- The outer `for (clas = 0; clas < hb->clascnt; clas++)` loop of `trimbin`. -/
def trimbin_clas (rd : RegdirFn) (full : Bool) : Nat → world → Nat → world
  | 0, w, _ => w
  | n + 1, w, clas =>
    if clas < w.hb.clascnt then
      let binmask := w.hb.binmasks clas
      if binmask = 0 then trimbin_clas rd full n w (clas + 1)
      else
        let r := trimbin_bits rd full 16 w clas 0 binmask
        if r.2 then r.1 else trimbin_clas rd full n r.1 (clas + 1)
    else w

/-- The function `trimbin`; `clas` and the masks are `ub2`, which bounds both loops. -/
def trimbin (rd : RegdirFn) (w : world) (full : Bool) : world :=
  trimbin_clas rd full (2 ^ 16) w 0

/-! ## yalloc.c: memory from the OS -/

/-- The call `osmmap(len)`: `mmap` refuses a length of 0; for any other length the next
address the OS hands out, `nil` on failure. -/
def osmmap (w : world) (len : Nat) : Nat × world :=
  match w.os with
  | [] => (0, w)
  | p :: rest => if len = 0 then (0, w) else (p, { w with os := rest })

/-- The function `osmem`: on failure trim the bins and try once more. -/
def osmem (rd : RegdirFn) (w : world) (len : Nat) : Nat × world :=
  let r := osmmap w len
  if r.1 ≠ 0 then r else osmmap (trimbin rd r.2 false) len

/-- The function `newregmem`: a descriptor from the pool. -/
def newregmem (rd : RegdirFn) (w : world) : Nat × world :=
  let pos := w.hb.regmem_pos
  if pos ≥ w.hb.regmem_top then
    let r := osmem rd w (Regmem_inc * sizeof_region)
    let reg := r.1
    if reg = 0 then (0, r.2)
    else
      let w1 : world :=
        if r.2.hb.nxtregs ≠ 0 then
          { r.2 with regs := upd r.2.regs r.2.hb.regmem { r.2.regs r.2.hb.regmem with nxt := reg } }
        else { r.2 with hb.nxtregs := reg }
      let w2 : world := { w1 with hb.regmem := reg }
      (reg + 1 * sizeof_region, { w2 with hb.regmem_top := 1 + 1 })
  else
    (w.hb.regmem + pos * sizeof_region, { w with hb.regmem_top := u32 (pos + 1) })

/-- The first part of `newregion` (`region.h` lines 132 to 140): a descriptor from the
free list, else from the pool. -/
def newregion_desc (rd : RegdirFn) (w : world) : Nat × world :=
  let freg := w.hb.freereg
  if freg ≠ 0 then
    if (w.regs freg).typ = Rtype.Rnil then (freg, { w with hb.freereg := (w.regs freg).bin })
    else (freg, { w with hb.freereg := 0 })
  else newregmem rd w

/-- The second part of `newregion` (`region.h` lines 141 to 161): fill in the
descriptor, map the metadata of a slab or buddy region, enter the region in the
directory and count the mappings. -/
def newregion_fill (rd : RegdirFn) (w : world) (reg user len admlen : Nat) (typ : Rtype) : Nat × world :=
  let w3 : world :=
    { w with regs := upd w.regs reg { w.regs reg with typ := typ, user := user,
                                                      id := w.hb.allocregcnt },
             hb.allocregcnt := u32 (w.hb.allocregcnt + 1) }
  if typ = Rtype.Rslab ∨ typ = Rtype.Rbuddy then
    let rm := osmem rd w3 admlen
    let meta := rm.1
    if meta = 0 then (0, rm.2)
    else
      let w4 : world :=
        { rm.2 with regs := upd rm.2.regs reg { rm.2.regs reg with meta := meta, metalen := admlen } }
      let w5 := regdir rd w4 reg user len
      (reg, { w5 with global_mapcnt := u32 (w5.global_mapcnt + 2) })
  else
    let w5 := regdir rd w3 reg user len
    (reg, { w5 with global_mapcnt := u32 (w5.global_mapcnt + 1) })

/-- The function `newregion`. -/
def newregion (rd : RegdirFn) (w : world) (user len admlen : Nat) (typ : Rtype) : Nat × world :=
  let ru := if user = 0 then osmem rd w len else (user, w)
  if ru.1 = 0 then (0, ru.2)
  else
    let rr := newregion_desc rd ru.2
    if ru.2.hb.freereg = 0 ∧ rr.1 = 0 then (0, rr.2)
    else newregion_fill rd rr.2 rr.1 ru.1 len admlen typ

/-! ## slab.h -/

/-- The `do { a >>= 6; a = doalign(a,8u); admlen += a; } while (a)` loop of `newslab`;
returns the sum of the accelerator lengths. The first argument bounds the iterations:
`a` at least halves in each round. -/
def newslab_accels : Nat → Nat → Nat
  | 0, _ => 0
  | n + 1, a =>
    let a1 := doalign 32 32 (a >>> 6) 8
    if a1 ≠ 0 then a1 + newslab_accels n a1 else a1

/-- The function `newslab`. The descriptor that `newregion` returns is written to
without a test for `nil`. -/
def newslab (rd : RegdirFn) (w : world) (cellen userlen : Nat) : Nat × world :=
  let order := newregorder w
  let reglen := u64 (2 ^ order)
  let ord := if cellen &&& subw 32 cellen 1 ≠ 0 then 0 else ctz cellen
  let cnt := if cellen &&& subw 32 cellen 1 ≠ 0 then u32 (reglen / cellen) else u32 (reglen >>> ord)
  let a := doalign 32 32 (cnt >>> 3) 8
  let admlen := u64 (u32 (a <<< 1) + newslab_accels 32 a + Accel_cnt * 8)
  let r := newregion rd w 0 reglen admlen Rtype.Rslab
  let reg := r.1
  (reg, { r.2 with regs := upd r.2.regs reg { r.2.regs reg with
            frecnt := cnt, cnt := cnt, len := userlen, cellen := cellen, celcnt := cnt,
            celord := ord % 256 } })

/-- The search `for (cacc = 0; cacc < accClen; cacc++)` of `slab_alloc` for an
accelerator word that is not full; returns `cacc` at loop exit and `cbit`. -/
def slab_scan (m : Nat → Nat) (accC accClen : Nat) : Nat → Nat → Nat × Nat
  | 0, cacc => (cacc, 0)
  | n + 1, cacc =>
    if cacc < accClen then
      let cmask := rd8 m (accC + 8 * cacc)
      if cmask = hi64 then slab_scan m accC accClen n (cacc + 1)
      else (cacc, ctzl (notw 64 cmask))
    else (cacc, 0)

/-- The second part of `slab_alloc` (`slab.h` lines 104 to 174), reached when the
word of the fast path is full: the search through the accelerators. -/
def slab_alloc_slow (w : world) (reg : Nat) (clear : Bool) : Nat × world :=
  let r := w.regs reg
  let meta := r.meta
  let user := r.user
  let line := meta
  let len := u32 r.len
  let reglen := u32 (2 ^ r.order)
  let linlen := reglen >>> 6
  let accAlen := linlen >>> 6
  let accBlen := accAlen >>> 6
  let accClen := accBlen >>> 6
  let line2 := meta + 8 * (linlen * 2)
  let accA := line + 8 * linlen
  let accB := accA + 8 * accAlen
  let accC := accB + 8 * accBlen
  let sc := slab_scan w.mem accC accClen accClen 0
  let cacc := sc.1
  let cbit := sc.2
  if cacc = accClen then (0, w)
  else
    let bacc := u32 (u32 (cacc <<< 6) + cbit)
    let bbit := ctzl (notw 64 (rd8 w.mem (accB + 8 * bacc)))
    let aacc := u32 (u32 (bacc <<< 6) + bbit)
    let abit := ctzl (notw 64 (rd8 w.mem (accA + 8 * aacc)))
    let ofs := u32 (u32 (aacc <<< 6) + abit)
    let bit := ctzl (notw 64 (rd8 w.mem (line + 8 * ofs)))
    let cel := u32 (u32 (ofs <<< 6) + bit)
    let lmask := u64 (1 <<< bit)
    let m1 := wr8 w.mem (line + 8 * ofs) lmask
    let m2 := wr8 m1 (accA + 8 * aacc) (rd8 m1 (accA + 8 * aacc) ||| u64 (1 <<< abit))
    let m3 := wr8 m2 (accB + 8 * bacc) (rd8 m2 (accB + 8 * bacc) ||| u64 (1 <<< bbit))
    let m4 := wr8 m3 (accC + 8 * cacc) (rd8 m3 (accC + 8 * cacc) ||| u64 (1 <<< cbit))
    let p := u64 (user + cel * len)
    let m5 := if clear = true ∧ rd8 m4 (line2 + 8 * ofs) &&& lmask ≠ 0 then memset0 m4 p len else m4
    let frecnt := subw 32 r.frecnt 1
    let w1 : world :=
      { w with mem := m5,
               regs := upd w.regs reg { r with linmask := lmask, ofs := ofs, frecnt := frecnt } }
    let w2 : world :=
      if frecnt = 0 then
        let clas := (w1.regs reg).clas
        let xreg := (w1.regs reg).nxt
        { w1 with regs := upd w1.regs xreg { w1.regs xreg with nxt := reg },
                  hb.clasreg := upd w1.hb.clasreg clas xreg }
      else w1
    (p, w2)

/-- The function `slab_alloc`; returns the pointer and the new state. -/
def slab_alloc (w : world) (reg : Nat) (clear : Bool) : Nat × world :=
  let r := w.regs reg
  let mask := r.linmask
  let len := u32 r.len
  let fbit := ctzl (notw 64 mask)
  let fmask := mask ||| u64 (1 <<< fbit)
  if mask ≠ Full ∧ fmask ≠ Full then
    let ofs := r.linofs
    let cel := u32 (u32 (ofs <<< 6) + fbit)
    let p := u64 (r.user + cel * len)
    let w1 : world := { w with regs := upd w.regs reg { r with linmask := fmask },
                               mem := wr8 w.mem (r.meta + 8 * ofs) fmask }
    (p, if clear then { w1 with mem := memset0 w1.mem p len } else w1)
  else slab_alloc_slow w reg clear

/-- The function `slab_chk4free`: true when the free is rejected. -/
def slab_chk4free (w : world) (reg ip : Nat) : Bool :=
  let r := w.regs reg
  let line := r.meta
  let ofs8 := u32 (subw 64 ip r.user)
  if ofs8 ≥ r.cnt then true
  else
    let ord := r.celord
    let cel := if ord ≠ 0 then ofs8 >>> ord else ofs8 / u32 r.len
    let ofs := cel >>> 6
    let bit := subw 32 cel (u32 (ofs <<< 6))
    let msk := u64 (1 <<< bit)
    if rd8 w.mem (line + 8 * ofs) &&& msk = 0 then true else false

/-! ## buddy.h -/

/-- The table `admlens[Maxorder]` is never filled in ("todo"): all zero. -/
def admlens (_order : Nat) : Nat := 0

/-- The function `newbuddy`. -/
def newbuddy (rd : RegdirFn) (w : world) (order : Nat) : Nat × world :=
  newregion rd w 0 (u64 (2 ^ order)) (admlens order) Rtype.Rbuddy

/-- The function `buddy_allocreg`. -/
def buddy_allocreg (w : world) (reg len _ord alord : Nat) (clear : Bool) : Nat × world :=
  let r := w.regs reg
  let sums := r.meta
  let m1 := wr4 w.mem (sums + 4 * alord) (subw 32 (rd4 w.mem (sums + 4 * alord)) 1)
  (r.user, { w with mem := if clear then memset0 m1 r.user len else m1 })

/-- The function `buddy_allocfixreg`. -/
def buddy_allocfixreg (w : world) (reg len _ord : Nat) (clear : Bool) : Nat × world :=
  let r := w.regs reg
  (r.user, if clear then { w with mem := memset0 w.mem r.user len } else w)

/-- The function `buddy_alloc`. -/
def buddy_alloc (rd : RegdirFn) (w : world) (slen : Nat) (clear : Bool) : Nat × world :=
  let mask := w.hb.buddymask
  let len0 := u32 slen &&& (2 ^ Maxorder - 1)
  let ord0 := 32 - clz len0
  let ord := if len0 &&& subw 32 len0 1 ≠ 0 then ord0 + 1 else ord0
  let len := if len0 &&& subw 32 len0 1 ≠ 0 then u32 (2 ^ ord) else len0
  if mask &&& subw 32 len 1 = 0 then
    let order := max (newregorder w) ord
    let r := newbuddy rd w order
    let reg := r.1
    if reg = 0 then (0, r.2)
    else
      let w1 : world :=
        { r.2 with regs := upd r.2.regs reg { r.2.regs reg with clas := Noclass } }
      let w2 : world :=
        { w1 with hb.buddies := upd w1.hb.buddies (subw 32 ord Minorder) reg,
                  hb.buddymask := w1.hb.buddymask ||| u32 (2 ^ ord) }
      buddy_allocreg w2 reg len ord ord clear
  else if mask &&& len ≠ 0 then
    buddy_allocfixreg w (w.hb.buddies ord) len ord clear
  else
    let alord := clz (mask &&& subw 32 len 1) &&& 31
    buddy_allocreg w (w.hb.buddies alord) len ord alord clear

/-- The rounding at the head of `buddy_alloc` (`buddy.h` lines 127 to 131): the order
`ord` and the block length `len` that the function works with. -/
def buddy_round (slen : Nat) : Nat × Nat :=
  let len0 := u32 slen &&& (2 ^ Maxorder - 1)
  let ord0 := 32 - clz len0
  if len0 &&& subw 32 len0 1 ≠ 0 then (ord0 + 1, u32 (2 ^ (ord0 + 1))) else (ord0, len0)

/-- The function `buddy_realloc`. -/
def buddy_realloc (w : world) (_reg p _newlen : Nat) : Nat × world := (p, w)

/-- The function `buddy_addref`, an empty body. -/
def buddy_addref (w : world) (_reg _p _ap : Nat) : world := w

/-! ## alloc.h -/

/-- The function `yal_mmap`. -/
def yal_mmap (rd : RegdirFn) (w : world) (len : Nat) : Nat × world :=
  let n := doalign 64 32 len Page
  let rp := osmem rd w n
  let p := rp.1
  if p = 0 then (0, rp.2)
  else
    let r := newregion rd rp.2 p len 0 Rtype.Rmmap
    let reg := r.1
    if reg = 0 then (0, r.2)
    else
      (p, { r.2 with regs := upd r.2.regs reg { r.2.regs reg with clas := Noclass, len := n },
                     hb.lastreg := reg })

/-- The call `osmremap(p,orglen,newlen)` as compiled for Linux: the result of `mremap`
is dropped and `p` comes back, unless `p` is `MAP_FAILED`. -/
def osmremap (w : world) (p _orglen _newlen : Nat) : Nat × world :=
  (if p = hi64 then 0 else p, w)

/-- The function `mmap_realloc`. -/
def mmap_realloc (rd : RegdirFn) (w : world) (reg p orglen newlen : Nat) : Nat × world :=
  let r := osmremap w p orglen newlen
  let np := r.1
  if np ≠ 0 then
    let w1 := if np ≠ p then regdir rd r.2 0 p orglen else r.2
    let w2 : world := { w1 with regs := upd w1.regs reg { w1.regs reg with len := newlen, user := np } }
    (np, regdir rd w2 reg np newlen)
  else (np, (delregion rd r.2 reg).1)

def miniclas_tab : List Nat := [0, 2, 2, 4, 4, 8, 8, 8]

/-- The table `miniclas[8]`; an index past the table reads `0` here, C leaves the
value open. -/
def miniclas (i : Nat) : Nat := miniclas_tab.getD i 0

/-- The `return` statement of `yalloc_heap` that produced the result. -/
inductive Apath where
  | mmap
  | bump
  | bin
  | slab
  | buddy
  | fail
  deriving DecidableEq, Repr

/-- The result of `yalloc_heap`: the pointer, the new state and the path taken. -/
structure ares where
  p : Nat
  w : world
  path : Apath

/-- The rounded cell length `alen` that `yalloc_heap` derives from the request. -/
def class_alen (len : Nat) : Nat :=
  if len ≤ 8 then miniclas len else if len ≤ 16 then 16 else u32 (doalign 64 32 len 16)

/-- The class key `calen` that `yalloc_heap` derives from the request. -/
def class_calen (len : Nat) : Nat :=
  if len ≤ 8 then miniclas len else if len ≤ 16 then 16 else (class_alen len >>> 4) + 16

/-- The bin part of `yalloc_heap` (`alloc.h` lines 109 to 115): take the entry at the
lowest set bit of the mask of the class. -/
def clas_bin (w : world) (clas len : Nat) (clear : Bool) : Nat × world :=
  let binmask := w.hb.binmasks clas
  let e := ctz binmask
  let p := (w.hb.bins (clas * Bin + e)).p
  let w2 : world :=
    { w with hb.binmasks := upd w.hb.binmasks clas (u16 (binmask &&& notw 32 (u32 (1 <<< e)))) }
  (p, if clear then { w2 with mem := memset0 w2.mem p len } else w2)

/-- The part of `yalloc_heap` for a committed class with an empty bin (`alloc.h` lines
118 to 132, and 147): the region at the head of the class, a new one if that is full
or missing. `none` means that control falls through to the buddy allocator. -/
def clas_ring (rd : RegdirFn) (w : world) (clas alen len : Nat) (clear : Bool) :
    world × Option (Nat × Apath) :=
  let reg := w.hb.clasreg clas
  if reg ≠ 0 then
    if (w.regs reg).frecnt = 0 then
      let r := newslab rd w alen len
      let newreg := r.1
      if newreg = 0 then (r.2, some (0, Apath.fail))
      else
        let w2 : world :=
          { r.2 with regs := upd r.2.regs newreg { r.2.regs newreg with clas := clas, nxt := reg } }
        let w3 : world :=
          { w2 with regs := upd w2.regs newreg { w2.regs newreg with prv := (w2.regs reg).prv } }
        let w4 : world := { w3 with hb.clasreg := upd w3.hb.clasreg clas newreg }
        ((slab_alloc w4 newreg clear).2, some ((slab_alloc w4 newreg clear).1, Apath.slab))
    else ((slab_alloc w reg clear).2, some ((slab_alloc w reg clear).1, Apath.slab))
  else
    let r := newslab rd w alen len
    let w2 : world := { r.2 with hb.clasreg := upd r.2.hb.clasreg clas r.1 }
    if r.1 ≠ 0 then ((slab_alloc w2 r.1 clear).2, some ((slab_alloc w2 r.1 clear).1, Apath.slab))
    else (w2, none)

/-- The part of `yalloc_heap` for a tentative class without a committed class
(`alloc.h` lines 133 to 147): count the request, commit the class past the threshold. -/
def clas_commit (rd : RegdirFn) (w : world) (tclas alen len : Nat) (clear : Bool) :
    world × Option (Nat × Apath) :=
  let clascnt := w.hb.clascnt
  if clascnt < Maxclass then
    let cnt := (w.hb.sizecount tclas + 1) &&& 0x7f
    let w2 : world := { w with hb.sizecount := upd w.hb.sizecount tclas cnt }
    if cnt > Clas_threshold then
      let w3 : world :=
        { w2 with hb.tclas2clas := upd w2.hb.tclas2clas tclas clascnt,
                  hb.clascnt := u16 (clascnt + 1) }
      let r := newslab rd w3 alen len
      let reg := r.1
      if reg = 0 then (r.2, some (0, Apath.fail))
      else
        let w4 : world := { r.2 with regs := upd r.2.regs reg { r.2.regs reg with clas := clascnt } }
        let w5 : world := { w4 with hb.clasreg := upd w4.hb.clasreg clascnt reg }
        ((slab_alloc w5 reg clear).2, some ((slab_alloc w5 reg clear).1, Apath.slab))
    else (w2, none)
  else (w, none)

/-- The first part of the size class policy (`alloc.h` lines 97 to 103): the tentative
class of the key, a new one for a key not seen before. Returns the state and `tclas`. -/
def clas_tclas (w : world) (len : Nat) : world × Nat :=
  let calen := class_calen len
  let tclas0 := w.hb.len2tclas calen
  let tclascnt := w.hb.tclascnt
  if tclas0 = hi16 ∧ tclascnt < Maxtclass then
    ({ w with hb.len2tclas := upd w.hb.len2tclas calen tclascnt,
              hb.tclas2len := upd w.hb.tclas2len tclascnt (u16 calen),
              hb.tclascnt := u16 (tclascnt + 1) }, tclascnt)
  else (w, tclas0)

/-- The size class part of `yalloc_heap` (`alloc.h` lines 87 to 148), entered when the
bump arena cannot serve the request. `none` means that control falls through to the
buddy allocator, in the state returned. -/
def yalloc_clas (rd : RegdirFn) (w : world) (len : Nat) (clear : Bool) : world × Option (Nat × Apath) :=
  let alen := class_alen len
  let t := clas_tclas w len
  let tclas := t.2
  if tclas ≠ hi16 then
    let clas := t.1.hb.tclas2clas tclas
    if clas ≠ hi16 then
      if t.1.hb.binmasks clas ≠ 0 then
        ((clas_bin t.1 clas len clear).2, some ((clas_bin t.1 clas len clear).1, Apath.bin))
      else clas_ring rd t.1 clas alen len clear
    else clas_commit rd t.1 tclas alen len clear
  else (t.1, none)

/-- The end of `yalloc_heap` (`alloc.h` lines 151 to 155): default to buddy. -/
def yalloc_buddy (rd : RegdirFn) (w : world) (len : Nat) (clear : Bool) : ares :=
  let blen := if len < 2 ^ Minorder then 2 ^ Minorder else len
  ⟨(buddy_alloc rd w blen clear).1, (buddy_alloc rd w blen clear).2, Apath.buddy⟩

/-- The function `yalloc_heap`. -/
def yalloc_heap (rd : RegdirFn) (w : world) (len0 : Nat) (clear : Bool) : ares :=
  let len := u64 (len0 <<< guardbit)
  if len ≥ mmap_threshold then
    ⟨(yal_mmap rd w len).1, (yal_mmap rd w len).2, Apath.mmap⟩
  else if len < Maxclasslen then
    if w.hb.inipos + len + 2 * Basealign ≤ Inimem then
      ⟨w.hb.inimem + (w.hb.inipos + Basealign),
       { w with mem := wr4 w.mem (w.hb.inimem + w.hb.inipos) (u32 len),
                hb.inipos := u32 (w.hb.inipos + (u32 (doalign 64 32 len Basealign) + Basealign)) },
       Apath.bump⟩
    else
      match (yalloc_clas rd w len clear).2 with
      | some r => ⟨r.1, (yalloc_clas rd w len clear).1, r.2⟩
      | none => yalloc_buddy rd (yalloc_clas rd w len clear).1 len clear
  else yalloc_buddy rd w len clear

/-! ## heap.h: the heap of the thread -/

/-- The placement of a new heap in `newheap` (`heap.h` lines 48 to 59): the next
`len` bytes of the static `heapmem` while they last, else a mapping of its own. -/
def newheap_base (w : world) (len : Nat) : Nat × world :=
  let pos := w.heapmem_pos
  let w1 : world := { w with heapmem_pos := u32 (pos + len) &&& hi16 }
  if u32 (pos + len) ≤ Iniheap then (w1.heapmem + pos, w1) else osmmap w1 len

/-- The function `newheap`. The block it takes (static storage on first use, or a new
mapping) is fresh zero-filled memory: every field it does not set is zero. -/
def newheap (w : world) (delcnt : Nat) : Nat × world :=
  let hlen := sizeof_heap
  let rlen := inireg * sizeof_region
  let dlen := inidir * Dir * sizeof_region
  let blen := Inimem
  let id := w.heap_gid
  let len := doalign 32 32 (u32 (hlen + rlen + dlen + blen)) 16
  let fits : Bool := decide (u32 (w.heapmem_pos + len) ≤ Iniheap)
  let mm := newheap_base { w with heap_gid := u32 (id + 1) } len
  let cbase := mm.1
  if fits = false ∧ cbase = 0 then (0, mm.2)
  else
    (cbase, { mm.2 with hb :=
      { iniheap := fits, regmem := cbase + hlen, regmem_top := inireg,
        dirmem := cbase + hlen + rlen, dirmem_top := inidir,
        inimem := cbase + hlen + rlen + dlen, delcnt := delcnt, baselen := len, id := id,
        len2tclas := fun _ => hi16, tclas2clas := fun _ => hi16 } })

/-- The function `getheap`. -/
def getheap (w : world) : Nat × world :=
  let hx := w.thread_heap
  let delcnt := if hx &&& 1 ≠ 0 then u32 (hx >>> 1) else 0
  let r : Nat × world :=
    if hx &&& 1 ≠ 0 then newheap w delcnt
    else if hx = 0 then newheap w delcnt else (hx, w)
  if r.1 = 0 then (0, r.2)
  else (r.1, { r.2 with thread_heap := r.1, hb.delcnt := delcnt })

/-- The function `yalloc`. -/
def yalloc (rd : RegdirFn) (w : world) (len : Nat) (clear : Bool) : Nat × world :=
  let w1 : world := { w with nested := u32 (w.nested + 1) }
  if w.nested > 5 then (w.tls, w1)
  else
    let g := getheap w1
    let w2 : world := { g.2 with nested := subw 32 g.2.nested 1 }
    if g.1 = 0 then (0, w2)
    else
      let r := yalloc_heap rd w2 len clear
      (r.p, r.w)

/-- The tail of `yalloc_align` from the call of `buddy_alloc` on. -/
def yalloc_align_buddy (rd : RegdirFn) (w : world) (align len : Nat) : Nat × world :=
  let b := buddy_alloc rd w len false
  if b.1 = 0 then (0, b.2)
  else (doalign 64 64 b.1 align, buddy_addref b.2 b.2.hb.lastreg b.1 (doalign 64 64 b.1 align))

/-- The function `yalloc_align`. After the branch for `len > Mmap_threshold` with
`align > Page` control runs on into the call of `buddy_alloc`. -/
def yalloc_align (rd : RegdirFn) (w : world) (align len : Nat) : Nat × world :=
  let alen := if len ≤ 8 then miniclas len else 16
  if align ≤ alen then yalloc rd w len false
  else
    let g := getheap w
    if g.1 = 0 then (0, g.2)
    else
      let len1 := max len align
      let len2 := if align > Page then u64 (len1 + align) else len1
      if len2 > Mmap_threshold then
        let r := yalloc_heap rd g.2 len2 false
        if align ≤ Page then (r.p, r.w)
        else
          let ap := doalign 64 64 r.p align
          let reg := r.w.hb.lastreg
          let w3 : world := { r.w with regs := upd r.w.regs reg { r.w.regs reg with meta := ap } }
          yalloc_align_buddy rd w3 align len2
      else yalloc_align_buddy rd g.2 align len2

/-! ## region.h: lookup -/

/-- The `do ... while (shift)` loop of `findregion`. The entry `dp` is the one taken
from the root before the loop; the loop body does not move it. -/
def findregion_walk (dp : direntry) : Nat → Nat → Nat
  | 0, _ => 0
  | n + 1, shift =>
    if dp.reg ≠ 0 then dp.reg
    else if dp.dir = 0 then 0
    else if subw 16 shift Dir ≠ 0 then findregion_walk dp n (subw 16 shift Dir)
    else 0

/-- The function `findregion`; `shift` starts at 32 and drops by 8: four rounds. -/
def findregion (w : world) (ip : Nat) : Nat :=
  let x := ip >>> Minregion
  let shift := Maxvm - Dir
  findregion_walk (w.hb.rootdir ((x >>> shift) &&& Dirmsk)) 4 shift

/-! ## free.h -/

/-- The `return` statement of `yfree_heap` that was taken. -/
inductive Fout where
  | bump
  | outside_vm
  | unallocated
  | rejected
  | recycled
  | mmap_invalid
  | mmap_done
  | finish
  deriving DecidableEq, Repr

/-- The result of `yfree_heap`: the new state, the exit taken, and whether the pointer
was stored in a recycle bin. -/
structure fres where
  w : world
  out : Fout
  binned : Bool

/-- The test `cp >= hb->inimem + 4 && cp < hb->inimem + Inimem`. -/
def in_inimem (w : world) (p : Nat) : Bool :=
  decide (p ≥ w.hb.inimem + 4 ∧ p < w.hb.inimem + Inimem)

/-- The scan `for (new = 0; new < Bin; new++)` for `p` among bin entries of a class;
with `masked` only slots whose mask bit is set count. -/
def bin_has (w : world) (clas binmask p : Nat) (masked : Bool) : Nat → Bool
  | 0 => false
  | n + 1 =>
    bin_has w clas binmask p masked n ||
      (((!masked) || decide (binmask &&& u32 (1 <<< n) ≠ 0)) &&
        decide ((w.hb.bins (clas * Bin + n)).p = p))

/-- The eviction in `yfree_heap` when the bin is full (`free.h` lines 109 to 123): the
entry of the last slot goes back to its slab; a region that became all free is taken
out of the ring of the class and deleted. -/
def yfree_evict (rd : RegdirFn) (w : world) (clas : Nat) : world :=
  let old := Bin - 1
  let oldreg := (w.hb.bins (clas * Bin + old)).reg
  let xp := (w.hb.bins (clas * Bin + old)).p
  let sf := slab_free w oldreg xp
  if sf.2 then
    let s := sf.1
    let nxreg := (s.regs oldreg).nxt
    let pxreg := (s.regs oldreg).prv
    let clreg := s.hb.clasreg clas
    let s1 : world := { s with regs := upd s.regs nxreg { s.regs nxreg with prv := pxreg } }
    let s2 : world := { s1 with regs := upd s1.regs pxreg { s1.regs pxreg with nxt := nxreg } }
    let s3 : world :=
      if oldreg = clreg then
        { s2 with hb.clasreg := upd s2.hb.clasreg clas (if pxreg ≠ 0 then pxreg else nxreg) }
      else s2
    (delregion rd s3 oldreg).1
  else sf.1

/-- The recycle bin part of `yfree_heap` (`free.h` lines 105 to 140); `none` when the
pointer is found in the bin. -/
def yfree_bin (rd : RegdirFn) (w : world) (reg clas p : Nat) : Option world :=
  let binmask := w.hb.binmasks clas
  let base := clas * Bin
  if binmask = Binmask then
    if bin_has w clas binmask p false Bin then none
    else
      let w1 := yfree_evict rd w clas
      let w2 : world := { w1 with hb.bins := upd w1.hb.bins (base + (Bin - 1)) (w1.hb.bins (base + 0)) }
      some { w2 with hb.bins := upd w2.hb.bins (base + 0) ⟨p, reg⟩ }
  else if binmask = 0 then
    some { w with hb.bins := upd w.hb.bins (base + 0) ⟨p, reg⟩,
                  hb.binmasks := upd w.hb.binmasks clas 1 }
  else
    if bin_has w clas binmask p true Bin then none
    else
      let new := ctz binmask
      some { w with hb.bins := upd w.hb.bins (base + new) ⟨p, reg⟩,
                    hb.binmasks := upd w.hb.binmasks clas (u16 (w.hb.binmasks clas ||| u32 (1 <<< new))) }

/-- The last part of `yfree_heap` (`free.h` lines 143 to 158): dispatch on the kind
of the region. -/
def yfree_typ (rd : RegdirFn) (w : world) (reg p : Nat) (binned : Bool) : fres :=
  if (w.regs reg).typ = Rtype.Rbuddy then
    let bf := buddy_free w reg p
    ⟨if bf.2 then (delregion rd bf.1 reg).1 else bf.1, Fout.finish, binned⟩
  else if (w.regs reg).typ = Rtype.Rmmap then
    let cp := (w.regs reg).user
    let ap := (w.regs reg).meta
    if ap ≠ 0 ∧ p ≠ ap then ⟨w, Fout.mmap_invalid, binned⟩
    else if ap = 0 ∧ p ≠ cp then ⟨w, Fout.mmap_invalid, binned⟩
    else
      let fm := free_mmap rd w reg p
      ⟨if fm.2 then delheap fm.1 false else fm.1, Fout.mmap_done, binned⟩
  else ⟨w, Fout.finish, binned⟩

/-- The function `yfree_heap`. -/
def yfree_heap (rd : RegdirFn) (w : world) (p _len : Nat) : fres :=
  if in_inimem w p then
    ⟨{ w with mem := wr4 w.mem (p - 4) 0 }, Fout.bump, false⟩
  else if p ≥ 2 ^ Maxvm then ⟨w, Fout.outside_vm, false⟩
  else
    let reg := findregion w p
    if reg = 0 then ⟨w, Fout.unallocated, false⟩
    else
      let clas := (w.regs reg).clas
      if clas ≠ Noclass then
        if slab_chk4free w reg p then ⟨w, Fout.rejected, false⟩
        else
          match yfree_bin rd w reg clas p with
          | none => ⟨w, Fout.recycled, false⟩
          | some w1 => yfree_typ rd w1 reg p true
      else yfree_typ rd w reg p false

/-- The function `yfree`. -/
def yfree (rd : RegdirFn) (w : world) (p len : Nat) : Option fres :=
  if w.thread_heap = 0 then none else some (yfree_heap rd w p len)

/-! ## realloc.h -/

/-- The function `realloc_copy`; `FREE_FAIL_REALLOC` is 0. -/
def realloc_copy (rd : RegdirFn) (w : world) (op olen nlen : Nat) (dofree : Bool) : Nat × world :=
  let a := yalloc_heap rd w nlen false
  let np := a.p
  let w1 : world := if np ≠ 0 then { a.w with mem := memcpy a.w.mem np op olen } else a.w
  let w2 : world := if dofree = true ∧ np ≠ 0 then (yfree_heap rd w1 op 0).w else w1
  (np, w2)

/-- The function `yrealloc`. -/
def yrealloc (rd : RegdirFn) (w : world) (p newlen : Nat) : Nat × world :=
  if w.thread_heap = 0 then (0, w)
  else if in_inimem w p then
    let oldlen := rd4 w.mem (p - 4)
    if newlen ≤ oldlen then (p, w)
    else realloc_copy rd w p oldlen newlen false
  else
    let reg := findregion w p
    if reg = 0 then (0, w)
    else if (w.regs reg).typ = Rtype.Rslab then
      let orglen := (w.regs reg).cellen
      let clas := (w.regs reg).clas
      if bin_has w clas (w.hb.binmasks clas) p true Bin then (0, w)
      else if newlen ≤ orglen then (p, w)
      else realloc_copy rd w p orglen newlen true
    else if (w.regs reg).typ = Rtype.Rbuddy then buddy_realloc w reg p newlen
    else if (w.regs reg).typ = Rtype.Rmmap then
      if p &&& (Page - 1) ≠ 0 then (0, w)
      else
        let orglen := (w.regs reg).len
        if newlen ≤ orglen then (p, w)
        else mmap_realloc rd w reg p orglen newlen
    else (0, w)

/-! ## std.h -/

/-- A diagnostic raised by an entry point of `std.h`. -/
inductive Diag where
  | oom
  | zeroblock_written
  | empty_heap
  | heap (out : Fout)
  deriving DecidableEq, Repr

/-- The entry point `malloc`. -/
def malloc (rd : RegdirFn) (w : world) (n : Nat) : Nat × world :=
  if n ≠ 0 then
    if n > Maxvmsiz >>> 2 then (0, w) else yalloc rd w n false
  else (w.zeroblock, w)

/-- The entry point `free`; the static `zeroblock` is the `size_t` stored at the
address `w.zeroblock`. Returns the state and the diagnostics raised. -/
def free (rd : RegdirFn) (w : world) (p : Nat) : world × List Diag :=
  if p = 0 then (w, [])
  else if p = w.zeroblock then
    (w, if rd8 w.mem w.zeroblock ≠ 0 then [Diag.zeroblock_written] else [])
  else
    match yfree rd w p 0 with
    | none => (w, [Diag.empty_heap])
    | some r => (r.w, [Diag.heap r.out])

/-- The entry point `calloc`, the branch compiled when `size_t` has 64 bits. -/
def calloc (rd : RegdirFn) (w : world) (count size : Nat) : Nat × world :=
  if count ||| size = 0 then malloc rd w 0
  else if count * size ≥ 2 ^ 64 then (0, w)
  else if count * size > Maxvmsiz >>> 2 then (0, w)
  else yalloc rd w (count * size) true

/-- The entry point `realloc`. -/
def realloc (rd : RegdirFn) (w : world) (p newlen : Nat) : Nat × world :=
  if p = 0 then malloc rd w newlen
  else if newlen = 0 then (0, (free rd w p).1)
  else if newlen > Maxvmsiz >>> 2 then (0, w)
  else yrealloc rd w p newlen

/-- The entry point `aligned_alloc`. -/
def aligned_alloc (rd : RegdirFn) (w : world) (align size : Nat) : Nat × world :=
  if size > Maxvmsiz >>> 1 ∨ align > Maxvmsiz >>> 2 then (0, w)
  else if size = 0 then malloc rd w 0
  else yalloc_align rd w align size

/-! ## printf.c -/

def Maxfmt : Nat := 256

def hi28 : Nat := 0xfffffff

def Radixdec : Nat := 0

def Radixoct : Nat := 1

def Radixhex : Nat := 2

def Radixbin : Nat := 3

def Fmtinv : Nat := 0

def Flgws : Nat := 1

def Flgpls : Nat := 2

def Flgpad0 : Nat := 4

def Fmtdot : Nat := 5

def Fmtast : Nat := 6

def Flgleft : Nat := 8

def Modh : Nat := 9

def Modl : Nat := 10

def ModL : Nat := 11

def Modj : Nat := 12

def Modz : Nat := 13

def Modt : Nat := 14

def Modw : Nat := 15

def Flgalt : Nat := 16

def ModD : Nat := 17

def ModH : Nat := 18

def Flghr : Nat := 32

def Dig0 : Nat := 33

def Flgdot3 : Nat := 64

def Fmtc : Nat := 65

def Fmts : Nat := 66

def Fmtm : Nat := 67

def Fmtd : Nat := 68

def Fmtu : Nat := 69

def Fmtb : Nat := 70

def FmtB : Nat := 71

def Fmto : Nat := 72

def Fmtx : Nat := 73

def FmtX : Nat := 74

def Fmtp : Nat := 75

def Fmtf : Nat := 76

def FmtF : Nat := 77

def Fmtg : Nat := 78

def FmtG : Nat := 79

def Fmte : Nat := 80

def FmtE : Nat := 81

def Fmta : Nat := 82

def FmtA : Nat := 83

def Fmtpct : Nat := 84

def Fmtn : Nat := 85

def Fmteof : Nat := 86

/-- The enumeration `Cnv`. -/
inductive Cnv where
  | Cnvinv
  | Cnvu
  | Cnvc
  | Cnve
  | Cnvs
  | Cnvp
  | Cnvn
  | Cnvm
  | Cnvlu
  | Cnvllu
  | Cnvle
  | Cnvju
  | Cnvln
  deriving DecidableEq, Repr

/-- The function `ucnv`, with the bytes between `org` and `end` as a list: the digits go
in front of the list. -/
def ucnvAux : Nat → Nat → List Nat → List Nat
  | 0, _, seg => seg
  | fuel + 1, x, seg =>
    if x / 10 ≠ 0 then ucnvAux fuel (x / 10) ((x % 10 + 48) :: seg) else (x % 10 + 48) :: seg

def ucnv (seg : List Nat) (x : Nat) : List Nat := ucnvAux 10 x seg

def hextab (Case d : Nat) : Nat :=
  if d < 10 then d + 48 else if Case ≠ 0 then d - 10 + 65 else d - 10 + 97

/-- The loop of `hexcnv` and `hexlcnv`. -/
def hexcnvAux (Case : Nat) : Nat → Nat → List Nat → List Nat
  | 0, _, seg => seg
  | fuel + 1, x, seg =>
    if x >>> 4 ≠ 0 then hexcnvAux Case fuel (x >>> 4) (hextab Case (x &&& 0xf) :: seg)
    else hextab Case (x &&& 0xf) :: seg

def hexcnv (seg : List Nat) (x Case : Nat) : List Nat := hexcnvAux Case 8 x seg

def hexlcnv (seg : List Nat) (x Case : Nat) : List Nat := hexcnvAux Case 16 x seg

/-- The loop `do *--end = (x & msk) + '0'; while (x >>= shr);` of `xcnv` and `xlcnv`. -/
def xcnvAux (msk shr : Nat) : Nat → Nat → List Nat → List Nat
  | 0, _, seg => seg
  | fuel + 1, x, seg =>
    if x >>> shr ≠ 0 then xcnvAux msk shr fuel (x >>> shr) (((x &&& msk) + 48) :: seg)
    else ((x &&& msk) + 48) :: seg

/-- The functions `xcnv` (32 bits) and `xlcnv` (64 bits): octal and binary. -/
def xcnvW (bits : Nat) (seg : List Nat) (x rdx flags : Nat) : List Nat :=
  if rdx = Radixdec ∨ rdx = Radixhex then seg
  else
    let r := if rdx = Radixoct then xcnvAux 7 3 bits x seg else xcnvAux 1 1 bits x seg
    if flags &&& Flgalt ≠ 0 ∧ r.headD 0 ≠ 48 then 48 :: r else r

def xcnv (seg : List Nat) (x rdx flags : Nat) : List Nat := xcnvW 32 seg x rdx flags

def xlcnv (seg : List Nat) (x rdx flags : Nat) : List Nat := xcnvW 64 seg x rdx flags

/-- The loop `while (x >= 10)` of `ulcnv`, two digits a round, and the digit left over. -/
def ulcnvAux : Nat → Nat → List Nat → List Nat
  | 0, _, seg => seg
  | fuel + 1, x, seg =>
    if x ≥ 10 then ulcnvAux fuel (x / 100) ((x % 100 / 10 + 48) :: (x % 100 % 10 + 48) :: seg)
    else if x ≠ 0 then (x % 10 + 48) :: seg else seg

def ulcnv (seg : List Nat) (x : Nat) : List Nat :=
  if x = 0 then 48 :: seg else ulcnvAux 11 x seg

/-- The function `hrcnv`. -/
def hrcnv (seg : List Nat) (x1 x2 scale : Nat) : List Nat :=
  ucnv (46 :: (min ((x2 &&& 0x3ff) / 100) 9 + 48) :: 32 :: scale :: seg) x1

/-- The function `Ucnv`. -/
def Ucnv (seg : List Nat) (x : Nat) : List Nat :=
  if x ≥ 1024 * 1024 * 1024 then hrcnv seg (x >>> 30) (x >>> 20) 71
  else if x ≥ 1024 * 1024 then hrcnv seg (x >>> 20) (x >>> 10) 77
  else if x ≥ 1024 then hrcnv seg (x >>> 10) x 107
  else ucnv seg x

/-- The function `Ulcnv`. -/
def Ulcnv (seg : List Nat) (x : Nat) : List Nat :=
  if x ≥ 2 ^ 60 then hrcnv seg (u32 (x >>> 60)) (u32 (x >>> 50)) 69
  else if x ≥ 2 ^ 50 then hrcnv seg (u32 (x >>> 50)) (u32 (x >>> 40)) 80
  else if x ≥ 2 ^ 40 then hrcnv seg (u32 (x >>> 40)) (u32 (x >>> 30)) 84
  else if x ≥ 2 ^ 30 then hrcnv seg (u32 (x >>> 30)) (u32 (x >>> 20)) 71
  else Ucnv seg (u32 x)

/-- The table `fmtmap[128]`, by character code. -/
def fmtmap (c : Nat) : Nat :=
  match c with
  | 0 => Fmteof
  | 45 => Flgleft
  | 43 => Flgpls
  | 32 => Flgws
  | 35 => Flgalt
  | 48 => Dig0
  | 73 => Flghr
  | 39 => Flgdot3
  | 46 => Fmtdot
  | 42 => Fmtast
  | 49 => Dig0 + 1
  | 50 => Dig0 + 2
  | 51 => Dig0 + 3
  | 52 => Dig0 + 4
  | 53 => Dig0 + 5
  | 54 => Dig0 + 6
  | 55 => Dig0 + 7
  | 56 => Dig0 + 8
  | 57 => Dig0 + 9
  | 108 => Modl
  | 104 => Modh
  | 76 => ModL
  | 122 => Modz
  | 116 => Modt
  | 106 => Modj
  | 119 => Modw
  | 68 => ModD
  | 72 => ModH
  | 98 => Fmtb
  | 66 => FmtB
  | 100 => Fmtd
  | 105 => Fmtd
  | 117 => Fmtu
  | 111 => Fmto
  | 120 => Fmtx
  | 88 => FmtX
  | 102 => Fmtf
  | 70 => FmtF
  | 103 => Fmtg
  | 71 => FmtG
  | 101 => Fmte
  | 69 => FmtE
  | 97 => Fmta
  | 65 => FmtA
  | 99 => Fmtc
  | 115 => Fmts
  | 112 => Fmtp
  | 110 => Fmtn
  | 109 => Fmtm
  | 37 => Fmtpct
  | _ => Fmtinv

/-- An argument in the `va_list`: an `int` or `unsigned int` as its 32-bit pattern, a
`long`, `size_t` or `uintmax_t` as its 64-bit pattern, or a pointer to a string, given
by the bytes before its null; `strp none` is the null pointer. -/
inductive Arg where
  | int (v : Nat)
  | long (v : Nat)
  | strp (s : Option (List Nat))
  deriving DecidableEq, Repr

/-- The variables of `mini_vsnprintf` that live across conversions: the buffer (by
absolute index), the count `n`, the index `pi` into the format, the arguments left, and
`u4`. -/
structure pst where
  dst : Nat → Nat
  n : Nat
  pi : Nat
  ap : List Arg
  u4 : Nat

/-- The variables of one conversion of `mini_vsnprintf`; `seg` holds the bytes between
`org` and `end` in `cnvbuf`, `vp` the string that `vp` points to. -/
structure cspec where
  cnv : Cnv := Cnv.Cnvinv
  prec : Nat := hi32
  wid : Nat := hi16
  mindig : Nat := hi32
  modl : Nat := 0
  modh : Nat := 0
  modD : Nat := 0
  mod : Nat := 0
  modw : Nat := 0
  flags : Nat := 0
  rdx : Nat := Radixdec
  sign : Bool := false
  flgdon : Bool := false
  Case : Nat := 0
  simple : Bool := true
  fx : Nat := 0
  u8 : Nat := 0
  isneg : Bool := false
  iszero : Bool := false
  vp : Option (List Nat) := none
  seg : List Nat := []

/-- The byte `p[i]` of the format: the bytes of `fmt`, then the null. The function reads
past the null in one place, the test for a backquote after a `%` that ends the format;
the conversion is `Cnvinv` there and the byte read has no effect, it is 0 here. -/
def fget (fmt : List Nat) (i : Nat) : Nat := fmt.getD i 0

/-- The loop `while ( (c = p[pi]) >= '0' && c <= '9')` that reads a number. -/
def digits (fmt : List Nat) : Nat → Nat → Nat → Nat × Nat
  | 0, pi, u4 => (pi, u4)
  | fuel + 1, pi, u4 =>
    if fget fmt pi ≥ 48 ∧ fget fmt pi ≤ 57 then
      digits fmt fuel (pi + 1) ((u4 &&& hi28) * 10 + (fget fmt pi - 48))
    else (pi, u4)

/-- Store the byte `c` at `dst[n++]`. -/
def putc (pos : Nat) (s : pst) (c : Nat) : pst :=
  { s with dst := upd s.dst (pos + s.n) c, n := u32 (s.n + 1) }

/-- One round of the loop `do { ... } while (fx && fx < Fmtc)` of `mini_vsnprintf`
(`printf.c` lines 604 to 711), after `c` and `fx` have been taken; `none` where the
arguments do not fit the format. -/
def spec_step (fmt : List Nat) (pos dlen : Nat) (s : pst) (q : cspec) (c fx : Nat) :
    Option (pst × cspec) :=
  if fx = Flgleft ∨ fx = Flgpls ∨ fx = Flgws ∨ fx = Flgalt ∨ fx = Flgdot3 ∨ fx = Flghr ∨
      fx = Flgpad0 then
    some (s, { q with simple := false, flags := q.flags ||| fx })
  else if fx = Dig0 ∧ q.flgdon = false then
    some (s, { q with flags := q.flags ||| Flgpad0 })
  else if Dig0 ≤ fx ∧ fx ≤ Dig0 + 9 then
    if q.flgdon then some (s, q)
    else
      let d := digits fmt (fmt.length + 1) s.pi (fx - Dig0)
      let s1 : pst := { s with pi := d.1, u4 := d.2 }
      if q.mod = Modw then some (s1, { q with modw := min d.2 128 })
      else
        let q1 : cspec :=
          if q.wid = hi16 then { q with flgdon := true, wid := u16 d.2 }
          else { q with flgdon := true, prec := d.2 }
        some (s1, if d.2 > 1 then { q1 with simple := false } else q1)
  else if fx = Fmtdot then
    some (s, { q with flgdon := true, wid := if q.wid = hi16 then 0 else q.wid, prec := 0 })
  else if fx = Fmtast then
    match s.ap with
    | Arg.int s4 :: rest =>
      let s1 : pst := { s with ap := rest }
      if q.wid = hi16 then
        let q1 : cspec :=
          if s4 ≥ 2 ^ 31 then
            { q with flgdon := true, wid := u16 (2 ^ 32 - s4), flags := q.flags ||| Flgleft }
          else { q with flgdon := true, wid := u16 s4 }
        some (s1, if q1.wid > 1 then { q1 with simple := false } else q1)
      else if s4 < 2 ^ 31 then
        some (s1, { q with flgdon := true, prec := s.u4,
                           simple := if s.u4 > 1 then false else q.simple })
      else some (s1, { q with flgdon := true })
    | _ => none
  else if fx = Modh then some (s, { q with modh := (q.modh + 1) &&& 7 })
  else if fx = Modl then some (s, { q with modl := (q.modl + 1) &&& 7 })
  else if fx = ModD then some (s, { q with modD := (q.modD + 1) &&& 3 })
  else if fx = Modw then
    some (if fget fmt s.pi = 102 then { s with pi := s.pi + 1 } else s,
      { q with modw := 0, mod := fx })
  else if fx = Modj ∨ fx = Modz ∨ fx = Modt ∨ fx = ModH ∨ fx = ModL then
    some (s, { q with mod := fx })
  else if fx = Fmtd then some (s, { q with sign := true, cnv := Cnv.Cnvc })
  else if fx = Fmtc then some (s, { q with cnv := Cnv.Cnvc })
  else if fx = Fmtu then some (s, { q with cnv := Cnv.Cnvu })
  else if fx = FmtB then some (s, { q with Case := 1, rdx := Radixbin, cnv := Cnv.Cnvu })
  else if fx = Fmtb then some (s, { q with rdx := Radixbin, cnv := Cnv.Cnvu })
  else if fx = Fmto then some (s, { q with rdx := Radixoct, cnv := Cnv.Cnvu })
  else if fx = FmtX then some (s, { q with Case := 1, rdx := Radixhex, cnv := Cnv.Cnvu })
  else if fx = Fmtx then some (s, { q with rdx := Radixhex, cnv := Cnv.Cnvu })
  else if fx = Fmts then
    some (s, { q with prec := min q.prec (subw 32 (subw 32 dlen pos) s.n), cnv := Cnv.Cnvs })
  else if fx = Fmtm then
    some (s, { q with prec := min q.prec (subw 32 (subw 32 dlen pos) s.n), cnv := Cnv.Cnvm })
  else if fx = FmtA ∨ fx = Fmta then
    some (s, { q with flags := q.flags ||| Flgalt, cnv := Cnv.Cnve })
  else if fx = FmtF ∨ fx = FmtG ∨ fx = FmtE ∨ fx = Fmtf ∨ fx = Fmtg ∨ fx = Fmte then
    some (s, { q with cnv := Cnv.Cnve })
  else if fx = Fmtp then
    some (s, { q with cnv := Cnv.Cnvu, rdx := Radixhex, mod := Modz,
                      flags := q.flags ||| Flgalt })
  else if fx = Fmtpct then some (putc pos s c, q)
  else if fx = Fmtinv then some (putc pos (putc pos (putc pos s 37) c) 33, q)
  else some (s, q)

/-- The loop `do { ... } while (fx && fx < Fmtc)` of `mini_vsnprintf`; a float
conversion sets `Case` and the precision in each round. -/
def spec_loop (fmt : List Nat) (pos dlen : Nat) : Nat → pst → cspec → Option (pst × cspec)
  | 0, _, _ => none
  | fuel + 1, s, q =>
    let c := fget fmt s.pi
    let fx := if c < 128 then fmtmap c else Fmtinv
    match spec_step fmt pos dlen { s with pi := s.pi + 1 } q c fx with
    | none => none
    | some r =>
      let q1 : cspec :=
        if r.2.cnv = Cnv.Cnve then
          { r.2 with fx := fx, Case := fx &&& 1,
                     prec := if r.2.prec = hi32 then 6
                             else if r.2.prec > Maxfmt - 32 then Maxfmt - 32 else r.2.prec }
        else { r.2 with fx := fx }
      if fx ≠ 0 ∧ fx < Fmtc then spec_loop fmt pos dlen fuel r.1 q1 else some (r.1, q1)

/-- The part of `mini_vsnprintf` that applies the modifiers (`printf.c` lines 713 to
761), as compiled where `long` and `long long` have 64 bits; `modwtab` is all zero. -/
def spec_mods (fmt : List Nat) (s : pst) (q : cspec) : pst × cspec :=
  let hr : Bool := decide (fget fmt s.pi = 96 ∧ q.cnv = Cnv.Cnvu)
  let s1 : pst := if hr then { s with pi := s.pi + 1 } else s
  let q1 : cspec := if hr then { q with flags := q.flags ||| Flghr } else q
  if q1.cnv = Cnv.Cnvu then
    let modl := if q1.mod = Modw then 0 else q1.modl
    let modh := if q1.mod = Modw then 0 else q1.modh
    let cnv :=
      if modl ≠ 0 then Cnv.Cnvlu
      else if q1.mod = Modz then Cnv.Cnvlu
      else if q1.mod = Modt then Cnv.Cnvlu
      else if q1.mod = Modj then Cnv.Cnvju
      else Cnv.Cnvu
    let q2 : cspec := { q1 with modl := modl, modh := modh, cnv := cnv }
    let q3 : cspec :=
      if q2.prec = hi32 then { q2 with prec := 1 }
      else { q2 with flags := q2.flags &&& notw 8 Flgpad0,
                     prec := if q2.prec > Maxfmt - 32 then Maxfmt - 32 else q2.prec }
    (s1, { q3 with mindig := q3.prec })
  else if q1.cnv = Cnv.Cnve then (s1, { q1 with sign := true })
  else (s1, { q1 with flags := q1.flags &&& notw 32 (Flgpad0 ||| Flgdot3) })

/-- The negation of a signed value for a conversion with `sign`, in a word of `bits`
bits. -/
def absneg (bits : Nat) (sign : Bool) (v : Nat) : Nat × Bool :=
  if sign = true ∧ v ≥ 2 ^ (bits - 1) then (2 ^ bits - v, true) else (v, false)

/-- The part of `mini_vsnprintf` that fetches the arguments (`printf.c` lines 768 to
843). `none` for a float conversion and for `%m`, which are outside this model, and
where the argument list does not fit the format. -/
def spec_args (pos : Nat) (s : pst) (q0 : cspec) : Option (pst × cspec) :=
  let q : cspec := { q0 with isneg := false, iszero := false, seg := [] }
  match q.cnv with
  | Cnv.Cnvc =>
    match s.ap with
    | Arg.int s4 :: rest =>
      if q.simple then some (putc pos { s with ap := rest } (s4 % 256), { q with cnv := Cnv.Cnvinv })
      else
        some ({ s with ap := rest },
          { q with vp := some (if s4 % 256 = 0 then [] else [s4 % 256]), cnv := Cnv.Cnvs,
                   prec := hi32 })
    | _ => none
  | Cnv.Cnvu =>
    match s.ap with
    | Arg.int v :: rest =>
      let a := absneg 32 q.sign v
      let u4 := if q.modh = 1 then a.1 % 2 ^ 16 else if q.modh ≠ 0 then a.1 % 2 ^ 8 else a.1
      some ({ s with ap := rest, u4 := u4 }, { q with iszero := decide (v = 0), isneg := a.2 })
    | _ => none
  | Cnv.Cnvlu =>
    match s.ap with
    | Arg.long v :: rest =>
      let a := absneg 64 q.sign v
      if a.1 ≤ hi32 then
        some ({ s with ap := rest, u4 := a.1 },
          { q with iszero := decide (v = 0), isneg := a.2, u8 := a.1, cnv := Cnv.Cnvu })
      else
        some ({ s with ap := rest }, { q with iszero := decide (v = 0), isneg := a.2, u8 := a.1 })
    | _ => none
  | Cnv.Cnvju =>
    match s.ap with
    | Arg.long v :: rest =>
      let a := absneg 64 q.sign v
      if a.1 ≤ hi32 then
        some ({ s with ap := rest, u4 := a.1 },
          { q with iszero := decide (v = 0), isneg := a.2, cnv := Cnv.Cnvu })
      else
        some ({ s with ap := rest }, { q with iszero := decide (v = 0), isneg := a.2,
                                              cnv := Cnv.Cnvllu })
    | _ => none
  | Cnv.Cnve => none
  | Cnv.Cnvle => none
  | Cnv.Cnvm => none
  | Cnv.Cnvs =>
    match s.ap with
    | Arg.strp v :: rest => some ({ s with ap := rest }, { q with vp := v })
    | _ => none
  | Cnv.Cnvn =>
    match s.ap with
    | Arg.strp v :: rest => some ({ s with ap := rest }, { q with vp := v })
    | _ => none
  | Cnv.Cnvp =>
    match s.ap with
    | Arg.strp v :: rest => some ({ s with ap := rest }, { q with vp := v })
    | _ => none
  | _ => some (s, q)

/-- The loop `while (slen < prec && slen < wid && p8[sndx++]) slen++` of `%s`, over the
bytes of the string; the end of the list is the null. -/
def str_len : List Nat → Nat → Nat → Nat → Nat
  | [], _, _, slen => slen
  | d :: rest, prec, wid, slen =>
    if slen < prec ∧ slen < wid ∧ d ≠ 0 then str_len rest prec wid (slen + 1) else slen

/-- The loop `while (prec && (d = *p8++) ) { dst[n++] = d; prec--; }` of `%s`. -/
def str_copy (pos : Nat) : List Nat → Nat → pst → pst
  | [], _, s => s
  | d :: rest, prec, s =>
    if prec ≠ 0 ∧ d ≠ 0 then str_copy pos rest (prec - 1) (putc pos s d) else s

/-- The call `memcpy(dst + at,src,len)`, with the `len` bytes of `src` as a list. -/
def wr_list : (Nat → Nat) → Nat → List Nat → Nat → Nat
  | dst, _, [] => dst
  | dst, at_, b :: rest => wr_list (upd dst at_ b) (at_ + 1) rest

/-- The call `memset(dst + at,c,len)`. -/
def put_fill (dst : Nat → Nat) (at_ c len : Nat) : Nat → Nat :=
  fun j => if at_ ≤ j ∧ j < at_ + len then c else dst j

/-- The conversion `Cnvs` of `mini_vsnprintf` (`printf.c` lines 935 to 954). -/
def print_s (pos : Nat) (s : pst) (q : cspec) : pst × cspec :=
  let p8 := match q.vp with
    | none => [40, 110, 105, 108, 41]
    | some l => l
  let slen := if q.wid ≠ hi16 ∧ q.wid ≠ 0 then str_len p8 q.prec q.wid 0 else 0
  let wid := if q.wid ≠ hi16 ∧ q.wid ≠ 0 ∧ q.wid ≤ slen then hi16 else q.wid
  if wid ≠ hi16 ∧ wid > slen then
    let sorg := if q.flags &&& Flgleft ≠ 0 then s.n else u32 (s.n + wid - slen)
    let padorg := if q.flags &&& Flgleft ≠ 0 then u32 (s.n + slen) else s.n
    let d1 := wr_list s.dst (pos + sorg) (p8.take slen)
    ({ s with dst := put_fill d1 (pos + padorg) 32 (wid - slen), n := u32 (s.n + wid) },
     { q with wid := wid })
  else (str_copy pos p8 q.prec s, { q with wid := wid })

/-- The part of `mini_vsnprintf` that converts (`printf.c` lines 845 to 957). -/
def spec_print (pos : Nat) (s0 : pst) (q0 : cspec) : pst × cspec :=
  let z : pst × cspec :=
    if q0.iszero then
      let q1 : cspec := { q0 with flags := q0.flags &&& notw 32 Flgalt }
      if q1.prec = 0 then
        if q1.wid = hi16 ∨ q1.wid = 0 then (s0, { q1 with cnv := Cnv.Cnvinv })
        else (s0, { q1 with cnv := Cnv.Cnvs, vp := some [] })
      else if q1.simple then (putc pos s0 48, { q1 with cnv := Cnv.Cnvinv })
      else (s0, q1)
    else (s0, q0)
  let s := z.1
  let q := z.2
  match q.cnv with
  | Cnv.Cnvu =>
    let q1 : cspec :=
      if q.rdx = Radixhex ∧ s.u4 ≤ 9 then { q with flags := q.flags &&& notw 8 Flgalt } else q
    if q1.iszero then (s, { q1 with seg := 48 :: q1.seg })
    else
      let seg :=
        if q1.flags &&& Flghr ≠ 0 then Ucnv q1.seg s.u4
        else if q1.rdx = Radixdec then ucnv q1.seg s.u4
        else if q1.rdx = Radixhex then hexcnv q1.seg s.u4 q1.Case
        else xcnv q1.seg s.u4 q1.rdx q1.flags
      if q1.simple = true ∧ seg.length = 1 then (putc pos s (seg.headD 0), { q1 with seg := [] })
      else (s, { q1 with seg := seg })
  | Cnv.Cnvlu =>
    let seg :=
      if q.flags &&& Flghr ≠ 0 then Ulcnv q.seg q.u8
      else if q.rdx = Radixdec then ulcnv q.seg q.u8
      else if q.rdx = Radixhex then hexlcnv q.seg q.u8 q.Case
      else xlcnv q.seg q.u8 q.rdx q.flags
    (s, { q with seg := seg })
  | Cnv.Cnvs => print_s pos s q
  | _ => (s, q)

/-- The loop `while (org > cnvbuf + 6 && pad0-- > xlen) *--org = '0'`. -/
def pad_zero : Nat → Nat → Nat → List Nat → List Nat
  | 0, _, _, seg => seg
  | fuel + 1, pad0, xlen, seg =>
    if seg.length < Maxfmt - 6 ∧ pad0 > xlen then pad_zero fuel (pad0 - 1) xlen (48 :: seg)
    else seg

/-- The last part of a conversion of `mini_vsnprintf` (`printf.c` lines 959 to 1007):
padding, prefix, sign, and the copy to `dst`. `none` for the flag `'`, which is outside
this model. -/
def spec_emit (pos dlen : Nat) (s : pst) (q : cspec) : Option pst :=
  let room := subw 32 (subw 32 dlen s.n) pos
  let len := min q.seg.length room
  if len = 0 then some s
  else if q.flags &&& Flgdot3 ≠ 0 then none
  else
    let pad0 :=
      if q.mindig ≠ hi32 ∧ q.mindig > len then q.mindig
      else if q.flags &&& Flgpad0 ≠ 0 ∧ q.wid ≠ hi16 then q.wid
      else 1
    let wid := if ¬ (q.mindig ≠ hi32 ∧ q.mindig > len) ∧ q.flags &&& Flgpad0 ≠ 0 ∧ q.wid ≠ hi16
      then hi16 else q.wid
    let xlen0 := if q.isneg = true ∨ q.flags &&& (Flgws ||| Flgpls) ≠ 0 then len + 1 else len
    let xlen := if q.flags &&& Flgalt ≠ 0 ∧ q.rdx ≥ Radixhex then xlen0 + 2 else xlen0
    let seg1 := pad_zero Maxfmt pad0 xlen q.seg
    let casemsk := if q.Case ≠ 0 then 0 else 0x20
    let seg2 :=
      if (q.cnv = Cnv.Cnvu ∨ q.cnv = Cnv.Cnve) ∧ q.flags &&& Flgalt ≠ 0 then
        if q.rdx = Radixhex then 48 :: (88 ||| casemsk) :: seg1
        else if q.rdx = Radixbin then 48 :: (66 ||| casemsk) :: seg1
        else seg1
      else seg1
    let seg3 :=
      if q.isneg then 45 :: seg2
      else if q.sign then
        if q.flags &&& Flgpls ≠ 0 then 43 :: seg2
        else if q.flags &&& Flgws ≠ 0 then 32 :: seg2
        else seg2
      else seg2
    let len1 := min seg3.length room
    let left : Bool := decide (wid ≠ hi16 ∧ wid > len1 ∧ q.flags &&& Flgleft ≠ 0)
    let s1 : pst :=
      if left then
        { s with dst := put_fill s.dst (pos + s.n) 32 (wid - len1), n := u32 (s.n + (wid - len1)) }
      else s
    let wid1 := if left then wid - len1 else wid
    let len2 := if left then min seg3.length (subw 32 (subw 32 dlen s1.n) pos) else len1
    let s2 : pst :=
      { s1 with dst := wr_list s1.dst (pos + s1.n) (seg3.take len2), n := u32 (s1.n + len2) }
    if wid1 ≠ hi16 ∧ wid1 > len2 ∧ q.flags &&& Flgleft = 0 then
      some { s2 with dst := put_fill s2.dst (pos + s2.n) 32 (wid1 - len2),
                     n := u32 (s2.n + (wid1 - len2)) }
    else some s2

/-- One conversion of `mini_vsnprintf` (`printf.c` lines 589 to 1009), entered after the
`%`; returns the state and `fx`. -/
def conv (fmt : List Nat) (pos dlen : Nat) (s : pst) : Option (pst × Nat) :=
  match spec_loop fmt pos dlen (fmt.length + 2) s {} with
  | none => none
  | some r =>
    let m := spec_mods fmt r.1 r.2
    match spec_args pos m.1 m.2 with
    | none => none
    | some a =>
      let p := spec_print pos a.1 a.2
      match spec_emit pos dlen p.1 p.2 with
      | none => none
      | some e => some (e, r.2.fx)

/-- The loop `while (pos + n + 2 < dlen)` of `mini_vsnprintf`, with the return value and
the buffer as result. The first argument bounds the rounds: each takes at least one
byte of the format. -/
def vsn_loop (fmt : List Nat) (pos dlen : Nat) : Nat → pst → Option (Nat × (Nat → Nat))
  | 0, _ => none
  | fuel + 1, s =>
    if u32 (pos + s.n + 2) < dlen then
      if fget fmt s.pi = 37 then
        match conv fmt pos dlen { s with pi := s.pi + 1 } with
        | none => none
        | some r =>
          if r.2 = Fmteof then some (r.1.n, upd r.1.dst (pos + r.1.n) 0)
          else vsn_loop fmt pos dlen fuel r.1
      else if fget fmt s.pi = 0 then some (s.n, upd s.dst (pos + s.n) 0)
      else
        vsn_loop fmt pos dlen fuel
          { s with dst := upd s.dst (pos + s.n) (fget fmt s.pi), n := u32 (s.n + 1),
                   pi := s.pi + 1 }
    else some (s.n, upd s.dst (pos + s.n) 0)

/-- The function `mini_vsnprintf`: the format is the list of its bytes before the null,
the buffer a map from the index to the byte. Returns the count and the buffer; `none`
where the model does not follow the source (float conversions, `%m`, the flag `'`, an
argument list that does not fit the format). -/
def mini_vsnprintf (dst : Nat → Nat) (pos dlen : Nat) (fmt : List Nat) (ap : List Arg) :
    Option (Nat × (Nat → Nat)) :=
  vsn_loop fmt pos dlen (fmt.length + 2) ⟨upd dst pos 0, 0, 0, ap, 0⟩

/-- The function `mini_snprintf`. -/
def mini_snprintf (dst : Nat → Nat) (pos len : Nat) (fmt : List Nat) (ap : List Arg) :
    Option (Nat × (Nat → Nat)) :=
  if u32 (pos + 2) ≥ len then some (0, dst) else mini_vsnprintf dst pos len fmt ap

/-! ## slab.h: the cell index -/

/-- The cell index `cel` that `slab_chk4free` computes for the address `ip`: the offset
in the region, shifted by `reg->celord` when that is not zero, divided by `reg->len`
otherwise. -/
def slab_chk4free_cel (w : world) (reg ip : Nat) : Nat :=
  let r := w.regs reg
  let ofs8 := u32 (subw 64 ip r.user)
  let ord := r.celord
  if ord ≠ 0 then ofs8 >>> ord else ofs8 / u32 r.len

/-- The cell index `cel` that `slab_free` computes for the address `ip`: the offset in
the region, shifted by `reg->minorder` when that is not zero, divided by `reg->len`
otherwise. -/
def slab_free_cel (w : world) (reg ip : Nat) : Nat :=
  let r := w.regs reg
  let ofs8 := u32 (subw 64 ip r.user)
  let ord := r.minorder
  if ord ≠ 0 then ofs8 >>> ord else ofs8 / r.len

/-- The test of `slab_chk4free` and `slab_free` for the cell `cel`: the bit of the cell
in the words of `line`. -/
def slab_line_bit (w : world) (reg cel : Nat) : Nat :=
  rd8 w.mem ((w.regs reg).meta + 8 * (cel >>> 6)) &&&
    u64 (1 <<< subw 32 cel (u32 ((cel >>> 6) <<< 6)))

/-! ## dir.h: the directory writer, from the specification -/

/-- The constant `Dirlvl` of `config.h`: the number of levels of the directory, 3 for
`Maxvm - Minregion = 24` address bits, more than `2 * Dir`. -/
def Dirlvl : Nat := 3

/-- Modelled from the spec: the bytes that one slot of a node of the level `lvl` covers;
the root is the level 1, a leaf slot covers `2 ^ Minregion` bytes. -/
def dir_span (lvl : Nat) : Nat := 2 ^ (Minregion + Dir * (Dirlvl - lvl))

/-- Modelled from the spec: the entry `i` of a directory node; the node 0 stands for the
root table `hb->rootdir`, any other node is the address of its first entry, with the 16
bytes of a `struct direntry` between entries. -/
def dir_get (v : dirview) (node i : Nat) : direntry :=
  if node = 0 then v.rootdir i else v.dirents (node + 16 * i)

/-- Modelled from the spec: store the entry `i` of a directory node. -/
def dir_set (v : dirview) (node i : Nat) (e : direntry) : dirview :=
  if node = 0 then { v with rootdir := upd v.rootdir i e }
  else { v with dirents := upd v.dirents (node + 16 * i) e }

/-- Modelled from the spec: `insert(region, base, len)` of section 4.1 on the node `node`
of the level `lvl`, whose slot 0 starts at the address `nbase`. A slot that lies
entirely within `[bas, end)`, and every slot of a leaf that the range touches, gets the
region as its terminal entry; a slot that is covered in part is descended into, and
gets a child node of 256 entries from the directory pool of the heap (`dirmem`, counted
in entries by `dirmem_pos`) when it has none; the pool is taken to be large enough, where
`newdir` of `region.h` would map a new one. With `reg = nil` this is `erase`: the
terminal entries are cleared and the nodes stay. -/
def regdir_node (reg bas end_ : Nat) : Nat → Nat → Nat → Nat → dirview → dirview
  | 0, _, _, _, v => v
  | fuel + 1, lvl, node, nbase, v =>
    let span := dir_span lvl
    let lo := (max bas nbase - nbase) / span
    let hi := (min end_ (nbase + 256 * span) - 1 - nbase) / span
    if end_ ≤ bas ∨ end_ ≤ nbase ∨ nbase + 256 * span ≤ bas then v
    else
      (List.range (hi + 1 - lo)).foldl (fun v k =>
        let i := lo + k
        let sbase := nbase + i * span
        let e := dir_get v node i
        if (bas ≤ sbase ∧ sbase + span ≤ end_) ∨ Dirlvl ≤ lvl then
          dir_set v node i { e with reg := reg }
        else if e.dir ≠ 0 then regdir_node reg bas end_ fuel (lvl + 1) e.dir sbase v
        else
          let child := v.dirmem + 16 * v.dirmem_pos
          let v1 := dir_set { v with dirmem_pos := v.dirmem_pos + 256 } node i
            { e with dir := child }
          regdir_node reg bas end_ fuel (lvl + 1) child sbase v1) v

/-- Modelled from the spec: the body of `regdir`, the operations `insert` and `erase` of
section 4.1 of the specification on a directory of `Dirlvl` levels with 256 entries a
node. The file `dir.h` that holds the body in the sources is generated and not part of
them. -/
def regdir_spec : RegdirFn := fun v reg bas len =>
  regdir_node reg bas (bas + len) Dirlvl 1 0 0 v

/-! ## Predicates of the statements -/

/-- Every descriptor's user base is page aligned. -/
def ual (regs : Nat → region) : Prop := ∀ x, (regs x).user % 4096 = 0

/-- Every address the OS is going to hand out is page aligned. -/
def os_al (l : List Nat) : Prop := ∀ a ∈ l, a % 4096 = 0

/-- The OS hands out page aligned addresses, and every descriptor holds one (or nil). -/
structure Al (w : world) : Prop where
  os : os_al w.os
  user : ual w.regs

/-- The alignment invariant of a heap: the bump arena and its fill are multiples of
`Basealign`, and mappings are page aligned. -/
structure AlignInv (w : world) : Prop where
  inimem : w.hb.inimem % 8 = 0
  inipos : w.hb.inipos % 8 = 0
  al : Al w

/-- The pointer `p` sits in the recycle bin of the class of its region: the directory
resolves `p` to a region of a class, and the scan of `yfree_heap` over the occupied
slots of that class finds `p`. -/
def in_bin (w : world) (p : Nat) : Prop :=
  findregion w p ≠ 0 ∧ (w.regs (findregion w p)).clas ≠ Noclass ∧
  w.hb.binmasks (w.regs (findregion w p)).clas ≠ 0 ∧
  bin_has w (w.regs (findregion w p)).clas (w.hb.binmasks (w.regs (findregion w p)).clas) p true Bin
    = true

/-- The state a first, accepted `free(p)` leaves: `p` is a block of the bump arena whose
header word has been zeroed, or `p` sits in the recycle bin of its class. -/
def freed (w : world) (p : Nat) : Prop :=
  (in_inimem w p = true ∧ rd4 w.mem (p - 4) = 0) ∨ (in_inimem w p = false ∧ in_bin w p)

/-- The descriptors `R1` carry the classes of the descriptors `R`. -/
def cl_eq (R R1 : Nat → region) : Prop := ∀ x, (R1 x).clas = (R x).clas

/-! ## Example states -/

/-- A stand-in for the directory writer, used by examples that follow the allocation
side only and need the region of a pointer by name: it records the region in the root
entry of the address, the only entry that `findregion` reads. It is not the writer of
`dir.h`, which enters regions in the nodes below the root; that one is `regdir_spec`. -/
def regdir_root : RegdirFn := fun v reg bas _ =>
  { v with rootdir := upd v.rootdir (((bas >>> Minregion) >>> (Maxvm - Dir)) &&& Dirmsk) ⟨0, reg⟩ }

/-- A process before its first allocation: no heap yet, zero-filled memory, and the
page-aligned addresses the next mappings will get. -/
def w_boot : world :=
  { heapmem := 0x600000, tls := 0x680000, zeroblock := 0x690000,
    os := [0x10000000, 0x10100000, 0x10200000, 0x10300000] }

/-- The state after the heap of the thread has been created. -/
def w_fresh : world := (getheap w_boot).2

/-- The state after `malloc(1000)`, which fills the bump arena. -/
def w_full : world := (malloc regdir_root w_boot 1000).2

/-- The state after `malloc(1000); malloc(32)`. -/
def w_slab32 : world := (malloc regdir_root w_full 32).2

/-- The pointer that `malloc(32)` returns after `malloc(1000)`. -/
def p_slab32 : Nat := (malloc regdir_root w_full 32).1

/-- Run `malloc(len)` the given number of times. -/
def mallocs (rd : RegdirFn) (len : Nat) : Nat → world → Nat × world
  | 0, w => (0, w)
  | n + 1, w => malloc rd (mallocs rd len n w).2 len

/-- The state after `malloc(1000)` and 63 calls of `malloc(32)`. -/
def w_slab63 : world := (mallocs regdir_root 32 63 w_full).2

/-- The state after `p = malloc(8)` and a store of the byte `0xA5` to `p[0]`. -/
def w_stored : world :=
  { (malloc regdir_root w_boot 8).2 with
    mem := upd (malloc regdir_root w_boot 8).2.mem (malloc regdir_root w_boot 8).1 0xA5 }

/-- The boot state with the second byte of the zero block written. -/
def w_zb1 : world := { w_boot with mem := upd w_boot.mem (w_boot.zeroblock + 1) 1 }

/-- Run `free` on each pointer of the list, in order. -/
def frees (rd : RegdirFn) : List Nat → world → world
  | [], w => w
  | p :: ps, w => frees rd ps (free rd w p).1

/-- The pointers that the first `n` calls of `mallocs` return, in order. -/
def malloc_ptrs (rd : RegdirFn) (len n : Nat) (w : world) : List Nat :=
  (List.range n).map (fun k => (mallocs rd len (k + 1) w).1)

/-- The state after `q1 = malloc(2^24)` on a new process. -/
def w_map1 : world := (malloc regdir_root w_boot (2 ^ 24)).2

/-- The state after `q1 = malloc(2^24); q2 = malloc(2^24)`. -/
def w_map2 : world := (malloc regdir_root w_map1 (2 ^ 24)).2

/-- The state `w_full` with the count of tentative classes at its cap. -/
def w_tclas_full : world := { w_full with hb.tclascnt := Maxtclass }

/-- The consistency of the tables of tentative classes: `tclascnt` is within the table,
every tentative class below `tclascnt` is the one its key maps to, and a key with a
tentative class maps below `tclascnt`. -/
structure TclasInv (w : world) : Prop where
  cnt : w.hb.tclascnt ≤ Maxtclass
  back : ∀ t, t < w.hb.tclascnt → w.hb.len2tclas (w.hb.tclas2len t) = t
  below : ∀ k, w.hb.len2tclas k ≠ hi16 → w.hb.len2tclas k < w.hb.tclascnt

/-- The heap states reached from a heap with empty tables of tentative classes, as
`newheap` leaves them, through calls of `yalloc_heap` with a `size_t` length. -/
inductive reach (rd : RegdirFn) : world → Prop where
  | fresh (w : world) (h0 : w.hb.tclascnt = 0) (h1 : ∀ k, w.hb.len2tclas k = hi16) : reach rd w
  | alloc (w : world) (len : Nat) (clear : Bool) (h : reach rd w) (hl : len < 2 ^ 64) :
      reach rd (yalloc_heap rd w len clear).w

/-- The state `w_full` when the OS has no memory to give. -/
def w_noos : world := { w_full with os := [] }

/-- The state after `yalloc_heap` for 32 bytes on `w_full`: the first key has got its
tentative class. -/
def w_key32 : world := (yalloc_heap regdir_root w_full 32 false).w

/-- Run `yalloc_heap` for each request of the list, a length and the flag `clear`, in
order. -/
def yallocs (rd : RegdirFn) : List (Nat × Bool) → world → world
  | [], w => w
  | q :: qs, w => yallocs rd qs (yalloc_heap rd w q.1 q.2).w

/-- The state after `malloc(1000); p0 = malloc(17)`. -/
def w_slab17 : world := (malloc regdir_root w_full 17).2

/-- The pointer `p0` of `w_slab17`. -/
def p_slab17 : Nat := (malloc regdir_root w_full 17).1

/-- The state after `malloc(1000); p0 = malloc(17); p1 = malloc(32)`. -/
def w_slab17b : world := (malloc regdir_root w_slab17 32).2

/-- The pointer `p1` of `w_slab17b`. -/
def p_slab17b : Nat := (malloc regdir_root w_slab17 32).1

/-- The state after `malloc(1000)` and 33 calls of `malloc(2000)`. -/
def w_slab2000 : world := (mallocs regdir_root 2000 33 w_full).2

/-- The pointer that the last of the 33 calls returns. -/
def p_slab2000 : Nat := (mallocs regdir_root 2000 33 w_full).1

/-- The directory node at the address `0x700000`: each of its 256 entries, 16 bytes
apart, is a terminal entry for the region with the descriptor `0x610000`. -/
def child_node : Nat → direntry :=
  fun a => if 0x700000 ≤ a ∧ a < 0x700000 + 256 * 16 ∧ (a - 0x700000) % 16 = 0
    then ⟨0, 0x610000⟩ else {}

/-- A heap whose root entry 0 has no region and points to `child_node`. -/
def w_child : world :=
  { w_fresh with hb.rootdir := upd w_fresh.hb.rootdir 0 ⟨0x700000, 0⟩, dirents := child_node }

/-! ## Example states with the directory writer of the specification -/

/-- A process before its first allocation, as `w_boot`, with the addresses of the next
mappings `2 ^ 28` bytes apart. -/
def v_boot : world :=
  { heapmem := 0x600000, tls := 0x680000, zeroblock := 0x690000,
    os := [0x10000000, 0x20000000, 0x30000000, 0x40000000, 0x50000000, 0x60000000] }

/-- The state after `malloc(1000)`, which fills the bump arena. -/
def v_full : world := (malloc regdir_spec v_boot 1000).2

/-- The state after `malloc(1000); p = malloc(32)`. -/
def v_slab32 : world := (malloc regdir_spec v_full 32).2

/-- The pointer `p` of `v_slab32`. -/
def q_slab32 : Nat := (malloc regdir_spec v_full 32).1

/-- The state after `malloc(1000); p0 = malloc(32); p1 = malloc(32)`. -/
def v_slab32b : world := (malloc regdir_spec v_slab32 32).2

/-- The pointer `p1` of `v_slab32b`. -/
def q_slab32b : Nat := (malloc regdir_spec v_slab32 32).1

/-- The state after `malloc(1000); p0 = malloc(17)`. -/
def v_slab17 : world := (malloc regdir_spec v_full 17).2

/-- The state after `malloc(1000)` and 9 calls of `malloc(32)`. -/
def v_cells9 : world := (mallocs regdir_spec 32 9 v_full).2

/-- The pointers of the 9 calls, in order. -/
def q_cells9 : List Nat := malloc_ptrs regdir_spec 32 9 v_full

/-- The state after `malloc(1000)` and 17 calls of `malloc(64)`. -/
def v_slab64 : world := (mallocs regdir_spec 64 17 v_full).2

/-- The pointer that the last of the 17 calls returns. -/
def q_slab64 : Nat := (mallocs regdir_spec 64 17 v_full).1

/-- The state after `q1 = malloc(2^24)` on a new process. -/
def v_map1 : world := (malloc regdir_spec v_boot (2 ^ 24)).2

/-- The pointer `q1` of `v_map1`. -/
def q_map1 : Nat := (malloc regdir_spec v_boot (2 ^ 24)).1

/-- The state after `q1 = malloc(2^24); q2 = malloc(2^24)`. -/
def v_map2 : world := (malloc regdir_spec v_map1 (2 ^ 24)).2

/-- The pointer `q2` of `v_map2`. -/
def q_map2 : Nat := (malloc regdir_spec v_map1 (2 ^ 24)).1

/-- A process whose thread gets its heap from the OS: the static heap memory is used up. -/
def v_thread2 : world := { v_boot with heapmem_pos := 0xF000 }

/-- The state of that thread after `malloc(24)`. -/
def v_heap2 : world := (malloc regdir_spec v_thread2 24).2

/-- The state `v_heap2` after `delheap(hb, 1)`, the speculative deletion of the heap. -/
def v_deleted : world := delheap v_heap2 true

/-- The state after the next `malloc(24)` on `v_deleted`: the heap has been created
again. -/
def v_recreated : world := (malloc regdir_spec v_deleted 24).2

/-- A buddy region of `2 ^ 5` bytes with the smallest order 4, written by hand: the
descriptor at `0x610000` with the user memory at `0x20000000` and the metadata at
`0x30000000`; in the metadata the summary of the order 4 is at its maximum 2, the
summary of the order 5 is 0, and the line of orders, 8 bytes in, holds the order 5 for
the block at the offset 0: the whole region is one allocated block. -/
def w_bud : world :=
  { w_fresh with
    regs := upd w_fresh.regs 0x610000
      { user := 0x20000000, meta := 0x30000000, typ := Rtype.Rbuddy, clas := Noclass,
        order := 5, minorder := 4 },
    mem := upd (wr4 (wr4 w_fresh.mem (0x30000000 + 4 * 4) 2) (0x30000000 + 4 * 5) 0)
      (0x30000000 + 8 * 1 + 0) 5 }

/-- The state after `p = malloc(24)` on a new process, a block of the bump arena. -/
def v_bump : world := (malloc regdir_spec v_boot 24).2

/-- The pointer `p` of `v_bump`. -/
def q_bump : Nat := (malloc regdir_spec v_boot 24).1

/-- The state after the nine cells of `v_cells9` have been passed to `free`, one after
the other. -/
def v_freed9 : world := frees regdir_spec q_cells9 v_cells9

/-- The state `v_slab32` after the bin part of `yfree_heap` has run for the cell `p`
with the region of the class 0: the bin was empty, `p` is in slot 0. -/
def v_binned32 : world :=
  (yfree_bin regdir_spec v_slab32 (v_slab32.hb.clasreg 0) 0 q_slab32).getD v_slab32

/-- The state `v_binned32` after a call of `trimbin`. -/
def v_trimmed : world := trimbin regdir_spec v_binned32 false

/-- The state `v_slab32b` after the bin part of `yfree_heap` has run for the cell `p0`
with the region of the class 0: the bin was empty, `p0` is in slot 0. -/
def v_binned32b : world :=
  (yfree_bin regdir_spec v_slab32b (v_slab32b.hb.clasreg 0) 0 q_slab32).getD v_slab32b

/-! # Theorems -/

theorem delregmem_frame (w : world) (reg : Nat) :
    (delregmem w reg).hb = w.hb ∧ (delregmem w reg).os = w.os := ⟨rfl, rfl⟩

theorem regdir_frame (rd : RegdirFn) (w : world) (reg bas len : Nat) :
    (regdir rd w reg bas len).hb.bins = w.hb.bins ∧
    (regdir rd w reg bas len).hb.binmasks = w.hb.binmasks ∧
    (regdir rd w reg bas len).hb.inimem = w.hb.inimem ∧
    (regdir rd w reg bas len).hb.inipos = w.hb.inipos ∧
    (regdir rd w reg bas len).os = w.os ∧
    (regdir rd w reg bas len).regs = w.regs := ⟨rfl, rfl, rfl, rfl, rfl, rfl⟩

theorem delregion_loop_frame (last : Bool) (n i : Nat) (w : world) (reg : Nat) :
    (delregion_loop last n i w reg).1.hb = w.hb ∧ (delregion_loop last n i w reg).1.os = w.os := by
  induction n generalizing i w reg with
  | zero => exact ⟨rfl, rfl⟩
  | succ n ih =>
    unfold delregion_loop
    simp only []
    split_ifs <;> simp [ih, delregmem_frame]

theorem delregion_frame (rd : RegdirFn) (w : world) (reg : Nat) :
    (delregion rd w reg).1.hb.bins = w.hb.bins ∧
    (delregion rd w reg).1.hb.binmasks = w.hb.binmasks ∧
    (delregion rd w reg).1.hb.inimem = w.hb.inimem ∧
    (delregion rd w reg).1.hb.inipos = w.hb.inipos ∧
    (delregion rd w reg).1.os = w.os := by
  unfold delregion
  simp only []
  split_ifs <;> simp [delregion_loop_frame, delregmem_frame, regdir_frame]

theorem slab_free_frame (w : world) (reg ip : Nat) :
    (slab_free w reg ip).1.hb.bins = w.hb.bins ∧
    (slab_free w reg ip).1.hb.binmasks = w.hb.binmasks ∧
    (slab_free w reg ip).1.hb.inimem = w.hb.inimem ∧
    (slab_free w reg ip).1.hb.inipos = w.hb.inipos ∧
    (slab_free w reg ip).1.os = w.os := by
  unfold slab_free
  simp only []
  split_ifs <;> simp

theorem buddy_free_frame (w : world) (reg ip : Nat) :
    (buddy_free w reg ip).1.hb.bins = w.hb.bins ∧
    (buddy_free w reg ip).1.hb.binmasks = w.hb.binmasks ∧
    (buddy_free w reg ip).1.hb.inimem = w.hb.inimem ∧
    (buddy_free w reg ip).1.hb.inipos = w.hb.inipos ∧
    (buddy_free w reg ip).1.os = w.os ∧
    (buddy_free w reg ip).1.regs = w.regs := ⟨rfl, rfl, rfl, rfl, rfl, rfl⟩

theorem free_mmap_frame (rd : RegdirFn) (w : world) (reg ip : Nat) :
    (free_mmap rd w reg ip).1.hb.bins = w.hb.bins ∧
    (free_mmap rd w reg ip).1.hb.binmasks = w.hb.binmasks ∧
    (free_mmap rd w reg ip).1.hb.inimem = w.hb.inimem ∧
    (free_mmap rd w reg ip).1.hb.inipos = w.hb.inipos ∧
    (free_mmap rd w reg ip).1.os = w.os := by
  unfold free_mmap
  simp only []
  split_ifs <;> simp [delregion_frame]

theorem delheap_frame (w : world) (trim : Bool) :
    (delheap w trim).hb = w.hb ∧ (delheap w trim).os = w.os ∧ (delheap w trim).regs = w.regs := by
  unfold delheap
  simp only []
  split_ifs <;> simp

theorem free_reg_frame (rd : RegdirFn) (w : world) (reg ip : Nat) :
    (free_reg rd w reg ip).1.hb.bins = w.hb.bins ∧
    (free_reg rd w reg ip).1.hb.binmasks = w.hb.binmasks ∧
    (free_reg rd w reg ip).1.hb.inimem = w.hb.inimem ∧
    (free_reg rd w reg ip).1.hb.inipos = w.hb.inipos ∧
    (free_reg rd w reg ip).1.os = w.os := by
  unfold free_reg
  split <;> simp [buddy_free_frame, slab_free_frame, free_mmap_frame]

theorem trimbin_bits_frame (rd : RegdirFn) (full : Bool) (n : Nat) (w : world) (clas e binmask : Nat) :
    (trimbin_bits rd full n w clas e binmask).1.hb.inimem = w.hb.inimem ∧
    (trimbin_bits rd full n w clas e binmask).1.hb.inipos = w.hb.inipos ∧
    (trimbin_bits rd full n w clas e binmask).1.os = w.os := by
  induction n generalizing w e binmask with
  | zero => exact ⟨rfl, rfl, rfl⟩
  | succ n ih =>
    unfold trimbin_bits
    simp only []
    split_ifs <;> simp [ih, free_reg_frame, delregion_frame, delheap_frame]

theorem trimbin_clas_frame (rd : RegdirFn) (full : Bool) (n : Nat) (w : world) (clas : Nat) :
    (trimbin_clas rd full n w clas).hb.inimem = w.hb.inimem ∧
    (trimbin_clas rd full n w clas).hb.inipos = w.hb.inipos ∧
    (trimbin_clas rd full n w clas).os = w.os := by
  induction n generalizing w clas with
  | zero => exact ⟨rfl, rfl, rfl⟩
  | succ n ih =>
    unfold trimbin_clas
    simp only []
    split_ifs <;> simp [ih, trimbin_bits_frame]

theorem trimbin_frame (rd : RegdirFn) (w : world) (full : Bool) :
    (trimbin rd w full).hb.inimem = w.hb.inimem ∧
    (trimbin rd w full).hb.inipos = w.hb.inipos ∧
    (trimbin rd w full).os = w.os := trimbin_clas_frame rd full _ w 0

theorem ual_upd {regs : Nat → region} {i : Nat} {v : region}
    (h : ual regs) (hv : v.user % 4096 = 0) : ual (upd regs i v) := by
  intro x
  unfold upd
  split_ifs
  · exact hv
  · exact h x

theorem ual_same {regs : Nat → region} {i : Nat} {v : region}
    (h : ual regs) (hv : v.user = (regs i).user) : ual (upd regs i v) :=
  ual_upd h (by rw [hv]; exact h i)

theorem delregmem_ual {w : world} {reg : Nat} (h : ual w.regs) : ual (delregmem w reg).regs := by
  unfold delregmem
  exact ual_upd h rfl

theorem delregion_loop_ual (last : Bool) (n i : Nat) (w : world) (reg : Nat) (h : ual w.regs) :
    ual (delregion_loop last n i w reg).1.regs := by
  induction n generalizing i w reg with
  | zero => exact h
  | succ n ih =>
    unfold delregion_loop
    simp only []
    split_ifs
    · exact ih _ _ _ (delregmem_ual h)
    · exact ih _ _ _ h
    · exact h

theorem delregion_ual (rd : RegdirFn) (w : world) (reg : Nat) (h : ual w.regs) :
    ual (delregion rd w reg).1.regs := by
  unfold delregion
  simp only []
  split_ifs <;>
    repeat' (first
      | exact h
      | apply delregmem_ual
      | apply delregion_loop_ual
      | refine ual_same ?_ rfl)

theorem slab_free_ual (w : world) (reg ip : Nat) (h : ual w.regs) :
    ual (slab_free w reg ip).1.regs := by
  unfold slab_free
  simp only []
  split_ifs <;>
    repeat' (first
      | exact h
      | refine ual_same ?_ rfl)

theorem free_mmap_ual (rd : RegdirFn) (w : world) (reg ip : Nat) (h : ual w.regs) :
    ual (free_mmap rd w reg ip).1.regs := by
  unfold free_mmap
  simp only []
  split_ifs <;> first | exact h | exact delregion_ual rd w reg h

theorem free_reg_ual (rd : RegdirFn) (w : world) (reg ip : Nat) (h : ual w.regs) :
    ual (free_reg rd w reg ip).1.regs := by
  unfold free_reg
  split
  · exact h
  · exact h
  · exact h
  · exact slab_free_ual w reg ip h
  · exact free_mmap_ual rd w reg ip h

theorem delheap_ual (w : world) (trim : Bool) (h : ual w.regs) : ual (delheap w trim).regs := by
  rw [(delheap_frame w trim).2.2]; exact h

theorem trimbin_bits_ual (rd : RegdirFn) (full : Bool) (n : Nat) (w : world) (clas e binmask : Nat)
    (h : ual w.regs) : ual (trimbin_bits rd full n w clas e binmask).1.regs := by
  induction n generalizing w e binmask with
  | zero => exact h
  | succ n ih =>
    unfold trimbin_bits
    simp only []
    split_ifs <;>
      repeat' (first
        | with_reducible exact h
        | with_reducible apply ih
        | with_reducible apply delheap_ual
        | with_reducible apply delregion_ual
        | with_reducible apply free_reg_ual)

theorem trimbin_clas_ual (rd : RegdirFn) (full : Bool) (n : Nat) (w : world) (clas : Nat)
    (h : ual w.regs) : ual (trimbin_clas rd full n w clas).regs := by
  induction n generalizing w clas with
  | zero => exact h
  | succ n ih =>
    unfold trimbin_clas
    simp only []
    split_ifs
    · exact ih _ _ h
    · exact trimbin_bits_ual rd full 16 w clas 0 _ h
    · exact ih _ _ (trimbin_bits_ual rd full 16 w clas 0 _ h)
    · exact h

theorem trimbin_ual (rd : RegdirFn) (w : world) (full : Bool) (h : ual w.regs) :
    ual (trimbin rd w full).regs := trimbin_clas_ual rd full _ w 0 h

theorem osmmap_spec (w : world) (len : Nat) :
    (osmmap w len).2.hb = w.hb ∧ (osmmap w len).2.regs = w.regs ∧
    (os_al w.os → (osmmap w len).1 % 4096 = 0 ∧ os_al (osmmap w len).2.os) := by
  unfold osmmap
  cases hos : w.os with
  | nil => simp [os_al, hos]
  | cons a l =>
    by_cases hl : len = 0
    · simp [hl, hos]
    · simp only [hl, if_false, true_and]
      intro h
      exact ⟨h a (by simp), fun b hb => h b (by simp [hb])⟩

theorem osmem_frame (rd : RegdirFn) (w : world) (len : Nat) :
    (osmem rd w len).2.hb.inimem = w.hb.inimem ∧ (osmem rd w len).2.hb.inipos = w.hb.inipos := by
  unfold osmem
  simp only []
  split_ifs <;> simp [osmmap_spec, trimbin_frame]

theorem osmem_al (rd : RegdirFn) (w : world) (len : Nat) (ho : os_al w.os) (h : ual w.regs) :
    (osmem rd w len).1 % 4096 = 0 ∧ os_al (osmem rd w len).2.os ∧ ual (osmem rd w len).2.regs := by
  unfold osmem
  simp only []
  have h1 := (osmmap_spec w len).2.2 ho
  have hr1 : ual (osmmap w len).2.regs := by rw [(osmmap_spec w len).2.1]; exact h
  split_ifs
  · exact ⟨h1.1, h1.2, hr1⟩
  · have ho2 : os_al (trimbin rd (osmmap w len).2 false).os := by
      rw [(trimbin_frame rd _ false).2.2]; exact h1.2
    have hr2 : ual (trimbin rd (osmmap w len).2 false).regs := trimbin_ual rd _ false hr1
    have h2 := (osmmap_spec (trimbin rd (osmmap w len).2 false) len).2.2 ho2
    refine ⟨h2.1, h2.2, ?_⟩
    rw [(osmmap_spec _ len).2.1]; exact hr2

theorem osmem_Al (rd : RegdirFn) (w : world) (len : Nat) (h : Al w) :
    (osmem rd w len).1 % 4096 = 0 ∧ Al (osmem rd w len).2 :=
  ⟨(osmem_al rd w len h.os h.user).1, (osmem_al rd w len h.os h.user).2.1,
   (osmem_al rd w len h.os h.user).2.2⟩

theorem newregmem_frame (rd : RegdirFn) (w : world) :
    (newregmem rd w).2.hb.inimem = w.hb.inimem ∧ (newregmem rd w).2.hb.inipos = w.hb.inipos := by
  unfold newregmem
  simp only []
  split_ifs <;> simp [osmem_frame]

theorem osmmap_os (w : world) (len : Nat) (h : os_al w.os) : os_al (osmmap w len).2.os :=
  ((osmmap_spec w len).2.2 h).2

theorem osmem_os (rd : RegdirFn) (w : world) (len : Nat) (h : os_al w.os) :
    os_al (osmem rd w len).2.os := by
  unfold osmem
  simp only []
  split_ifs
  · exact osmmap_os w len h
  · apply osmmap_os
    rw [(trimbin_frame rd _ false).2.2]
    exact osmmap_os w len h

theorem osmem_ual (rd : RegdirFn) (w : world) (len : Nat) (h : ual w.regs) :
    ual (osmem rd w len).2.regs := by
  unfold osmem
  simp only []
  split_ifs
  · rw [(osmmap_spec w len).2.1]; exact h
  · rw [(osmmap_spec _ len).2.1]
    apply trimbin_ual
    rw [(osmmap_spec w len).2.1]; exact h

theorem newregmem_os (rd : RegdirFn) (w : world) (h : os_al w.os) : os_al (newregmem rd w).2.os := by
  unfold newregmem
  simp only []
  split_ifs <;> simp only [] <;>
    first
      | with_reducible exact h
      | exact osmem_os rd w _ h

theorem newregmem_ual (rd : RegdirFn) (w : world) (h : ual w.regs) : ual (newregmem rd w).2.regs := by
  unfold newregmem
  simp only []
  split_ifs <;> simp only [] <;>
    repeat' (first
      | with_reducible exact h
      | with_reducible apply osmem_ual
      | with_reducible refine ual_same ?_ rfl)

theorem newregion_desc_frame (rd : RegdirFn) (w : world) :
    (newregion_desc rd w).2.hb.inimem = w.hb.inimem ∧
    (newregion_desc rd w).2.hb.inipos = w.hb.inipos := by
  unfold newregion_desc
  simp only []
  split_ifs <;> simp [newregmem_frame]

theorem newregion_desc_os (rd : RegdirFn) (w : world) (h : os_al w.os) :
    os_al (newregion_desc rd w).2.os := by
  unfold newregion_desc
  simp only []
  split_ifs
  · exact h
  · exact h
  · exact newregmem_os rd w h

theorem newregion_desc_ual (rd : RegdirFn) (w : world) (h : ual w.regs) :
    ual (newregion_desc rd w).2.regs := by
  unfold newregion_desc
  simp only []
  split_ifs
  · exact h
  · exact h
  · exact newregmem_ual rd w h

theorem newregion_fill_frame (rd : RegdirFn) (w : world) (reg user len admlen : Nat) (typ : Rtype) :
    (newregion_fill rd w reg user len admlen typ).2.hb.inimem = w.hb.inimem ∧
    (newregion_fill rd w reg user len admlen typ).2.hb.inipos = w.hb.inipos := by
  unfold newregion_fill
  simp only []
  split_ifs <;> simp [osmem_frame, regdir_frame]

theorem newregion_fill_os (rd : RegdirFn) (w : world) (reg user len admlen : Nat) (typ : Rtype)
    (h : os_al w.os) : os_al (newregion_fill rd w reg user len admlen typ).2.os := by
  unfold newregion_fill
  simp only []
  split_ifs <;> simp only [regdir_frame] <;>
    first
      | with_reducible exact h
      | exact osmem_os rd _ _ h

theorem newregion_fill_ual (rd : RegdirFn) (w : world) (reg user len admlen : Nat) (typ : Rtype)
    (h : ual w.regs) (hu : user % 4096 = 0) :
    ual (newregion_fill rd w reg user len admlen typ).2.regs := by
  have h3 : ual (upd w.regs reg { w.regs reg with typ := typ, user := user, id := w.hb.allocregcnt }) :=
    ual_upd h hu
  unfold newregion_fill
  simp only []
  split_ifs <;> simp only [regdir_frame]
  · exact osmem_ual rd _ _ h3
  · exact ual_same (osmem_ual rd _ _ h3) rfl
  · exact h3

theorem newregion_frame (rd : RegdirFn) (w : world) (user len admlen : Nat) (typ : Rtype) :
    (newregion rd w user len admlen typ).2.hb.inimem = w.hb.inimem ∧
    (newregion rd w user len admlen typ).2.hb.inipos = w.hb.inipos := by
  unfold newregion
  simp only []
  split_ifs <;> simp [osmem_frame, newregion_desc_frame, newregion_fill_frame]

theorem newregion_Al (rd : RegdirFn) (w : world) (user len admlen : Nat) (typ : Rtype)
    (h : Al w) (hu : user % 4096 = 0) : Al (newregion rd w user len admlen typ).2 := by
  have ho := osmem_Al rd w len h
  unfold newregion
  simp only []
  by_cases hz : user = 0
  · simp only [hz, if_true]
    split_ifs
    · exact ho.2
    · exact ⟨newregion_desc_os rd _ ho.2.os, newregion_desc_ual rd _ ho.2.user⟩
    · exact ⟨newregion_fill_os rd _ _ _ _ _ _ (newregion_desc_os rd _ ho.2.os),
        newregion_fill_ual rd _ _ _ _ _ _ (newregion_desc_ual rd _ ho.2.user) ho.1⟩
  · simp only [hz, if_false]
    split_ifs
    · exact ⟨newregion_desc_os rd _ h.os, newregion_desc_ual rd _ h.user⟩
    · exact ⟨newregion_fill_os rd _ _ _ _ _ _ (newregion_desc_os rd _ h.os),
        newregion_fill_ual rd _ _ _ _ _ _ (newregion_desc_ual rd _ h.user) hu⟩

theorem newslab_frame (rd : RegdirFn) (w : world) (cellen userlen : Nat) :
    (newslab rd w cellen userlen).2.hb.inimem = w.hb.inimem ∧
    (newslab rd w cellen userlen).2.hb.inipos = w.hb.inipos := by
  unfold newslab
  simp [newregion_frame]

theorem newslab_Al (rd : RegdirFn) (w : world) (cellen userlen : Nat) (h : Al w) :
    Al (newslab rd w cellen userlen).2 := by
  unfold newslab
  simp only []
  have hn := newregion_Al rd w 0
  exact ⟨(hn _ _ _ h rfl).os, ual_same (hn _ _ _ h rfl).user rfl⟩

theorem slab_alloc_slow_frame (w : world) (reg : Nat) (clear : Bool) :
    (slab_alloc_slow w reg clear).2.hb.inimem = w.hb.inimem ∧
    (slab_alloc_slow w reg clear).2.hb.inipos = w.hb.inipos ∧
    (slab_alloc_slow w reg clear).2.os = w.os := by
  unfold slab_alloc_slow
  simp only []
  split_ifs <;> simp

theorem slab_alloc_slow_ual (w : world) (reg : Nat) (clear : Bool) (h : ual w.regs) :
    ual (slab_alloc_slow w reg clear).2.regs := by
  unfold slab_alloc_slow
  simp only []
  split_ifs <;>
    repeat' (first
      | with_reducible exact h
      | with_reducible refine ual_same ?_ rfl)

theorem slab_alloc_frame (w : world) (reg : Nat) (clear : Bool) :
    (slab_alloc w reg clear).2.hb.inimem = w.hb.inimem ∧
    (slab_alloc w reg clear).2.hb.inipos = w.hb.inipos ∧
    (slab_alloc w reg clear).2.os = w.os := by
  unfold slab_alloc
  simp only []
  split_ifs <;> simp [slab_alloc_slow_frame]

theorem slab_alloc_ual (w : world) (reg : Nat) (clear : Bool) (h : ual w.regs) :
    ual (slab_alloc w reg clear).2.regs := by
  unfold slab_alloc
  simp only []
  split_ifs <;>
    repeat' (first
      | with_reducible exact h
      | with_reducible apply slab_alloc_slow_ual
      | with_reducible refine ual_same ?_ rfl)

theorem slab_alloc_Al (w : world) (reg : Nat) (clear : Bool) (h : Al w) :
    Al (slab_alloc w reg clear).2 :=
  ⟨by rw [(slab_alloc_frame w reg clear).2.2]; exact h.os, slab_alloc_ual w reg clear h.user⟩

theorem and_mod_two_pow_eq_zero (x m k : Nat) (h : m % 2 ^ k = 0) : (x &&& m) % 2 ^ k = 0 := by
  apply Nat.eq_of_testBit_eq
  intro i
  rw [Nat.testBit_mod_two_pow, Nat.testBit_and, Nat.zero_testBit]
  by_cases hi : i < k
  · have hm : m.testBit i = false := by
      have := Nat.testBit_mod_two_pow m k i
      rw [h, Nat.zero_testBit] at this
      simpa [hi] using this.symm
    simp [hm]
  · simp [hi]

theorem doalign_8 (len : Nat) : doalign 64 32 len Basealign % 8 = 0 := by
  have hm : notw 32 (subw 32 Basealign 1) = 4294967288 := by decide
  unfold doalign
  rw [hm]
  exact and_mod_two_pow_eq_zero _ 4294967288 3 (by decide)

theorem buddy_allocreg_spec (w : world) (reg len ord alord : Nat) (clear : Bool) :
    (buddy_allocreg w reg len ord alord clear).1 = (w.regs reg).user ∧
    (buddy_allocreg w reg len ord alord clear).2.hb = w.hb ∧
    (buddy_allocreg w reg len ord alord clear).2.os = w.os ∧
    (buddy_allocreg w reg len ord alord clear).2.regs = w.regs := ⟨rfl, rfl, rfl, rfl⟩

theorem buddy_allocfixreg_spec (w : world) (reg len ord : Nat) (clear : Bool) :
    (buddy_allocfixreg w reg len ord clear).1 = (w.regs reg).user ∧
    (buddy_allocfixreg w reg len ord clear).2.hb = w.hb ∧
    (buddy_allocfixreg w reg len ord clear).2.os = w.os ∧
    (buddy_allocfixreg w reg len ord clear).2.regs = w.regs := by
  unfold buddy_allocfixreg
  simp only []
  split_ifs <;> simp

theorem buddy_alloc_frame (rd : RegdirFn) (w : world) (slen : Nat) (clear : Bool) :
    (buddy_alloc rd w slen clear).2.hb.inimem = w.hb.inimem ∧
    (buddy_alloc rd w slen clear).2.hb.inipos = w.hb.inipos := by
  unfold buddy_alloc newbuddy
  simp only []
  split_ifs <;> simp [newregion_frame, buddy_allocreg_spec, buddy_allocfixreg_spec]

theorem buddy_alloc_Al (rd : RegdirFn) (w : world) (slen : Nat) (clear : Bool) (h : Al w) :
    (buddy_alloc rd w slen clear).1 % 4096 = 0 ∧ Al (buddy_alloc rd w slen clear).2 := by
  have hn := fun order => newregion_Al rd w 0 (u64 (2 ^ order)) (admlens order) Rtype.Rbuddy h rfl
  unfold buddy_alloc newbuddy
  simp only []
  split_ifs <;> refine ⟨?_, ?_, ?_⟩ <;>
    simp only [buddy_allocreg_spec, buddy_allocfixreg_spec] <;>
    first
      | exact h.os
      | exact h.user
      | exact h.user _
      | exact (hn _).os
      | exact (hn _).user
      | rfl
      | (simp only [upd, if_true]; exact (hn _).user _)
      | (apply ual_same (hn _).user; rfl)

theorem yal_mmap_frame (rd : RegdirFn) (w : world) (len : Nat) :
    (yal_mmap rd w len).2.hb.inimem = w.hb.inimem ∧
    (yal_mmap rd w len).2.hb.inipos = w.hb.inipos := by
  unfold yal_mmap
  simp only []
  split_ifs <;> simp [newregion_frame, osmem_frame]

theorem yal_mmap_Al (rd : RegdirFn) (w : world) (len : Nat) (h : Al w) :
    (yal_mmap rd w len).1 % 4096 = 0 ∧ Al (yal_mmap rd w len).2 := by
  have ho := osmem_Al rd w (doalign 64 32 len Page) h
  have hn := newregion_Al rd (osmem rd w (doalign 64 32 len Page)).2
    (osmem rd w (doalign 64 32 len Page)).1 len 0 Rtype.Rmmap ho.2 ho.1
  unfold yal_mmap
  simp only []
  split_ifs
  · exact ⟨rfl, ho.2⟩
  · exact ⟨rfl, hn⟩
  · exact ⟨ho.1, hn.os, ual_same hn.user rfl⟩

theorem clas_bin_frame (w : world) (clas len : Nat) (clear : Bool) :
    (clas_bin w clas len clear).2.hb.inimem = w.hb.inimem ∧
    (clas_bin w clas len clear).2.hb.inipos = w.hb.inipos ∧
    (clas_bin w clas len clear).2.os = w.os ∧
    (clas_bin w clas len clear).2.regs = w.regs := by
  unfold clas_bin
  simp only []
  split_ifs <;> simp

theorem clas_ring_frame (rd : RegdirFn) (w : world) (clas alen len : Nat) (clear : Bool) :
    (clas_ring rd w clas alen len clear).1.hb.inimem = w.hb.inimem ∧
    (clas_ring rd w clas alen len clear).1.hb.inipos = w.hb.inipos := by
  unfold clas_ring
  simp only []
  split_ifs <;> simp [newslab_frame, slab_alloc_frame]

theorem clas_ring_Al (rd : RegdirFn) (w : world) (clas alen len : Nat) (clear : Bool) (h : Al w) :
    Al (clas_ring rd w clas alen len clear).1 := by
  have hs := newslab_Al rd w alen len h
  unfold clas_ring
  simp only []
  split_ifs
  · exact hs
  · apply slab_alloc_Al
    exact ⟨hs.os, ual_same (ual_same hs.user rfl) rfl⟩
  · exact slab_alloc_Al _ _ _ h
  · apply slab_alloc_Al
    exact ⟨hs.os, hs.user⟩
  · exact ⟨hs.os, hs.user⟩

theorem clas_commit_frame (rd : RegdirFn) (w : world) (tclas alen len : Nat) (clear : Bool) :
    (clas_commit rd w tclas alen len clear).1.hb.inimem = w.hb.inimem ∧
    (clas_commit rd w tclas alen len clear).1.hb.inipos = w.hb.inipos := by
  unfold clas_commit
  simp only []
  split_ifs <;> simp [newslab_frame, slab_alloc_frame]

theorem Al_hb {w : world} (h : Al w) (hb1 : heap) : Al { w with hb := hb1 } := ⟨h.os, h.user⟩

theorem clas_commit_Al (rd : RegdirFn) (w : world) (tclas alen len : Nat) (clear : Bool) (h : Al w) :
    Al (clas_commit rd w tclas alen len clear).1 := by
  unfold clas_commit
  simp only []
  split_ifs
  · exact newslab_Al rd _ alen len (Al_hb h _)
  · apply slab_alloc_Al
    refine ⟨(newslab_Al rd _ alen len (Al_hb h _)).os, ?_⟩
    apply ual_same (newslab_Al rd _ alen len (Al_hb h _)).user
    rfl
  · exact Al_hb h _
  · exact h

theorem clas_tclas_frame (w : world) (len : Nat) :
    (clas_tclas w len).1.hb.inimem = w.hb.inimem ∧
    (clas_tclas w len).1.hb.inipos = w.hb.inipos ∧
    (clas_tclas w len).1.os = w.os ∧
    (clas_tclas w len).1.regs = w.regs := by
  unfold clas_tclas
  simp only []
  split_ifs <;> simp

theorem yalloc_clas_frame (rd : RegdirFn) (w : world) (len : Nat) (clear : Bool) :
    (yalloc_clas rd w len clear).1.hb.inimem = w.hb.inimem ∧
    (yalloc_clas rd w len clear).1.hb.inipos = w.hb.inipos := by
  unfold yalloc_clas
  simp only []
  split_ifs <;> simp [clas_tclas_frame, clas_bin_frame, clas_ring_frame, clas_commit_frame]

theorem yalloc_clas_Al (rd : RegdirFn) (w : world) (len : Nat) (clear : Bool) (h : Al w) :
    Al (yalloc_clas rd w len clear).1 := by
  have ht : Al (clas_tclas w len).1 :=
    ⟨by rw [(clas_tclas_frame w len).2.2.1]; exact h.os,
     by rw [(clas_tclas_frame w len).2.2.2]; exact h.user⟩
  unfold yalloc_clas
  simp only []
  split_ifs
  · exact ⟨by rw [(clas_bin_frame _ _ _ _).2.2.1]; exact ht.os,
      by rw [(clas_bin_frame _ _ _ _).2.2.2]; exact ht.user⟩
  · exact clas_ring_Al rd _ _ _ _ _ ht
  · exact clas_commit_Al rd _ _ _ _ _ ht
  · exact ht

/-- The size class part never reports the bump, buddy or direct-map path. -/
theorem yalloc_clas_path (rd : RegdirFn) (w : world) (len : Nat) (clear : Bool) (r : Nat × Apath)
    (h : (yalloc_clas rd w len clear).2 = some r) :
    r.2 = Apath.bin ∨ r.2 = Apath.slab ∨ r.2 = Apath.fail := by
  unfold yalloc_clas clas_ring clas_commit at h
  simp only [] at h
  split_ifs at h <;> simp at h <;> subst h <;> simp

theorem yalloc_heap_bump_iff (rd : RegdirFn) (w : world) (len : Nat) (clear : Bool) :
    (yalloc_heap rd w len clear).path = Apath.bump ↔
      (u64 (len <<< guardbit) < mmap_threshold ∧ u64 (len <<< guardbit) < Maxclasslen ∧
        w.hb.inipos + u64 (len <<< guardbit) + 2 * Basealign ≤ Inimem) := by
  unfold yalloc_heap
  simp only []
  split_ifs with h1 h2 h3
  · simp only [reduceCtorEq, false_iff]
    omega
  · simp only [true_iff]
    exact ⟨by omega, h2, h3⟩
  · have hc := yalloc_clas_path rd w (u64 (len <<< guardbit)) clear
    split
    · rename_i r hr
      have := hc r hr
      simp only []
      constructor
      · intro hb
        rw [hb] at this
        simp at this
      · intro hh
        exact absurd hh.2.2 h3
    · simp only [yalloc_buddy, reduceCtorEq, false_iff]
      intro hh
      exact h3 hh.2.2
  · simp only [yalloc_buddy, reduceCtorEq, false_iff]
    intro hh
    exact h2 hh.2.1

theorem bump_pos_aligned (a b : Nat) (ha : a % 8 = 0) (hb : b % 8 = 0) :
    u32 (a + (u32 b + Basealign)) % 8 = 0 := by
  unfold u32 Basealign
  omega

/-- The invariant holds again after `yalloc_heap`. -/
theorem yalloc_heap_AlignInv (rd : RegdirFn) (w : world) (len : Nat) (clear : Bool)
    (h : AlignInv w) : AlignInv (yalloc_heap rd w len clear).w := by
  unfold yalloc_heap
  simp only []
  split_ifs with h1 h2 h3
  · exact ⟨by rw [(yal_mmap_frame rd w _).1]; exact h.inimem,
      by rw [(yal_mmap_frame rd w _).2]; exact h.inipos, (yal_mmap_Al rd w _ h.al).2⟩
  · refine ⟨h.inimem, ?_, ⟨h.al.os, h.al.user⟩⟩
    exact bump_pos_aligned _ _ h.inipos (doalign_8 (u64 (len <<< guardbit)))
  · split
    · exact ⟨by rw [(yalloc_clas_frame rd w _ clear).1]; exact h.inimem,
        by rw [(yalloc_clas_frame rd w _ clear).2]; exact h.inipos, yalloc_clas_Al rd w _ clear h.al⟩
    · unfold yalloc_buddy
      exact ⟨by rw [(buddy_alloc_frame rd _ _ clear).1, (yalloc_clas_frame rd w _ clear).1]; exact h.inimem,
        by rw [(buddy_alloc_frame rd _ _ clear).2, (yalloc_clas_frame rd w _ clear).2]; exact h.inipos,
        (buddy_alloc_Al rd _ _ clear (yalloc_clas_Al rd w _ clear h.al)).2⟩
  · unfold yalloc_buddy
    exact ⟨by rw [(buddy_alloc_frame rd _ _ clear).1]; exact h.inimem,
      by rw [(buddy_alloc_frame rd _ _ clear).2]; exact h.inipos,
      (buddy_alloc_Al rd _ _ clear h.al).2⟩

/-- On the bump, buddy and direct-map paths the pointer is a multiple of 8. -/
theorem yalloc_heap_aligned (rd : RegdirFn) (w : world) (len : Nat) (clear : Bool) (h : AlignInv w)
    (hp : (yalloc_heap rd w len clear).path = Apath.bump ∨
          (yalloc_heap rd w len clear).path = Apath.buddy ∨
          (yalloc_heap rd w len clear).path = Apath.mmap) :
    (yalloc_heap rd w len clear).p % Basealign = 0 := by
  unfold yalloc_heap at hp ⊢
  simp only [] at hp ⊢
  split_ifs at hp ⊢ with h1 h2 h3
  · have := (yal_mmap_Al rd w (u64 (len <<< guardbit)) h.al).1
    show (yal_mmap rd w (u64 (len <<< guardbit))).1 % Basealign = 0
    unfold Basealign
    omega
  · have hi := h.inipos
    have hm := h.inimem
    show (w.hb.inimem + (w.hb.inipos + Basealign)) % Basealign = 0
    unfold Basealign
    omega
  · have hc := yalloc_clas_path rd w (u64 (len <<< guardbit)) clear
    cases hcl : (yalloc_clas rd w (u64 (len <<< guardbit)) clear).2 with
    | some r =>
      have := hc r hcl
      simp only [hcl] at hp
      rcases hp with hp | hp | hp <;> rw [hp] at this <;> simp at this
    | none =>
      simp only [hcl]
      have := (buddy_alloc_Al rd _ (if u64 (len <<< guardbit) < 2 ^ Minorder then 2 ^ Minorder
        else u64 (len <<< guardbit)) clear (yalloc_clas_Al rd w (u64 (len <<< guardbit)) clear h.al)).1
      show (buddy_alloc rd _ _ clear).1 % Basealign = 0
      unfold Basealign
      omega
  · have := (buddy_alloc_Al rd w (if u64 (len <<< guardbit) < 2 ^ Minorder then 2 ^ Minorder
      else u64 (len <<< guardbit)) clear h.al).1
    show (buddy_alloc rd _ _ clear).1 % Basealign = 0
    unfold Basealign
    omega

/-! ### `ctz` and the bin mask -/

theorem ctzAux_testBit (n m : Nat) (h0 : m ≠ 0) (hlt : m < 2 ^ n) :
    m.testBit (ctzAux n m) = true := by
  induction n generalizing m with
  | zero =>
    simp at hlt
    exact absurd hlt h0
  | succ n ih =>
    unfold ctzAux
    by_cases h1 : m % 2 = 1
    · simp [h1]
    · simp only [h1, if_false]
      have h2 : m / 2 ≠ 0 := by omega
      have h3 : m / 2 < 2 ^ n := by
        rw [Nat.pow_succ] at hlt
        omega
      rw [Nat.add_comm 1, Nat.testBit_add_one]
      exact ih (m / 2) h2 h3

theorem or_two_pow_of_testBit (m k : Nat) (h : m.testBit k = true) : m ||| 2 ^ k = m := by
  apply Nat.eq_of_testBit_eq
  intro i
  rw [Nat.testBit_or, Nat.testBit_two_pow]
  by_cases hi : k = i
  · subst hi
    simp [h]
  · simp [hi]

theorem binmask_or_ctz (m : Nat) (h0 : m ≠ 0) (hlt : m < 2 ^ 16) :
    u16 (m ||| u32 (1 <<< ctz m)) = m := by
  have hb : m.testBit (ctz m) = true :=
    ctzAux_testBit 32 m h0 (Nat.lt_of_lt_of_le hlt (by decide))
  have hge := Nat.testBit_implies_ge hb
  have hk : ctz m < 16 := by
    by_contra hcon
    have : 2 ^ 16 ≤ 2 ^ ctz m := Nat.pow_le_pow_right (by decide) (by omega)
    omega
  have h32 : 2 ^ ctz m < 2 ^ 32 := Nat.pow_lt_pow_right (by decide) (by omega)
  rw [Nat.one_shiftLeft]
  unfold u32 u16
  rw [Nat.mod_eq_of_lt h32, or_two_pow_of_testBit m _ hb, Nat.mod_eq_of_lt hlt]

/-! ### Frames of the free side on the bins -/

theorem yfree_evict_frame (rd : RegdirFn) (w : world) (clas : Nat) :
    (yfree_evict rd w clas).hb.bins = w.hb.bins ∧
    (yfree_evict rd w clas).hb.binmasks = w.hb.binmasks ∧
    (yfree_evict rd w clas).hb.inimem = w.hb.inimem ∧
    (yfree_evict rd w clas).hb.inipos = w.hb.inipos ∧
    (yfree_evict rd w clas).os = w.os := by
  unfold yfree_evict
  simp only []
  split_ifs <;> simp [delregion_frame, slab_free_frame]

theorem yfree_evict_ual (rd : RegdirFn) (w : world) (clas : Nat) (h : ual w.regs) :
    ual (yfree_evict rd w clas).regs := by
  unfold yfree_evict
  simp only []
  split_ifs <;>
    repeat' (first
      | with_reducible exact h
      | with_reducible apply delregion_ual
      | with_reducible apply slab_free_ual
      | with_reducible refine ual_same ?_ rfl)

theorem yfree_typ_frame (rd : RegdirFn) (w : world) (reg p : Nat) (b : Bool) :
    (yfree_typ rd w reg p b).w.hb.bins = w.hb.bins ∧
    (yfree_typ rd w reg p b).w.hb.binmasks = w.hb.binmasks ∧
    (yfree_typ rd w reg p b).w.hb.inimem = w.hb.inimem ∧
    (yfree_typ rd w reg p b).w.hb.inipos = w.hb.inipos ∧
    (yfree_typ rd w reg p b).w.os = w.os ∧
    (yfree_typ rd w reg p b).binned = b := by
  unfold yfree_typ
  simp only []
  split_ifs <;> simp [delregion_frame, buddy_free_frame, free_mmap_frame, delheap_frame]

theorem yfree_typ_ual (rd : RegdirFn) (w : world) (reg p : Nat) (b : Bool) (h : ual w.regs) :
    ual (yfree_typ rd w reg p b).w.regs := by
  unfold yfree_typ
  simp only []
  split_ifs <;> simp only [buddy_free_frame] <;>
    repeat' (first
      | with_reducible exact h
      | with_reducible apply delheap_ual
      | with_reducible apply delregion_ual
      | with_reducible apply free_mmap_ual
      | (rw [(buddy_free_frame _ _ _).2.2.2.2.2]; exact h))

/-- What `yfree_bin` leaves behind when it stores the pointer: the mask of the class is
not empty and its lowest set bit is the slot that holds the pointer. -/
theorem yfree_bin_spec (rd : RegdirFn) (w w1 : world) (reg clas p : Nat)
    (hm : w.hb.binmasks clas < 2 ^ 16) (h : yfree_bin rd w reg clas p = some w1) :
    w1.hb.binmasks clas ≠ 0 ∧
    w1.hb.bins (clas * Bin + ctz (w1.hb.binmasks clas)) = ⟨p, reg⟩ ∧
    w1.hb.inimem = w.hb.inimem ∧ w1.hb.inipos = w.hb.inipos ∧ w1.os = w.os ∧
    (ual w.regs → ual w1.regs) := by
  unfold yfree_bin at h
  simp only [] at h
  split_ifs at h with h1 h2 h3 h4
  · simp only [Option.some.injEq] at h
    subst h
    have hf := yfree_evict_frame rd w clas
    simp only [hf, h1]
    refine ⟨by decide, ?_, trivial, trivial, trivial, fun hu => yfree_evict_ual rd w clas hu⟩
    have : ctz Binmask = 0 := by decide
    rw [this]
    simp [upd]
  · simp only [Option.some.injEq] at h
    subst h
    simp only []
    refine ⟨by simp [upd], ?_, trivial, trivial, trivial, fun hu => hu⟩
    have : ctz 1 = 0 := by decide
    simp [upd, this]
  · simp only [Option.some.injEq] at h
    subst h
    simp only []
    have hk := binmask_or_ctz (w.hb.binmasks clas) h3 hm
    refine ⟨by simp [upd, hk, h3], ?_, trivial, trivial, trivial, fun hu => hu⟩
    simp [upd, hk]

/-- The fields `yfree_bin` leaves alone. -/
theorem yfree_bin_frame (rd : RegdirFn) (w w1 : world) (reg clas p : Nat)
    (h : yfree_bin rd w reg clas p = some w1) :
    w1.hb.inimem = w.hb.inimem ∧ w1.hb.inipos = w.hb.inipos ∧ w1.os = w.os ∧
    (ual w.regs → ual w1.regs) := by
  unfold yfree_bin at h
  simp only [] at h
  split_ifs at h with h1 h2 h3 h4
  · simp only [Option.some.injEq] at h
    subst h
    have hf := yfree_evict_frame rd w clas
    simp only [hf]
    exact ⟨trivial, trivial, trivial, fun hu => yfree_evict_ual rd w clas hu⟩
  · simp only [Option.some.injEq] at h
    subst h
    exact ⟨rfl, rfl, rfl, fun hu => hu⟩
  · simp only [Option.some.injEq] at h
    subst h
    exact ⟨rfl, rfl, rfl, fun hu => hu⟩

/-- The test for a pointer of the bump arena reads only `inimem`. -/
theorem in_inimem_congr (w w1 : world) (p : Nat) (h : w1.hb.inimem = w.hb.inimem) :
    in_inimem w1 p = in_inimem w p := by
  unfold in_inimem
  rw [h]

/-- The invariant holds again after `yfree_heap`. -/
theorem yfree_heap_AlignInv (rd : RegdirFn) (w : world) (p len : Nat)
    (h : AlignInv w) : AlignInv (yfree_heap rd w p len).w := by
  unfold yfree_heap
  simp only []
  split_ifs with h1 h2 h3 h4 h5
  · exact ⟨h.inimem, h.inipos, h.al.os, h.al.user⟩
  · exact h
  · exact h
  · exact h
  · cases hb : yfree_bin rd w (findregion w p) (w.regs (findregion w p)).clas p with
    | none => exact h
    | some w1 =>
      simp only []
      have hs := yfree_bin_frame rd w w1 _ _ p hb
      have ht := yfree_typ_frame rd w1 (findregion w p) p true
      exact ⟨by rw [ht.2.2.1, hs.1]; exact h.inimem,
        by rw [ht.2.2.2.1, hs.2.1]; exact h.inipos,
        by rw [ht.2.2.2.2.1, hs.2.2.1]; exact h.al.os,
        yfree_typ_ual rd w1 _ p true (hs.2.2.2 h.al.user)⟩
  · have ht := yfree_typ_frame rd w (findregion w p) p false
    exact ⟨by rw [ht.2.2.1]; exact h.inimem, by rw [ht.2.2.2.1]; exact h.inipos,
      by rw [ht.2.2.2.2.1]; exact h.al.os, yfree_typ_ual rd w _ p false h.al.user⟩

/-- A request served by the bump arena: where the pointer lies, and that the directory
is not touched. -/
theorem yalloc_heap_bump_spec (rd : RegdirFn) (w : world) (len : Nat) (clear : Bool)
    (hb : (yalloc_heap rd w len clear).path = Apath.bump) :
    (yalloc_heap rd w len clear).p = w.hb.inimem + w.hb.inipos + Basealign ∧
    w.hb.inimem + Basealign ≤ (yalloc_heap rd w len clear).p ∧
    (yalloc_heap rd w len clear).p + u64 (len <<< guardbit) + Basealign ≤ w.hb.inimem + Inimem ∧
    in_inimem (yalloc_heap rd w len clear).w (yalloc_heap rd w len clear).p = true ∧
    (yalloc_heap rd w len clear).w.hb.rootdir = w.hb.rootdir ∧
    (∀ ip, findregion (yalloc_heap rd w len clear).w ip = findregion w ip) ∧
    (∀ l, (yfree_heap rd (yalloc_heap rd w len clear).w (yalloc_heap rd w len clear).p l).out
      = Fout.bump) := by
  have hc := (yalloc_heap_bump_iff rd w len clear).1 hb
  have hw : yalloc_heap rd w len clear =
      ⟨w.hb.inimem + (w.hb.inipos + Basealign),
       { w with mem := wr4 w.mem (w.hb.inimem + w.hb.inipos) (u32 (u64 (len <<< guardbit))),
                hb.inipos := u32 (w.hb.inipos +
                  (u32 (doalign 64 32 (u64 (len <<< guardbit)) Basealign) + Basealign)) },
       Apath.bump⟩ := by
    unfold yalloc_heap
    simp only []
    rw [if_neg (by omega), if_pos hc.2.1, if_pos hc.2.2]
  have hin : in_inimem (yalloc_heap rd w len clear).w (yalloc_heap rd w len clear).p = true := by
    rw [hw]
    unfold in_inimem
    simp only [decide_eq_true_eq]
    have := hc.2.2
    unfold Basealign Inimem at *
    omega
  refine ⟨?_, ?_, ?_, hin, ?_, ?_, ?_⟩
  · rw [hw]; simp only []; omega
  · rw [hw]; simp only []; omega
  · rw [hw]; simp only []
    have := hc.2.2
    omega
  · rw [hw]
  · intro ip
    rw [hw]
    rfl
  · intro l
    unfold yfree_heap
    rw [hin]
    rfl

/-- A free that stores the pointer in a bin went through `yfree_bin` and `yfree_typ`. -/
theorem yfree_heap_binned (rd : RegdirFn) (w : world) (p len : Nat)
    (hb : (yfree_heap rd w p len).binned = true) :
    in_inimem w p = false ∧ findregion w p ≠ 0 ∧ (w.regs (findregion w p)).clas ≠ Noclass ∧
    ∃ w1, yfree_bin rd w (findregion w p) (w.regs (findregion w p)).clas p = some w1 ∧
      (yfree_heap rd w p len).w = (yfree_typ rd w1 (findregion w p) p true).w := by
  unfold yfree_heap at hb ⊢
  simp only [] at hb ⊢
  split_ifs at hb ⊢ with h1 h2 h3 h4 h5
  · cases hbin : yfree_bin rd w (findregion w p) (w.regs (findregion w p)).clas p with
    | none =>
      rw [hbin] at hb
      simp at hb
    | some w1 =>
      refine ⟨by simpa using h1, h3, h4, w1, rfl, ?_⟩
      simp only []
  · rw [(yfree_typ_frame rd w (findregion w p) p false).2.2.2.2.2] at hb
    simp at hb

theorem u64_small (L : Nat) (h : L < Maxclasslen) : u64 (L <<< guardbit) = L := by
  unfold u64 guardbit
  rw [Nat.shiftLeft_zero]
  apply Nat.mod_eq_of_lt
  unfold Maxclasslen at h
  omega

/-- An allocation right after a free that stored `p` in the bin of the class of `L`. -/
theorem yalloc_heap_bin_hit (rd : RegdirFn) (w : world) (p len L : Nat) (clear : Bool)
    (hm : w.hb.binmasks (w.regs (findregion w p)).clas < 2 ^ 16)
    (hb : (yfree_heap rd w p len).binned = true)
    (hL : L < Maxclasslen)
    (hfull : Inimem < (yfree_heap rd w p len).w.hb.inipos + L + 2 * Basealign)
    (ht : (yfree_heap rd w p len).w.hb.len2tclas (class_calen L) ≠ hi16)
    (hc : (yfree_heap rd w p len).w.hb.tclas2clas
        ((yfree_heap rd w p len).w.hb.len2tclas (class_calen L)) = (w.regs (findregion w p)).clas) :
    (yalloc_heap rd (yfree_heap rd w p len).w L clear).p = p ∧
    (yalloc_heap rd (yfree_heap rd w p len).w L clear).path = Apath.bin := by
  obtain ⟨_, _, hcl, w1, hbin, hw⟩ := yfree_heap_binned rd w p len hb
  have hs := yfree_bin_spec rd w w1 _ _ p hm hbin
  have hf := yfree_typ_frame rd w1 (findregion w p) p true
  have hmask : (yfree_heap rd w p len).w.hb.binmasks (w.regs (findregion w p)).clas ≠ 0 := by
    rw [hw, hf.2.1]; exact hs.1
  have hslot : ((yfree_heap rd w p len).w.hb.bins ((w.regs (findregion w p)).clas * Bin +
      ctz ((yfree_heap rd w p len).w.hb.binmasks (w.regs (findregion w p)).clas))).p = p := by
    rw [hw, hf.2.1, hf.1, hs.2.1]
  generalize (yfree_heap rd w p len).w = v at *
  have hclas : (clas_tclas v L) = (v, v.hb.len2tclas (class_calen L)) := by
    unfold clas_tclas
    simp only []
    rw [if_neg (fun hh => ht hh.1)]
  have hcw : yalloc_clas rd v L clear =
      ((clas_bin v (w.regs (findregion w p)).clas L clear).2,
        some ((clas_bin v (w.regs (findregion w p)).clas L clear).1, Apath.bin)) := by
    unfold yalloc_clas
    simp only [hclas]
    rw [if_pos ht, hc, if_pos (show _ ≠ hi16 from hcl), if_pos hmask]
  have hp : (clas_bin v (w.regs (findregion w p)).clas L clear).1 = p := by
    unfold clas_bin
    simp only []
    exact hslot
  unfold yalloc_heap
  simp only [u64_small L hL]
  have h1 : ¬ (L ≥ mmap_threshold) := by
    unfold mmap_threshold Mmap_threshold
    unfold Maxclasslen at hL
    omega
  rw [if_neg h1, if_pos hL, if_neg (by omega), hcw]
  exact ⟨hp, rfl⟩

theorem wr4_zero_of_rd4_zero (m : Nat → Nat) (a : Nat) (h : rd4 m a = 0) : wr4 m a 0 = m := by
  unfold rd4 at h
  simp only [rdN] at h
  funext x
  unfold wr4
  simp only [wrN]
  split_ifs with h1 h2 h3 h4
  · subst h1; omega
  · subst h2; omega
  · subst h3; omega
  · subst h4; omega
  · rfl

theorem rd4_wr4_zero (m : Nat → Nat) (a : Nat) : rd4 (wr4 m a 0) a = 0 := by
  unfold rd4 wr4
  simp [rdN, wrN]

theorem bin_has_mono (w : world) (clas binmask p : Nat) (n : Nat)
    (h : bin_has w clas binmask p true n = true) : bin_has w clas binmask p false n = true := by
  induction n with
  | zero => simp [bin_has] at h
  | succ n ih =>
    unfold bin_has at h ⊢
    simp only [Bool.or_eq_true, Bool.and_eq_true, Bool.not_true, Bool.false_or,
      decide_eq_true_eq, Bool.not_false, Bool.true_or, true_and] at h ⊢
    rcases h with h | h
    · exact Or.inl (ih h)
    · exact Or.inr h.2

/-- Freeing a pointer in a state that `freed` describes changes nothing. -/
theorem yfree_heap_of_freed (rd : RegdirFn) (w : world) (p len : Nat) (h : freed w p) :
    (yfree_heap rd w p len).w = w := by
  rcases h with ⟨h1, h2⟩ | ⟨h1, h3, h4, h5, h6⟩
  · unfold yfree_heap
    rw [if_pos h1]
    simp only [wr4_zero_of_rd4_zero _ _ h2]
  · have hbin : yfree_bin rd w (findregion w p) (w.regs (findregion w p)).clas p = none := by
      unfold yfree_bin
      simp only []
      by_cases c1 : w.hb.binmasks (w.regs (findregion w p)).clas = Binmask
      · rw [if_pos c1, if_pos (bin_has_mono w _ _ p Bin h6)]
      · rw [if_neg c1, if_neg h5, if_pos h6]
    unfold yfree_heap
    simp only [h1, Bool.false_eq_true, if_false]
    by_cases h2 : p ≥ 2 ^ Maxvm
    · rw [if_pos h2]
    · rw [if_neg h2, if_neg h3, if_pos h4]
      by_cases c5 : slab_chk4free w (findregion w p) p = true
      · rw [if_pos c5]
      · rw [if_neg c5]
        simp only [hbin]

theorem cl_refl (R : Nat → region) : cl_eq R R := fun _ => rfl

theorem cl_upd {R R1 : Nat → region} {i : Nat} {v : region}
    (h : cl_eq R R1) (hv : v.clas = (R1 i).clas) : cl_eq R (upd R1 i v) := by
  intro x
  unfold upd
  split_ifs with hx
  · rw [hv, hx]; exact h i
  · exact h x

theorem cl_trans {R R1 R2 : Nat → region} (h1 : cl_eq R R1) (h2 : cl_eq R1 R2) : cl_eq R R2 :=
  fun x => (h2 x).trans (h1 x)

theorem delregmem_cl {R : Nat → region} (w : world) (reg : Nat) (h : cl_eq R w.regs) :
    cl_eq R (delregmem w reg).regs := by
  unfold delregmem
  exact cl_upd h rfl

theorem delregion_loop_cl {R : Nat → region} (last : Bool) (n i : Nat) (w : world) (reg : Nat)
    (h : cl_eq R w.regs) : cl_eq R (delregion_loop last n i w reg).1.regs := by
  induction n generalizing i w reg with
  | zero => exact h
  | succ n ih =>
    unfold delregion_loop
    simp only []
    split_ifs
    · exact ih _ _ _ (delregmem_cl w reg h)
    · exact ih _ _ _ h
    · exact h

theorem delregion_cl {R : Nat → region} (rd : RegdirFn) (w : world) (reg : Nat)
    (h : cl_eq R w.regs) : cl_eq R (delregion rd w reg).1.regs := by
  unfold delregion
  simp only []
  split_ifs <;>
    repeat' (first
      | with_reducible exact h
      | with_reducible apply delregmem_cl
      | with_reducible apply delregion_loop_cl
      | with_reducible refine cl_upd ?_ rfl
      | (rw [(regdir_frame _ _ _ _ _).2.2.2.2.2]))

theorem slab_free_cl {R : Nat → region} (w : world) (reg ip : Nat) (h : cl_eq R w.regs) :
    cl_eq R (slab_free w reg ip).1.regs := by
  unfold slab_free
  simp only []
  split_ifs <;>
    repeat' (first
      | with_reducible exact h
      | with_reducible refine cl_upd ?_ rfl)

theorem free_mmap_cl {R : Nat → region} (rd : RegdirFn) (w : world) (reg ip : Nat)
    (h : cl_eq R w.regs) : cl_eq R (free_mmap rd w reg ip).1.regs := by
  unfold free_mmap
  simp only []
  split_ifs <;> first | exact h | exact delregion_cl rd w reg h

theorem yfree_evict_cl {R : Nat → region} (rd : RegdirFn) (w : world) (clas : Nat)
    (h : cl_eq R w.regs) : cl_eq R (yfree_evict rd w clas).regs := by
  unfold yfree_evict
  simp only []
  split_ifs <;>
    repeat' (first
      | with_reducible exact h
      | with_reducible apply delregion_cl
      | with_reducible apply slab_free_cl
      | with_reducible refine cl_upd ?_ rfl)

theorem yfree_bin_cl (rd : RegdirFn) (w w1 : world) (reg clas p : Nat)
    (h : yfree_bin rd w reg clas p = some w1) : cl_eq w.regs w1.regs := by
  unfold yfree_bin at h
  simp only [] at h
  split_ifs at h with h1 h2 h3 h4
  · simp only [Option.some.injEq] at h
    subst h
    exact yfree_evict_cl rd w clas (cl_refl _)
  · simp only [Option.some.injEq] at h
    subst h
    exact cl_refl _
  · simp only [Option.some.injEq] at h
    subst h
    exact cl_refl _

theorem yfree_typ_cl {R : Nat → region} (rd : RegdirFn) (w : world) (reg p : Nat) (b : Bool)
    (h : cl_eq R w.regs) : cl_eq R (yfree_typ rd w reg p b).w.regs := by
  unfold yfree_typ
  simp only []
  split_ifs <;>
    repeat' (first
      | with_reducible exact h
      | (rw [(delheap_frame _ _).2.2])
      | with_reducible apply delregion_cl
      | with_reducible apply free_mmap_cl
      | (rw [(buddy_free_frame _ _ _).2.2.2.2.2]))

theorem and_two_pow_ne_zero (m k : Nat) (h : m.testBit k = true) : m &&& 2 ^ k ≠ 0 := by
  intro h0
  have := Nat.testBit_and m (2 ^ k) k
  rw [h0, Nat.zero_testBit, h, Nat.testBit_two_pow_self] at this
  simp at this

theorem bin_has_of_slot (w : world) (clas binmask p n k : Nat) (hn : n < k)
    (hbit : binmask &&& u32 (1 <<< n) ≠ 0) (hp : (w.hb.bins (clas * Bin + n)).p = p) :
    bin_has w clas binmask p true k = true := by
  induction k with
  | zero => omega
  | succ k ih =>
    unfold bin_has
    simp only [Bool.or_eq_true, Bool.and_eq_true, Bool.not_true, Bool.false_or, decide_eq_true_eq]
    by_cases hk : n = k
    · subst hk
      exact Or.inr ⟨hbit, hp⟩
    · exact Or.inl (ih (by omega))

theorem yfree_bin_mask8 (rd : RegdirFn) (w w1 : world) (reg clas p : Nat)
    (hm : w.hb.binmasks clas < 2 ^ 8) (h : yfree_bin rd w reg clas p = some w1) :
    w1.hb.binmasks clas < 2 ^ 8 := by
  unfold yfree_bin at h
  simp only [] at h
  split_ifs at h with h1 h2 h3 h4
  · simp only [Option.some.injEq] at h
    subst h
    simp only [yfree_evict_frame]
    exact hm
  · simp only [Option.some.injEq] at h
    subst h
    simp [upd]
  · simp only [Option.some.injEq] at h
    subst h
    simp only [upd, if_true]
    rw [binmask_or_ctz _ h3 (Nat.lt_of_lt_of_le hm (by decide))]
    exact hm

theorem ctz_slot (m : Nat) (h0 : m ≠ 0) (hlt : m < 2 ^ 8) :
    ctz m < 8 ∧ m &&& u32 (1 <<< ctz m) ≠ 0 := by
  have hb : m.testBit (ctz m) = true :=
    ctzAux_testBit 32 m h0 (Nat.lt_of_lt_of_le hlt (by decide))
  have hge := Nat.testBit_implies_ge hb
  have hk : ctz m < 8 := by
    by_contra hcon
    have : 2 ^ 8 ≤ 2 ^ ctz m := Nat.pow_le_pow_right (by decide) (by omega)
    omega
  have h32 : 2 ^ ctz m < 2 ^ 32 := Nat.pow_lt_pow_right (by decide) (by omega)
  refine ⟨hk, ?_⟩
  rw [Nat.one_shiftLeft]
  unfold u32
  rw [Nat.mod_eq_of_lt h32]
  exact and_two_pow_ne_zero m _ hb

/-- After a free that took the bump exit, or stored `p` in a bin while the directory
still resolves `p` as before, the state is one that `freed` describes. -/
theorem yfree_heap_freed (rd : RegdirFn) (w : world) (p len : Nat)
    (hm : w.hb.binmasks (w.regs (findregion w p)).clas < 2 ^ 8)
    (h : (yfree_heap rd w p len).out = Fout.bump ∨
      ((yfree_heap rd w p len).binned = true ∧
        findregion (yfree_heap rd w p len).w p = findregion w p)) :
    freed (yfree_heap rd w p len).w p := by
  by_cases hin : in_inimem w p = true
  · left
    unfold yfree_heap
    rw [if_pos hin]
    exact ⟨hin, rd4_wr4_zero _ _⟩
  · have hb : (yfree_heap rd w p len).binned = true ∧
        findregion (yfree_heap rd w p len).w p = findregion w p := by
      rcases h with h | h
      · exfalso
        unfold yfree_heap at h
        simp only [] at h
        rw [if_neg hin] at h
        split_ifs at h
        · revert h
          split
          · simp
          · unfold yfree_typ
            simp only []
            split_ifs <;> simp
        · revert h
          unfold yfree_typ
          simp only []
          split_ifs <;> simp
      · exact h
    obtain ⟨hni, hreg, hcl, w1, hbin, hw⟩ := yfree_heap_binned rd w p len hb.1
    have hm16 : w.hb.binmasks (w.regs (findregion w p)).clas < 2 ^ 16 :=
      Nat.lt_of_lt_of_le hm (by decide)
    have hs := yfree_bin_spec rd w w1 _ _ p hm16 hbin
    have hf := yfree_typ_frame rd w1 (findregion w p) p true
    have hc1 := yfree_bin_cl rd w w1 _ _ p hbin
    have hc2 : cl_eq w.regs (yfree_typ rd w1 (findregion w p) p true).w.regs :=
      yfree_typ_cl rd w1 _ p true hc1
    right
    have hlook := hb.2
    rw [hw] at hlook ⊢
    refine ⟨?_, ?_, ?_, ?_, ?_⟩
    · rw [in_inimem_congr w1 _ p hf.2.2.1, in_inimem_congr w w1 p hs.2.2.1]
      exact hni
    · rw [hlook]; exact hreg
    · rw [hlook, hc2]; exact hcl
    · rw [hlook, hc2, hf.2.1]; exact hs.1
    · rw [hlook, hc2, hf.2.1]
      have h8 := yfree_bin_mask8 rd w w1 _ _ p hm hbin
      have hsl := ctz_slot _ hs.1 h8
      apply bin_has_of_slot _ _ _ p (ctz (w1.hb.binmasks (w.regs (findregion w p)).clas)) Bin hsl.1
        hsl.2
      rw [hf.1, hs.2.1]

theorem newheap_base_spec (w : world) (len : Nat) (hm : w.heapmem % 8 = 0)
    (hp : w.heapmem_pos % 8 = 0) (hal : Al w) :
    (newheap_base w len).1 % 8 = 0 ∧ Al (newheap_base w len).2 := by
  have hos := osmmap_spec { w with heapmem_pos := u32 (w.heapmem_pos + len) &&& hi16 } len
  unfold newheap_base
  simp only []
  split_ifs
  · exact ⟨by omega, hal.os, hal.user⟩
  · have h2 := hos.2.2 hal.os
    refine ⟨by omega, h2.2, ?_⟩
    rw [hos.2.1]
    exact hal.user

theorem sizes_sum : sizeof_heap + inireg * sizeof_region + inidir * Dir * sizeof_region = 69376 := rfl

/-- A heap that `newheap` returns satisfies the alignment invariant. -/
theorem newheap_AlignInv (w : world) (d : Nat) (hm : w.heapmem % 8 = 0)
    (hp : w.heapmem_pos % 8 = 0) (hal : Al w) (hne : (newheap w d).1 ≠ 0) :
    AlignInv (newheap w d).2 := by
  have hb := newheap_base_spec { w with heap_gid := u32 (w.heap_gid + 1) }
    (doalign 32 32 (u32 (sizeof_heap + inireg * sizeof_region + inidir * Dir * sizeof_region + Inimem)) 16)
    hm hp ⟨hal.os, hal.user⟩
  unfold newheap at hne ⊢
  simp only [] at hne ⊢
  split_ifs at hne ⊢
  · exact absurd rfl hne
  · obtain ⟨h1, h2⟩ := hb
    generalize newheap_base _ _ = nb at h1 h2 hne ⊢
    refine AlignInv.mk ?_ ?_ ?_
    · simp only []
      have e := sizes_sum
      omega
    · rfl
    · exact ⟨h2.os, h2.user⟩

/-- The heap that `getheap` creates for a thread without one satisfies the alignment
invariant. -/
theorem getheap_AlignInv (w : world) (h0 : w.thread_heap = 0) (hm : w.heapmem % 8 = 0)
    (hp : w.heapmem_pos % 8 = 0) (hal : Al w) (hne : (getheap w).1 ≠ 0) :
    AlignInv (getheap w).2 := by
  unfold getheap at hne ⊢
  simp only [h0, Nat.zero_and, ne_eq, not_true_eq_false, if_false, if_true] at hne ⊢
  split_ifs at hne ⊢ with c
  · exact absurd rfl hne
  · have := newheap_AlignInv w 0 hm hp hal c
    generalize newheap w 0 = nh at this c ⊢
    exact ⟨this.inimem, this.inipos, this.al.os, this.al.user⟩

/-! ### The entry points of `std.h` -/

theorem lor_eq_zero_iff (x y : Nat) : x ||| y = 0 ↔ x = 0 ∧ y = 0 := by
  constructor
  · intro h
    have hb : ∀ i, (x ||| y).testBit i = false := by intro i; rw [h]; simp
    constructor
    · apply Nat.eq_of_testBit_eq
      intro i
      have := hb i
      simp only [Nat.testBit_or, Bool.or_eq_false_iff] at this
      simp [this.1]
    · apply Nat.eq_of_testBit_eq
      intro i
      have := hb i
      simp only [Nat.testBit_or, Bool.or_eq_false_iff] at this
      simp [this.2]
  · rintro ⟨rfl, rfl⟩
    rfl

theorem rd8_eq_zero_iff (m : Nat → Nat) (a : Nat) :
    rd8 m a = 0 ↔ ∀ i, i < 8 → m (a + i) = 0 := by
  simp only [rd8, rdN]
  constructor
  · intro h i hi
    have h0 : m a = 0 := by omega
    have h1 : m (a + 1) = 0 := by omega
    have h2 : m (a + 1 + 1) = 0 := by omega
    have h3 : m (a + 1 + 1 + 1) = 0 := by omega
    have h4 : m (a + 1 + 1 + 1 + 1) = 0 := by omega
    have h5 : m (a + 1 + 1 + 1 + 1 + 1) = 0 := by omega
    have h6 : m (a + 1 + 1 + 1 + 1 + 1 + 1) = 0 := by omega
    have h7 : m (a + 1 + 1 + 1 + 1 + 1 + 1 + 1) = 0 := by omega
    interval_cases i
    · simpa using h0
    · exact h1
    · exact h2
    · exact h3
    · exact h4
    · exact h5
    · exact h6
    · exact h7
  · intro h
    have h0 := h 0 (by omega)
    have h1 := h 1 (by omega)
    have h2 := h 2 (by omega)
    have h3 := h 3 (by omega)
    have h4 := h 4 (by omega)
    have h5 := h 5 (by omega)
    have h6 := h 6 (by omega)
    have h7 := h 7 (by omega)
    simp only [Nat.add_zero] at h0
    have e2 : a + 1 + 1 = a + 2 := by omega
    have e3 : a + 1 + 1 + 1 = a + 3 := by omega
    have e4 : a + 1 + 1 + 1 + 1 = a + 4 := by omega
    have e5 : a + 1 + 1 + 1 + 1 + 1 = a + 5 := by omega
    have e6 : a + 1 + 1 + 1 + 1 + 1 + 1 = a + 6 := by omega
    have e7 : a + 1 + 1 + 1 + 1 + 1 + 1 + 1 = a + 7 := by omega
    rw [e7, e6, e5, e4, e3, e2, h0, h1, h2, h3, h4, h5, h6, h7]

/-! ## The example states -/

/-- The fresh heap satisfies the alignment invariant. -/
theorem w_fresh_AlignInv : AlignInv w_fresh :=
  getheap_AlignInv w_boot rfl (by decide) (by decide) ⟨by unfold os_al; decide, fun _ => rfl⟩ (by decide)

/-! ## C1: alignment of the pointers of `malloc` -/

set_option maxRecDepth 100000 in
/-- C1, the code at the failing input: after `malloc(1000)` has filled the bump arena and
`malloc(17)` has opened the slab of the 32-byte cells at a page-aligned base, in a heap
with an 8-aligned bump arena, `malloc(32)` returns the cell 1 of that slab at the
address base + 17, which is not a multiple of `Basealign` = 8: `newslab` stores the
length of the first request, 17, in `reg->len`, the distance of the cells. -/
theorem C1_slab_cell_misaligned :
    v_slab17.hb.inimem % Basealign = 0 ∧
    (v_slab17.regs (v_slab17.hb.clasreg 0)).typ = Rtype.Rslab ∧
    (v_slab17.regs (v_slab17.hb.clasreg 0)).user % Page = 0 ∧
    (v_slab17.regs (v_slab17.hb.clasreg 0)).cellen = 32 ∧
    (v_slab17.regs (v_slab17.hb.clasreg 0)).len = 17 ∧
    (yalloc_heap regdir_spec v_slab17 32 false).path = Apath.slab ∧
    (malloc regdir_spec v_slab17 32).1 = (v_slab17.regs (v_slab17.hb.clasreg 0)).user + 17 ∧
    (malloc regdir_spec v_slab17 32).1 ≠ 0 ∧
    (malloc regdir_spec v_slab17 32).1 % Basealign = 1 := by
  decide

/-! ## C2: the directory and the pointers of `yalloc_heap` -/

set_option maxRecDepth 100000 in
/-- C2, the code at the failing input: `q = malloc(2^24)` on a new process is the block
of a direct mapping, its descriptor has the range `[q, q + 2^24)`, and `newregion` has
entered the region in the directory, in the entry `0x10` of the node below the root
entry 0. `findregion` returns nil for `q`: it reads the root entry, which holds no
region, and does not move to the node below. The same holds for the cell
`p = malloc(32)` of the slab that follows `malloc(1000)`. -/
theorem C2_region_pointer_not_found :
    q_map1 ≠ 0 ∧ v_map1.hb.lastreg ≠ 0 ∧
    (v_map1.regs v_map1.hb.lastreg).typ = Rtype.Rmmap ∧
    (v_map1.regs v_map1.hb.lastreg).user = q_map1 ∧
    (v_map1.regs v_map1.hb.lastreg).len = 2 ^ 24 ∧
    (v_map1.hb.rootdir 0).reg = 0 ∧ (v_map1.hb.rootdir 0).dir ≠ 0 ∧
    (v_map1.dirents ((v_map1.hb.rootdir 0).dir + 16 * 0x10)).reg = v_map1.hb.lastreg ∧
    findregion v_map1 q_map1 = 0 ∧
    q_slab32 ≠ 0 ∧ (yalloc_heap regdir_spec v_full 32 false).path = Apath.slab ∧
    (v_slab32.regs (v_slab32.hb.clasreg 0)).typ = Rtype.Rslab ∧
    (v_slab32.regs (v_slab32.hb.clasreg 0)).user = q_slab32 ∧
    findregion v_slab32 q_slab32 = 0 := by
  decide

/-! ## C3: `realloc` keeps the bytes -/

/-- C3, the code at the failing input: `p = malloc(8)` on a new process is a block of the
bump arena; the byte `0xA5` is stored at `p[0]`; `q = realloc(p, 16)` is not null and
differs from `p`, and the byte at `q[0]` is 0: nothing was copied. `yalloc_heap` wrote
the length at `p - 8`, `yrealloc` reads it at `p - 4`. -/
theorem C3_realloc_bump_copies_nothing :
    (malloc regdir_root w_boot 8).1 ≠ 0 ∧
    in_inimem w_stored (malloc regdir_root w_boot 8).1 = true ∧
    w_stored.mem (malloc regdir_root w_boot 8).1 = 0xA5 ∧
    rd4 w_stored.mem ((malloc regdir_root w_boot 8).1 - 8) = 8 ∧
    rd4 w_stored.mem ((malloc regdir_root w_boot 8).1 - 4) = 0 ∧
    (realloc regdir_root w_stored (malloc regdir_root w_boot 8).1 16).1 ≠ 0 ∧
    (realloc regdir_root w_stored (malloc regdir_root w_boot 8).1 16).1 ≠
      (malloc regdir_root w_boot 8).1 ∧
    (realloc regdir_root w_stored (malloc regdir_root w_boot 8).1 16).2.mem
      (realloc regdir_root w_stored (malloc regdir_root w_boot 8).1 16).1 = 0 := by
  decide

/-! ## C4: `slab_alloc` on a region with free cells -/

set_option maxRecDepth 100000 in
/-- C4, the code at the failing input: after `malloc(1000)` and 63 calls of `malloc(32)`
the slab of the class has 2048 cells of which 63 are taken (the first bitmap word has
bit 63 clear, the second word is empty), and `slab_alloc` returns nil, as does
`malloc(32)`. -/
theorem C4_slab_alloc_nil_with_free_cells :
    (mallocs regdir_root 32 63 w_full).1 ≠ 0 ∧
    (w_slab63.regs (w_slab63.hb.clasreg 0)).celcnt = 2048 ∧
    rd8 w_slab63.mem (w_slab63.regs (w_slab63.hb.clasreg 0)).meta = 2 ^ 63 - 1 ∧
    rd8 w_slab63.mem ((w_slab63.regs (w_slab63.hb.clasreg 0)).meta + 8) = 0 ∧
    (slab_alloc w_slab63 (w_slab63.hb.clasreg 0) false).1 = 0 ∧
    (malloc regdir_root w_slab63 32).1 = 0 := by
  decide

/-! ## C5: `aligned_alloc` -/

/-- C5, the code at the failing input: `aligned_alloc(16, 24)` on a new process is
passed on to `yalloc`, which serves it from the bump arena; the pointer is 8 modulo
16. -/
theorem C5_aligned_alloc_16_misaligned :
    (aligned_alloc regdir_root w_boot 16 24).1 ≠ 0 ∧
    (aligned_alloc regdir_root w_boot 16 24).1 % 16 = 8 := by
  decide

/-! ## C6: reuse of a freed block -/

set_option maxRecDepth 100000 in
/-- C6, the code at the failing input: on a new process `p = malloc(24); free(p);
q = malloc(24)` gives `q ≠ p`, both blocks come from the bump arena, which takes no
block back. After `malloc(1000)` has filled the arena, `p = malloc(32)` is a slab cell;
`free(p)` finds no region for `p`, ends with the diagnostic for a pointer that was not
allocated and leaves the bin of the class empty, and the next `malloc(32)` returns the
cell after `p`. -/
theorem C6_freed_block_not_reused :
    q_bump ≠ 0 ∧ (free regdir_spec v_bump q_bump).2 = [Diag.heap Fout.bump] ∧
    (malloc regdir_spec (free regdir_spec v_bump q_bump).1 24).1 ≠ 0 ∧
    (malloc regdir_spec (free regdir_spec v_bump q_bump).1 24).1 ≠ q_bump ∧
    q_slab32 ≠ 0 ∧ 32 < Maxclasslen ∧
    (yalloc_heap regdir_spec v_full 32 false).path = Apath.slab ∧
    findregion v_slab32 q_slab32 = 0 ∧
    (free regdir_spec v_slab32 q_slab32).2 = [Diag.heap Fout.unallocated] ∧
    (free regdir_spec v_slab32 q_slab32).1.hb.binmasks 0 = 0 ∧
    (malloc regdir_spec (free regdir_spec v_slab32 q_slab32).1 32).1 = q_slab32 + 32 := by
  decide

/-! ## C7: the second free of a pointer -/

/-- C7: when the first `yfree_heap` of `p` was accepted (it returned at the bump-arena
exit, or it stored `p` in the recycle bin of its class and the directory still resolves
`p` to the same region), a second `yfree_heap` of `p` leaves the whole state, with bin
masks and entries, slab bitmaps, free counts, class tables and region descriptors, as
the first one left it. The bin mask is taken inside the 8 slots of a bin. -/
theorem C7_second_free_changes_nothing (rd : RegdirFn) (w : world) (p len len2 : Nat)
    (hm : w.hb.binmasks (w.regs (findregion w p)).clas < 2 ^ 8)
    (h : (yfree_heap rd w p len).out = Fout.bump ∨
      ((yfree_heap rd w p len).binned = true ∧
        findregion (yfree_heap rd w p len).w p = findregion w p)) :
    (yfree_heap rd (yfree_heap rd w p len).w p len2).w = (yfree_heap rd w p len).w :=
  yfree_heap_of_freed rd _ p len2 (yfree_heap_freed rd w p len hm h)

/-- C7, witness: `p = malloc(24); free(p); free(p)` on a new process; `p` is a block of
the bump arena and the first `free(p)` returns at the exit of the arena. -/
theorem C7_second_free_changes_nothing_witness :
    q_bump ≠ 0 ∧ (yfree_heap regdir_spec v_bump q_bump 0).out = Fout.bump ∧
    (yfree_heap regdir_spec (yfree_heap regdir_spec v_bump q_bump 0).w q_bump 0).w
      = (yfree_heap regdir_spec v_bump q_bump 0).w :=
  ⟨by decide, by decide,
    C7_second_free_changes_nothing regdir_spec v_bump q_bump 0 0 (by decide)
      (Or.inl (by decide))⟩

/-! ## C8: the free of an address that no region holds -/

/-- C8: for an address `p` outside the bump arena that is at or above `2 ^ Maxvm` or for
which `findregion` finds no region, `yfree_heap` returns with the state unchanged, at
the exit for an address outside the address space or the one for an unallocated
block. -/
theorem C8_unknown_pointer_free_unchanged (rd : RegdirFn) (w : world) (p len : Nat)
    (harena : in_inimem w p = false) (hdir : p ≥ 2 ^ Maxvm ∨ findregion w p = 0) :
    (yfree_heap rd w p len).w = w ∧
      ((yfree_heap rd w p len).out = Fout.outside_vm ∨
        (yfree_heap rd w p len).out = Fout.unallocated) := by
  unfold yfree_heap
  rw [harena]
  by_cases h1 : p ≥ 2 ^ Maxvm
  · simp [h1]
  · have h2 : findregion w p = 0 := by
      rcases hdir with h | h
      · exact absurd h h1
      · exact h
    simp [h1, h2]

/-- C8, witness: `free((void*)0x1234)` on the fresh heap. -/
theorem C8_unknown_pointer_free_unchanged_witness :
    (yfree_heap regdir_root w_fresh 0x1234 0).w = w_fresh ∧
      ((yfree_heap regdir_root w_fresh 0x1234 0).out = Fout.outside_vm ∨
        (yfree_heap regdir_root w_fresh 0x1234 0).out = Fout.unallocated) :=
  C8_unknown_pointer_free_unchanged regdir_root w_fresh 0x1234 0 (by decide) (Or.inr (by decide))

/-! ## C9: the zero block -/

/-- C9, counterexample: the byte at offset 0 of the zero block is 0 and the byte at
offset 1 is not; `free` of the block raises the diagnostic. -/
theorem C9_counterexample :
    (malloc regdir_root w_zb1 0).1 = w_zb1.zeroblock ∧
    w_zb1.mem (w_zb1.zeroblock + 0) = 0 ∧
    (free regdir_root w_zb1 w_zb1.zeroblock).2 = [Diag.zeroblock_written] := by
  decide

/-- C9, amended: `malloc(0)` returns the address of the zero block and leaves the state
as it is; `free` of that address leaves the state as it is and raises the diagnostic
for a written zero block exactly when one of the 8 bytes of the block, a `size_t`, is
not zero: otherwise it raises none. -/
theorem C9_zeroblock_word_checked (rd : RegdirFn) (w : world) (hz : w.zeroblock ≠ 0) :
    malloc rd w 0 = (w.zeroblock, w) ∧
    (free rd w w.zeroblock).1 = w ∧
    ((free rd w w.zeroblock).2 = [Diag.zeroblock_written] ↔
      ∃ i, i < 8 ∧ w.mem (w.zeroblock + i) ≠ 0) ∧
    ((free rd w w.zeroblock).2 = [] ↔ ∀ i, i < 8 → w.mem (w.zeroblock + i) = 0) := by
  have hfree : free rd w w.zeroblock =
      (w, if rd8 w.mem w.zeroblock ≠ 0 then [Diag.zeroblock_written] else []) := by
    unfold free
    simp [hz]
  refine ⟨by simp [malloc], by rw [hfree], ?_, ?_⟩
  · rw [hfree]
    by_cases h0 : rd8 w.mem w.zeroblock = 0
    · have := (rd8_eq_zero_iff w.mem w.zeroblock).1 h0
      simp only [h0, ne_eq, not_true_eq_false, if_false]
      constructor
      · intro h; cases h
      · rintro ⟨i, hi, hne⟩
        exact absurd (this i hi) hne
    · simp only [ne_eq, h0, not_false_eq_true, if_true, true_iff]
      by_contra hcon
      apply h0
      apply (rd8_eq_zero_iff w.mem w.zeroblock).2
      intro i hi
      by_contra hne
      exact hcon ⟨i, hi, hne⟩
  · rw [hfree]
    by_cases h0 : rd8 w.mem w.zeroblock = 0
    · simp only [h0, ne_eq, not_true_eq_false, if_false, true_iff]
      exact (rd8_eq_zero_iff w.mem w.zeroblock).1 h0
    · simp only [ne_eq, h0, not_false_eq_true, if_true]
      constructor
      · intro h; cases h
      · intro h
        exact absurd ((rd8_eq_zero_iff w.mem w.zeroblock).2 h) h0

/-- C9, witness: the zero block of a new process, and the one with byte 1 written. -/
theorem C9_zeroblock_word_checked_witness :
    (malloc regdir_root w_boot 0).1 = 0x690000 ∧
    (free regdir_root w_boot w_boot.zeroblock).1 = w_boot ∧
    ((free regdir_root w_zb1 w_zb1.zeroblock).2 = [Diag.zeroblock_written] ↔
      ∃ i, i < 8 ∧ w_zb1.mem (w_zb1.zeroblock + i) ≠ 0) :=
  ⟨congrArg Prod.fst (C9_zeroblock_word_checked regdir_root w_boot (by decide)).1,
    (C9_zeroblock_word_checked regdir_root w_boot (by decide)).2.1,
    (C9_zeroblock_word_checked regdir_root w_zb1 (by decide)).2.2.1⟩

/-! ## C10: `calloc` -/

/-- C10, counterexample: for `calloc(0, 0)` the product fits and is below the limit,
yet the allocator is not asked for 0 bytes: the call returns the zero block, where
`yalloc(0, 1)` returns a block of the bump arena. -/
theorem C10_counterexample :
    0 * 0 < 2 ^ 64 ∧ 0 * 0 ≤ 2 ^ 38 ∧
    (calloc regdir_root w_boot 0 0).1 = w_boot.zeroblock ∧
    (calloc regdir_root w_boot 0 0).1 ≠ (yalloc regdir_root w_boot (0 * 0) true).1 := by
  decide

/-- C10, amended: when `count * size` does not fit in 64 bits, `calloc` returns null and
leaves the state as it is; when the product fits, is at most `2 ^ 38` and `count` and
`size` are not both 0, `calloc` is `yalloc` of exactly `count * size` bytes with
zero-fill requested; `calloc(0, 0)` returns the zero block and leaves the state as it
is. -/
theorem C10_calloc_overflow_and_size (rd : RegdirFn) (w : world) (count size : Nat) :
    (count * size ≥ 2 ^ 64 → calloc rd w count size = (0, w)) ∧
    (count * size < 2 ^ 64 → count * size ≤ 2 ^ 38 → (count ≠ 0 ∨ size ≠ 0) →
      calloc rd w count size = yalloc rd w (count * size) true) ∧
    calloc rd w 0 0 = (w.zeroblock, w) := by
  refine ⟨?_, ?_, ?_⟩
  · intro h
    have hne : ¬ (count ||| size = 0) := by
      rw [lor_eq_zero_iff]
      rintro ⟨rfl, rfl⟩
      simp at h
    unfold calloc
    rw [if_neg hne, if_pos h]
  · intro h1 h2 h3
    have hne : ¬ (count ||| size = 0) := by
      rw [lor_eq_zero_iff]
      rintro ⟨rfl, rfl⟩
      simp at h3
    have h1' : ¬ (count * size ≥ 2 ^ 64) := by omega
    have h2' : ¬ (count * size > Maxvmsiz >>> 2) := by
      have : Maxvmsiz >>> 2 = 2 ^ 38 := by decide
      rw [this]; omega
    unfold calloc
    rw [if_neg hne, if_neg h1', if_neg h2']
  · simp [calloc, malloc]

/-- C10, witness: `calloc(2^63, 2)` overflows; `calloc(3, 5)` asks for 15 bytes. -/
theorem C10_calloc_overflow_and_size_witness :
    calloc regdir_root w_boot (2 ^ 63) 2 = (0, w_boot) ∧
    calloc regdir_root w_boot 3 5 = yalloc regdir_root w_boot (3 * 5) true :=
  ⟨(C10_calloc_overflow_and_size regdir_root w_boot (2 ^ 63) 2).1 (by decide),
    (C10_calloc_overflow_and_size regdir_root w_boot 3 5).2.1 (by decide) (by decide)
      (Or.inl (by decide))⟩

/-! ### `realloc`, and the paths of `yalloc_heap` for large requests -/

theorem realloc_nil (rd : RegdirFn) (w : world) (n : Nat) : realloc rd w 0 n = malloc rd w n := by
  unfold realloc
  rw [if_pos rfl]

theorem realloc_zero (rd : RegdirFn) (w : world) (p : Nat) (hp : p ≠ 0) :
    realloc rd w p 0 = (0, (free rd w p).1) := by
  unfold realloc
  rw [if_neg hp, if_pos rfl]

theorem u64_lt (L : Nat) (h : L < 2 ^ 64) : u64 (L <<< guardbit) = L := by
  unfold u64 guardbit
  rw [Nat.shiftLeft_zero]
  exact Nat.mod_eq_of_lt h

theorem yalloc_heap_large (rd : RegdirFn) (w : world) (len : Nat) (clear : Bool)
    (h64 : len < 2 ^ 64) (h : Mmap_threshold ≤ len) :
    yalloc_heap rd w len clear = ⟨(yal_mmap rd w len).1, (yal_mmap rd w len).2, Apath.mmap⟩ := by
  unfold yalloc_heap
  simp only [u64_lt len h64]
  rw [if_pos (show len ≥ mmap_threshold from h)]

theorem yalloc_heap_mid (rd : RegdirFn) (w : world) (len : Nat) (clear : Bool)
    (h1 : Maxclasslen ≤ len) (h2 : len < Mmap_threshold) :
    yalloc_heap rd w len clear =
      ⟨(buddy_alloc rd w len clear).1, (buddy_alloc rd w len clear).2, Apath.buddy⟩ := by
  have h64 : len < 2 ^ 64 := by
    unfold Mmap_threshold at h2
    omega
  have h3 : ¬ (len < 2 ^ Minorder) := by
    unfold Maxclasslen at h1
    unfold Minorder
    omega
  unfold yalloc_heap
  simp only [u64_lt len h64]
  rw [if_neg (show ¬ (len ≥ mmap_threshold) from by unfold mmap_threshold; omega),
    if_neg (show ¬ (len < Maxclasslen) from by omega)]
  unfold yalloc_buddy
  simp only [if_neg h3]

/-! ### Frames on the class tables -/

theorem regdir_tabs (rd : RegdirFn) (w : world) (reg bas len : Nat) :
    (regdir rd w reg bas len).hb.len2tclas = w.hb.len2tclas ∧
    (regdir rd w reg bas len).hb.tclas2len = w.hb.tclas2len ∧
    (regdir rd w reg bas len).hb.tclas2clas = w.hb.tclas2clas ∧
    (regdir rd w reg bas len).hb.tclascnt = w.hb.tclascnt ∧
    (regdir rd w reg bas len).hb.clascnt = w.hb.clascnt ∧
    (regdir rd w reg bas len).hb.sizecount = w.hb.sizecount := ⟨rfl, rfl, rfl, rfl, rfl, rfl⟩

theorem delregion_tabs (rd : RegdirFn) (w : world) (reg : Nat) :
    ((delregion rd w reg).1).hb.len2tclas = w.hb.len2tclas ∧
    ((delregion rd w reg).1).hb.tclas2len = w.hb.tclas2len ∧
    ((delregion rd w reg).1).hb.tclas2clas = w.hb.tclas2clas ∧
    ((delregion rd w reg).1).hb.tclascnt = w.hb.tclascnt ∧
    ((delregion rd w reg).1).hb.clascnt = w.hb.clascnt ∧
    ((delregion rd w reg).1).hb.sizecount = w.hb.sizecount := by
  unfold delregion
  simp only []
  split_ifs <;> simp [delregion_loop_frame, delregmem_frame, regdir_tabs]

theorem slab_free_tabs (w : world) (reg ip : Nat) :
    ((slab_free w reg ip).1).hb.len2tclas = w.hb.len2tclas ∧
    ((slab_free w reg ip).1).hb.tclas2len = w.hb.tclas2len ∧
    ((slab_free w reg ip).1).hb.tclas2clas = w.hb.tclas2clas ∧
    ((slab_free w reg ip).1).hb.tclascnt = w.hb.tclascnt ∧
    ((slab_free w reg ip).1).hb.clascnt = w.hb.clascnt ∧
    ((slab_free w reg ip).1).hb.sizecount = w.hb.sizecount := by
  unfold slab_free
  simp only []
  split_ifs <;> simp

theorem buddy_free_tabs (w : world) (reg ip : Nat) :
    ((buddy_free w reg ip).1).hb.len2tclas = w.hb.len2tclas ∧
    ((buddy_free w reg ip).1).hb.tclas2len = w.hb.tclas2len ∧
    ((buddy_free w reg ip).1).hb.tclas2clas = w.hb.tclas2clas ∧
    ((buddy_free w reg ip).1).hb.tclascnt = w.hb.tclascnt ∧
    ((buddy_free w reg ip).1).hb.clascnt = w.hb.clascnt ∧
    ((buddy_free w reg ip).1).hb.sizecount = w.hb.sizecount := ⟨rfl, rfl, rfl, rfl, rfl, rfl⟩

theorem free_mmap_tabs (rd : RegdirFn) (w : world) (reg ip : Nat) :
    ((free_mmap rd w reg ip).1).hb.len2tclas = w.hb.len2tclas ∧
    ((free_mmap rd w reg ip).1).hb.tclas2len = w.hb.tclas2len ∧
    ((free_mmap rd w reg ip).1).hb.tclas2clas = w.hb.tclas2clas ∧
    ((free_mmap rd w reg ip).1).hb.tclascnt = w.hb.tclascnt ∧
    ((free_mmap rd w reg ip).1).hb.clascnt = w.hb.clascnt ∧
    ((free_mmap rd w reg ip).1).hb.sizecount = w.hb.sizecount := by
  unfold free_mmap
  simp only []
  split_ifs <;> simp [delregion_tabs]

theorem free_reg_tabs (rd : RegdirFn) (w : world) (reg ip : Nat) :
    ((free_reg rd w reg ip).1).hb.len2tclas = w.hb.len2tclas ∧
    ((free_reg rd w reg ip).1).hb.tclas2len = w.hb.tclas2len ∧
    ((free_reg rd w reg ip).1).hb.tclas2clas = w.hb.tclas2clas ∧
    ((free_reg rd w reg ip).1).hb.tclascnt = w.hb.tclascnt ∧
    ((free_reg rd w reg ip).1).hb.clascnt = w.hb.clascnt ∧
    ((free_reg rd w reg ip).1).hb.sizecount = w.hb.sizecount := by
  unfold free_reg
  split <;> simp [buddy_free_tabs, slab_free_tabs, free_mmap_tabs]

theorem trimbin_bits_tabs (rd : RegdirFn) (full : Bool) (n : Nat) (w : world) (clas e binmask : Nat) :
    ((trimbin_bits rd full n w clas e binmask).1).hb.len2tclas = w.hb.len2tclas ∧
    ((trimbin_bits rd full n w clas e binmask).1).hb.tclas2len = w.hb.tclas2len ∧
    ((trimbin_bits rd full n w clas e binmask).1).hb.tclas2clas = w.hb.tclas2clas ∧
    ((trimbin_bits rd full n w clas e binmask).1).hb.tclascnt = w.hb.tclascnt ∧
    ((trimbin_bits rd full n w clas e binmask).1).hb.clascnt = w.hb.clascnt ∧
    ((trimbin_bits rd full n w clas e binmask).1).hb.sizecount = w.hb.sizecount := by
  induction n generalizing w e binmask with
  | zero => exact ⟨rfl, rfl, rfl, rfl, rfl, rfl⟩
  | succ n ih =>
    unfold trimbin_bits
    simp only []
    split_ifs <;> simp [ih, free_reg_tabs, delregion_tabs, delheap_frame]

theorem trimbin_clas_tabs (rd : RegdirFn) (full : Bool) (n : Nat) (w : world) (clas : Nat) :
    (trimbin_clas rd full n w clas).hb.len2tclas = w.hb.len2tclas ∧
    (trimbin_clas rd full n w clas).hb.tclas2len = w.hb.tclas2len ∧
    (trimbin_clas rd full n w clas).hb.tclas2clas = w.hb.tclas2clas ∧
    (trimbin_clas rd full n w clas).hb.tclascnt = w.hb.tclascnt ∧
    (trimbin_clas rd full n w clas).hb.clascnt = w.hb.clascnt ∧
    (trimbin_clas rd full n w clas).hb.sizecount = w.hb.sizecount := by
  induction n generalizing w clas with
  | zero => exact ⟨rfl, rfl, rfl, rfl, rfl, rfl⟩
  | succ n ih =>
    unfold trimbin_clas
    simp only []
    split_ifs <;> simp [ih, trimbin_bits_tabs]

theorem trimbin_tabs (rd : RegdirFn) (w : world) (full : Bool) :
    (trimbin rd w full).hb.len2tclas = w.hb.len2tclas ∧
    (trimbin rd w full).hb.tclas2len = w.hb.tclas2len ∧
    (trimbin rd w full).hb.tclas2clas = w.hb.tclas2clas ∧
    (trimbin rd w full).hb.tclascnt = w.hb.tclascnt ∧
    (trimbin rd w full).hb.clascnt = w.hb.clascnt ∧
    (trimbin rd w full).hb.sizecount = w.hb.sizecount := trimbin_clas_tabs rd full _ w 0

theorem osmem_tabs (rd : RegdirFn) (w : world) (len : Nat) :
    ((osmem rd w len).2).hb.len2tclas = w.hb.len2tclas ∧
    ((osmem rd w len).2).hb.tclas2len = w.hb.tclas2len ∧
    ((osmem rd w len).2).hb.tclas2clas = w.hb.tclas2clas ∧
    ((osmem rd w len).2).hb.tclascnt = w.hb.tclascnt ∧
    ((osmem rd w len).2).hb.clascnt = w.hb.clascnt ∧
    ((osmem rd w len).2).hb.sizecount = w.hb.sizecount := by
  unfold osmem
  simp only []
  split_ifs <;> simp [osmmap_spec, trimbin_tabs]

theorem newregmem_tabs (rd : RegdirFn) (w : world) :
    ((newregmem rd w).2).hb.len2tclas = w.hb.len2tclas ∧
    ((newregmem rd w).2).hb.tclas2len = w.hb.tclas2len ∧
    ((newregmem rd w).2).hb.tclas2clas = w.hb.tclas2clas ∧
    ((newregmem rd w).2).hb.tclascnt = w.hb.tclascnt ∧
    ((newregmem rd w).2).hb.clascnt = w.hb.clascnt ∧
    ((newregmem rd w).2).hb.sizecount = w.hb.sizecount := by
  unfold newregmem
  simp only []
  split_ifs <;> simp [osmem_tabs]

theorem newregion_desc_tabs (rd : RegdirFn) (w : world) :
    ((newregion_desc rd w).2).hb.len2tclas = w.hb.len2tclas ∧
    ((newregion_desc rd w).2).hb.tclas2len = w.hb.tclas2len ∧
    ((newregion_desc rd w).2).hb.tclas2clas = w.hb.tclas2clas ∧
    ((newregion_desc rd w).2).hb.tclascnt = w.hb.tclascnt ∧
    ((newregion_desc rd w).2).hb.clascnt = w.hb.clascnt ∧
    ((newregion_desc rd w).2).hb.sizecount = w.hb.sizecount := by
  unfold newregion_desc
  simp only []
  split_ifs <;> simp [newregmem_tabs]

theorem newregion_fill_tabs (rd : RegdirFn) (w : world) (reg user len admlen : Nat) (typ : Rtype) :
    ((newregion_fill rd w reg user len admlen typ).2).hb.len2tclas = w.hb.len2tclas ∧
    ((newregion_fill rd w reg user len admlen typ).2).hb.tclas2len = w.hb.tclas2len ∧
    ((newregion_fill rd w reg user len admlen typ).2).hb.tclas2clas = w.hb.tclas2clas ∧
    ((newregion_fill rd w reg user len admlen typ).2).hb.tclascnt = w.hb.tclascnt ∧
    ((newregion_fill rd w reg user len admlen typ).2).hb.clascnt = w.hb.clascnt ∧
    ((newregion_fill rd w reg user len admlen typ).2).hb.sizecount = w.hb.sizecount := by
  unfold newregion_fill
  simp only []
  split_ifs <;> simp [osmem_tabs, regdir_tabs]

theorem newregion_tabs (rd : RegdirFn) (w : world) (user len admlen : Nat) (typ : Rtype) :
    ((newregion rd w user len admlen typ).2).hb.len2tclas = w.hb.len2tclas ∧
    ((newregion rd w user len admlen typ).2).hb.tclas2len = w.hb.tclas2len ∧
    ((newregion rd w user len admlen typ).2).hb.tclas2clas = w.hb.tclas2clas ∧
    ((newregion rd w user len admlen typ).2).hb.tclascnt = w.hb.tclascnt ∧
    ((newregion rd w user len admlen typ).2).hb.clascnt = w.hb.clascnt ∧
    ((newregion rd w user len admlen typ).2).hb.sizecount = w.hb.sizecount := by
  unfold newregion
  simp only []
  split_ifs <;> simp [osmem_tabs, newregion_desc_tabs, newregion_fill_tabs]

theorem buddy_alloc_tabs (rd : RegdirFn) (w : world) (slen : Nat) (clear : Bool) :
    ((buddy_alloc rd w slen clear).2).hb.len2tclas = w.hb.len2tclas ∧
    ((buddy_alloc rd w slen clear).2).hb.tclas2len = w.hb.tclas2len ∧
    ((buddy_alloc rd w slen clear).2).hb.tclas2clas = w.hb.tclas2clas ∧
    ((buddy_alloc rd w slen clear).2).hb.tclascnt = w.hb.tclascnt ∧
    ((buddy_alloc rd w slen clear).2).hb.clascnt = w.hb.clascnt ∧
    ((buddy_alloc rd w slen clear).2).hb.sizecount = w.hb.sizecount := by
  unfold buddy_alloc newbuddy
  simp only []
  split_ifs <;> simp [newregion_tabs, buddy_allocreg_spec, buddy_allocfixreg_spec]

/-- With the tables of tentative classes full, a key without a tentative class gets
none: `yalloc_clas` leaves the state alone and passes the request on. -/
theorem yalloc_clas_tclas_full (rd : RegdirFn) (w : world) (len : Nat) (clear : Bool)
    (hkey : w.hb.len2tclas (class_calen len) = hi16) (ht : w.hb.tclascnt = Maxtclass) :
    yalloc_clas rd w len clear = (w, none) := by
  have hc : clas_tclas w len = (w, hi16) := by
    unfold clas_tclas
    simp only []
    rw [if_neg (fun hh => absurd hh.2 (by rw [ht]; exact Nat.lt_irrefl _)), hkey]
  unfold yalloc_clas
  simp only [hc]
  rw [if_neg (fun hh => hh rfl)]

/-- With the table of classes full, a key whose tentative class is not committed stays
uncommitted: `yalloc_clas` leaves the state alone and passes the request on. -/
theorem yalloc_clas_clas_full (rd : RegdirFn) (w : world) (len : Nat) (clear : Bool)
    (hkey : w.hb.len2tclas (class_calen len) ≠ hi16)
    (hunc : w.hb.tclas2clas (w.hb.len2tclas (class_calen len)) = hi16)
    (hc : w.hb.clascnt = Maxclass) :
    yalloc_clas rd w len clear = (w, none) := by
  have ht : clas_tclas w len = (w, w.hb.len2tclas (class_calen len)) := by
    unfold clas_tclas
    simp only []
    rw [if_neg (fun hh => hkey hh.1)]
  have hcm : clas_commit rd w (w.hb.len2tclas (class_calen len)) (class_alen len) len clear
      = (w, none) := by
    unfold clas_commit
    simp only []
    rw [if_neg (by rw [hc]; exact Nat.lt_irrefl _)]
  unfold yalloc_clas
  simp only [ht]
  rw [if_pos hkey, if_neg (fun hh => hh hunc), hcm]

/-- A request below `Maxclasslen` that the bump arena cannot serve and that
`yalloc_clas` passes on is served by `buddy_alloc`. -/
theorem yalloc_heap_pass_on (rd : RegdirFn) (w : world) (len : Nat) (clear : Bool)
    (hL : len < Maxclasslen) (hfull : Inimem < w.hb.inipos + len + 2 * Basealign)
    (hp : yalloc_clas rd w len clear = (w, none)) :
    yalloc_heap rd w len clear =
      ⟨(buddy_alloc rd w (if len < 2 ^ Minorder then 2 ^ Minorder else len) clear).1,
       (buddy_alloc rd w (if len < 2 ^ Minorder then 2 ^ Minorder else len) clear).2,
       Apath.buddy⟩ := by
  have h1 : ¬ (len ≥ mmap_threshold) := by
    unfold mmap_threshold Mmap_threshold
    unfold Maxclasslen at hL
    omega
  unfold yalloc_heap
  simp only [u64_small len hL]
  rw [if_neg h1, if_pos hL, if_neg (by omega), hp]
  rfl

/-- The order and the length of `buddy_round` are the ones `buddy_alloc` works with: when
no region has room, `buddy_alloc` asks `newbuddy` for a region of at least that order
and returns nil when there is none; a region that is made is entered in `buddies` and in
the mask under that order. -/
theorem buddy_alloc_round (rd : RegdirFn) (w : world) (slen : Nat) (clear : Bool)
    (hm : w.hb.buddymask &&& subw 32 (buddy_round slen).2 1 = 0) :
    ((newbuddy rd w (max (newregorder w) (buddy_round slen).1)).1 = 0 →
      buddy_alloc rd w slen clear
        = (0, (newbuddy rd w (max (newregorder w) (buddy_round slen).1)).2)) ∧
    ((newbuddy rd w (max (newregorder w) (buddy_round slen).1)).1 ≠ 0 →
      (buddy_alloc rd w slen clear).2.hb.buddymask =
        (newbuddy rd w (max (newregorder w) (buddy_round slen).1)).2.hb.buddymask |||
          u32 (2 ^ (buddy_round slen).1) ∧
      (buddy_alloc rd w slen clear).2.hb.buddies (subw 32 (buddy_round slen).1 Minorder) =
        (newbuddy rd w (max (newregorder w) (buddy_round slen).1)).1) := by
  unfold buddy_round at hm ⊢
  unfold buddy_alloc
  simp only [] at hm ⊢
  by_cases hp : (u32 slen &&& (2 ^ Maxorder - 1)) &&&
      subw 32 (u32 slen &&& (2 ^ Maxorder - 1)) 1 ≠ 0
  · simp only [if_pos hp] at hm ⊢
    rw [if_pos hm]
    constructor
    · intro hr
      rw [if_pos hr]
    · intro hr
      rw [if_neg hr]
      simp [buddy_allocreg_spec, upd]
  · simp only [if_neg hp] at hm ⊢
    rw [if_pos hm]
    constructor
    · intro hr
      rw [if_pos hr]
    · intro hr
      rw [if_neg hr]
      simp [buddy_allocreg_spec, upd]

/-! ## C11: `realloc` with a null pointer or a zero length -/

/-- C11: `realloc(nil, n)` is `malloc(n)`, for every `n`; for a pointer `p` that is not
nil, `realloc(p, 0)` returns nil in the state that `free(p)` leaves. -/
theorem C11_realloc_nil_and_zero (rd : RegdirFn) (w : world) (p : Nat) (hp : p ≠ 0) :
    (∀ n, realloc rd w 0 n = malloc rd w n) ∧ realloc rd w p 0 = (0, (free rd w p).1) :=
  ⟨realloc_nil rd w, realloc_zero rd w p hp⟩

/-- C11, witness: `realloc(p, 0)` for the block `p` of `malloc(32)` after `malloc(1000)`. -/
theorem C11_realloc_nil_and_zero_witness :
    p_slab32 ≠ 0 ∧ (∀ n, realloc regdir_root w_slab32 0 n = malloc regdir_root w_slab32 n) ∧
    realloc regdir_root w_slab32 p_slab32 0 = (0, (free regdir_root w_slab32 p_slab32).1) :=
  ⟨by decide, C11_realloc_nil_and_zero regdir_root w_slab32 p_slab32 (by decide)⟩

/-! ## C12: the paths for large requests -/

/-- C12: a request of at least `Mmap_threshold` bytes (a `size_t`, below `2 ^ 64`) is
served by `yal_mmap`; a request of at least `Maxclasslen` and less than `Mmap_threshold`
bytes is served by `buddy_alloc`, called with the length of the request. -/
theorem C12_large_paths (rd : RegdirFn) (w : world) (len : Nat) (clear : Bool) :
    (Mmap_threshold ≤ len → len < 2 ^ 64 →
      yalloc_heap rd w len clear =
        ⟨(yal_mmap rd w len).1, (yal_mmap rd w len).2, Apath.mmap⟩) ∧
    (Maxclasslen ≤ len → len < Mmap_threshold →
      yalloc_heap rd w len clear =
        ⟨(buddy_alloc rd w len clear).1, (buddy_alloc rd w len clear).2, Apath.buddy⟩) :=
  ⟨fun h h64 => yalloc_heap_large rd w len clear h64 h, yalloc_heap_mid rd w len clear⟩

/-- C12, witness: `Mmap_threshold` and `Mmap_threshold - 1` bytes on the fresh heap. -/
theorem C12_large_paths_witness :
    (yalloc_heap regdir_root w_fresh Mmap_threshold false).path = Apath.mmap ∧
    (yalloc_heap regdir_root w_fresh (Mmap_threshold - 1) false).path = Apath.buddy :=
  ⟨congrArg ares.path
      ((C12_large_paths regdir_root w_fresh Mmap_threshold false).1 (by decide) (by decide)),
    congrArg ares.path
      ((C12_large_paths regdir_root w_fresh (Mmap_threshold - 1) false).2 (by decide)
        (by decide))⟩

/-! ## C13: the length of a direct mapping -/

set_option maxRecDepth 100000 in
/-- C13, the code at the failing input: for `L = 2 ^ 32 + 1`, between `Mmap_threshold`
and `2 ^ 38`, `doalign(len,Page)` is 4096, because the mask `~(Page - 1)` is formed in
32 bits. `malloc(L)` on a new process returns a pointer, the block of a direct mapping,
and the length recorded in its region is 4096, less than `L`, where the least multiple
of 4096 that is at least `L` is `2 ^ 32 + 4096`. -/
theorem C13_mmap_length_truncated :
    Mmap_threshold ≤ 2 ^ 32 + 1 ∧ 2 ^ 32 + 1 ≤ 2 ^ 38 ∧
    (2 ^ 32 + 4096) % Page = 0 ∧ 2 ^ 32 + 1 ≤ 2 ^ 32 + 4096 ∧ 2 ^ 32 + 4096 < 2 ^ 32 + 1 + Page ∧
    doalign 64 32 (2 ^ 32 + 1) Page = 4096 ∧
    (malloc regdir_spec v_boot (2 ^ 32 + 1)).1 ≠ 0 ∧
    ((malloc regdir_spec v_boot (2 ^ 32 + 1)).2.regs
      (malloc regdir_spec v_boot (2 ^ 32 + 1)).2.hb.lastreg).typ = Rtype.Rmmap ∧
    ((malloc regdir_spec v_boot (2 ^ 32 + 1)).2.regs
      (malloc regdir_spec v_boot (2 ^ 32 + 1)).2.hb.lastreg).user
      = (malloc regdir_spec v_boot (2 ^ 32 + 1)).1 ∧
    ((malloc regdir_spec v_boot (2 ^ 32 + 1)).2.regs
      (malloc regdir_spec v_boot (2 ^ 32 + 1)).2.hb.lastreg).len = 4096 := by
  decide

/-! ## C14: the request that commits a class -/

/-- C15: for a request below `Maxclasslen` that the bump arena cannot serve, when the
class key has no tentative class and `tclascnt` is `Maxtclass`, or the tentative class
of the key is not committed and `clascnt` is `Maxclass`, `yalloc_heap` returns what
`buddy_alloc` returns, called in the unchanged state with the length of the request
(at least `2 ^ Minorder`), and the tables `len2tclas`, `tclas2len`, `tclas2clas`,
`tclascnt`, `clascnt` and `sizecount` are as before. -/
theorem C15_full_tables_fall_to_buddy (rd : RegdirFn) (w : world) (len : Nat) (clear : Bool)
    (hL : len < Maxclasslen) (hfull : Inimem < w.hb.inipos + len + 2 * Basealign)
    (hsat : (w.hb.len2tclas (class_calen len) = hi16 ∧ w.hb.tclascnt = Maxtclass) ∨
      (w.hb.len2tclas (class_calen len) ≠ hi16 ∧
        w.hb.tclas2clas (w.hb.len2tclas (class_calen len)) = hi16 ∧
        w.hb.clascnt = Maxclass)) :
    yalloc_heap rd w len clear =
      ⟨(buddy_alloc rd w (if len < 2 ^ Minorder then 2 ^ Minorder else len) clear).1,
       (buddy_alloc rd w (if len < 2 ^ Minorder then 2 ^ Minorder else len) clear).2,
       Apath.buddy⟩ ∧
    (yalloc_heap rd w len clear).w.hb.len2tclas = w.hb.len2tclas ∧
    (yalloc_heap rd w len clear).w.hb.tclas2len = w.hb.tclas2len ∧
    (yalloc_heap rd w len clear).w.hb.tclas2clas = w.hb.tclas2clas ∧
    (yalloc_heap rd w len clear).w.hb.tclascnt = w.hb.tclascnt ∧
    (yalloc_heap rd w len clear).w.hb.clascnt = w.hb.clascnt ∧
    (yalloc_heap rd w len clear).w.hb.sizecount = w.hb.sizecount := by
  have hp : yalloc_clas rd w len clear = (w, none) := by
    rcases hsat with ⟨h1, h2⟩ | ⟨h1, h2, h3⟩
    · exact yalloc_clas_tclas_full rd w len clear h1 h2
    · exact yalloc_clas_clas_full rd w len clear h1 h2 h3
  have he := yalloc_heap_pass_on rd w len clear hL hfull hp
  refine ⟨he, ?_⟩
  rw [he]
  exact buddy_alloc_tabs rd w _ clear

/-- C15, witness: 32 bytes in the state `w_full` with `tclascnt` at `Maxtclass`. -/
theorem C15_full_tables_fall_to_buddy_witness :
    (yalloc_heap regdir_root w_tclas_full 32 false).path = Apath.buddy ∧
    (yalloc_heap regdir_root w_tclas_full 32 false).w.hb.tclascnt = Maxtclass :=
  ⟨congrArg ares.path
      (C15_full_tables_fall_to_buddy regdir_root w_tclas_full 32 false (by decide) (by decide)
        (Or.inl ⟨by decide, by decide⟩)).1,
    (C15_full_tables_fall_to_buddy regdir_root w_tclas_full 32 false (by decide) (by decide)
      (Or.inl ⟨by decide, by decide⟩)).2.2.2.2.1⟩

/-! ## C16: nine frees into one bin -/

set_option maxRecDepth 100000 in
/-- C16, the code at the failing input: after `malloc(1000)`, nine calls of `malloc(32)`
return nine distinct cells of the class 0, whose bin is empty; the nine cells are then
passed to `free` in order. For each of them `findregion` returns nil and `free` ends
with the diagnostic for a pointer that was not allocated. Afterwards the bitmap of the
slab still marks all nine cells as taken, its free count is as before, and the bin of
the class is empty: no cell went to the bin, none went back to the slab. -/
theorem C16_nine_frees_none_returned :
    q_cells9.length = Bin + 1 ∧ q_cells9.Nodup ∧ (∀ p ∈ q_cells9, p ≠ 0) ∧
    (v_cells9.regs (v_cells9.hb.clasreg 0)).typ = Rtype.Rslab ∧
    v_cells9.hb.binmasks 0 = 0 ∧
    rd8 v_cells9.mem (v_cells9.regs (v_cells9.hb.clasreg 0)).meta = 2 ^ 9 - 1 ∧
    (∀ p ∈ q_cells9, findregion v_cells9 p = 0) ∧
    (∀ p ∈ q_cells9, (free regdir_spec v_cells9 p).2 = [Diag.heap Fout.unallocated]) ∧
    v_freed9.hb.clasreg 0 = v_cells9.hb.clasreg 0 ∧
    rd8 v_freed9.mem (v_freed9.regs (v_freed9.hb.clasreg 0)).meta = 2 ^ 9 - 1 ∧
    (v_freed9.regs (v_freed9.hb.clasreg 0)).frecnt
      = (v_cells9.regs (v_cells9.hb.clasreg 0)).frecnt ∧
    v_freed9.hb.binmasks 0 = 0 ∧
    (∀ k, k < Bin → (v_freed9.hb.bins k).p = 0) := by
  decide

/-! ## C17: the free count of a slab -/

/-- C17, the code at the failing input: the first `malloc(32)` after `malloc(1000)` makes
a slab of 2048 cells and takes one cell on the fast path of `slab_alloc`: the bitmap
marks 1 cell as taken, 2047 as free, and `frecnt` is 2048. A `slab_free` of that cell
then leaves `frecnt` at 2049, above the count of cells. -/
theorem C17_frecnt_not_counted_down :
    w_full.hb.clasreg 0 = 0 ∧
    (w_slab32.regs (w_slab32.hb.clasreg 0)).cnt = 2048 ∧
    rd8 w_slab32.mem (w_slab32.regs (w_slab32.hb.clasreg 0)).meta = 1 ∧
    (w_slab32.regs (w_slab32.hb.clasreg 0)).frecnt = 2048 ∧
    ((slab_free w_slab32 (w_slab32.hb.clasreg 0) p_slab32).1.regs
      (w_slab32.hb.clasreg 0)).frecnt = 2049 := by
  decide

/-! ## C18: the list of free descriptors -/

set_option maxRecDepth 100000 in
/-- C18, the code at the failing input: after `malloc(1000); p = malloc(32)` the slab
region of `p` heads the ring of the class 0 and the list of free descriptors is empty.
`delregion`, called for that region, puts its descriptor at the head of the list with
the kind `Rnil`, and `clasreg[0]` still names it: the free descriptor is a class ring
head. After `q1 = malloc(2^24); q2 = malloc(2^24)`, two regions for which `newregmem`
hands out one and the same descriptor, `delregion` for the region of `q2` puts on the
list the descriptor of the region of `q1`, whose block has not been freed. -/
theorem C18_free_list_holds_live_descriptor :
    q_slab32 ≠ 0 ∧ v_slab32.hb.clasreg 0 ≠ 0 ∧ v_slab32.hb.freereg = 0 ∧
    (v_slab32.regs (v_slab32.hb.clasreg 0)).typ = Rtype.Rslab ∧
    (delregion regdir_spec v_slab32 (v_slab32.hb.clasreg 0)).1.hb.freereg
      = v_slab32.hb.clasreg 0 ∧
    ((delregion regdir_spec v_slab32 (v_slab32.hb.clasreg 0)).1.regs
      (v_slab32.hb.clasreg 0)).typ = Rtype.Rnil ∧
    (delregion regdir_spec v_slab32 (v_slab32.hb.clasreg 0)).1.hb.clasreg 0
      = v_slab32.hb.clasreg 0 ∧
    q_map1 ≠ 0 ∧ q_map2 ≠ 0 ∧ q_map2 ≠ q_map1 ∧ v_map1.hb.lastreg ≠ 0 ∧
    (v_map1.regs v_map1.hb.lastreg).user = q_map1 ∧
    v_map2.hb.lastreg = v_map1.hb.lastreg ∧
    (v_map2.regs v_map2.hb.lastreg).user = q_map2 ∧
    (delregion regdir_spec v_map2 v_map2.hb.lastreg).1.hb.freereg = v_map1.hb.lastreg ∧
    ((delregion regdir_spec v_map2 v_map2.hb.lastreg).1.regs v_map1.hb.lastreg).typ
      = Rtype.Rnil := by
  decide

/-! ## C19: the count of mappings -/

set_option maxRecDepth 100000 in
/-- C19, the code at the failing input: on a new process `global_mapcnt` is 1;
`q = malloc(2^24)` makes one region for a direct mapping and `newregion` adds 1. The
region is the only one of the heap, and `delregion`, called for it, leaves the counter
at 0, 1 below its value before the region was made: `delregmem` runs twice for the
region, once for its kind `Rmmap` and once in the loop over the free list, and takes 1
off each time. -/
theorem C19_mmap_region_counted_twice :
    v_boot.global_mapcnt = 1 ∧ q_map1 ≠ 0 ∧
    (v_map1.regs v_map1.hb.lastreg).typ = Rtype.Rmmap ∧
    (v_map1.regs v_map1.hb.lastreg).user = q_map1 ∧
    v_map1.global_mapcnt = v_boot.global_mapcnt + 1 ∧
    v_map1.hb.allocregcnt = 1 ∧ v_map1.hb.freeregcnt = 0 ∧
    (delregion regdir_spec v_map1 v_map1.hb.lastreg).2 = true ∧
    (delregion regdir_spec v_map1 v_map1.hb.lastreg).1.global_mapcnt = 0 ∧
    (delregion regdir_spec v_map1 v_map1.hb.lastreg).1.global_mapcnt + 1
      = v_boot.global_mapcnt := by
  decide

/-! ## C20: the order of a buddy block -/

/-- C20, the code at the failing input: for `L = 5000`, between `2 ^ Minorder` and
`Mmap_threshold`, the rounding at the head of `buddy_alloc` gives the order 14 and the
length 16384, where the least power of two that is at least `L` is `2 ^ 13 = 8192`; the
length is not below `2 * L`. -/
theorem C20_buddy_order_one_too_high :
    2 ^ Minorder ≤ 5000 ∧ 5000 < Mmap_threshold ∧ 5000 ≤ 2 ^ 13 ∧ 2 ^ 12 < 5000 ∧
    buddy_round 5000 = (14, 16384) ∧ 2 * 5000 ≤ (buddy_round 5000).2 := by
  decide

/-! ### Frames on the tables of tentative classes -/

theorem newslab_ttabs (rd : RegdirFn) (w : world) (cellen userlen : Nat) :
    ((newslab rd w cellen userlen).2).hb.len2tclas = w.hb.len2tclas ∧
    ((newslab rd w cellen userlen).2).hb.tclas2len = w.hb.tclas2len ∧
    ((newslab rd w cellen userlen).2).hb.tclascnt = w.hb.tclascnt := by
  unfold newslab
  simp [newregion_tabs]

theorem slab_alloc_slow_ttabs (w : world) (reg : Nat) (clear : Bool) :
    ((slab_alloc_slow w reg clear).2).hb.len2tclas = w.hb.len2tclas ∧
    ((slab_alloc_slow w reg clear).2).hb.tclas2len = w.hb.tclas2len ∧
    ((slab_alloc_slow w reg clear).2).hb.tclascnt = w.hb.tclascnt := by
  unfold slab_alloc_slow
  simp only []
  split_ifs <;> simp

theorem slab_alloc_ttabs (w : world) (reg : Nat) (clear : Bool) :
    ((slab_alloc w reg clear).2).hb.len2tclas = w.hb.len2tclas ∧
    ((slab_alloc w reg clear).2).hb.tclas2len = w.hb.tclas2len ∧
    ((slab_alloc w reg clear).2).hb.tclascnt = w.hb.tclascnt := by
  unfold slab_alloc
  simp only []
  split_ifs <;> simp [slab_alloc_slow_ttabs]

theorem clas_bin_ttabs (w : world) (clas len : Nat) (clear : Bool) :
    ((clas_bin w clas len clear).2).hb.len2tclas = w.hb.len2tclas ∧
    ((clas_bin w clas len clear).2).hb.tclas2len = w.hb.tclas2len ∧
    ((clas_bin w clas len clear).2).hb.tclascnt = w.hb.tclascnt := by
  unfold clas_bin
  simp only []
  split_ifs <;> simp

theorem clas_ring_ttabs (rd : RegdirFn) (w : world) (clas alen len : Nat) (clear : Bool) :
    ((clas_ring rd w clas alen len clear).1).hb.len2tclas = w.hb.len2tclas ∧
    ((clas_ring rd w clas alen len clear).1).hb.tclas2len = w.hb.tclas2len ∧
    ((clas_ring rd w clas alen len clear).1).hb.tclascnt = w.hb.tclascnt := by
  unfold clas_ring
  simp only []
  split_ifs <;> simp [newslab_ttabs, slab_alloc_ttabs]

theorem clas_commit_ttabs (rd : RegdirFn) (w : world) (tclas alen len : Nat) (clear : Bool) :
    ((clas_commit rd w tclas alen len clear).1).hb.len2tclas = w.hb.len2tclas ∧
    ((clas_commit rd w tclas alen len clear).1).hb.tclas2len = w.hb.tclas2len ∧
    ((clas_commit rd w tclas alen len clear).1).hb.tclascnt = w.hb.tclascnt := by
  unfold clas_commit
  simp only []
  split_ifs <;> simp [newslab_ttabs, slab_alloc_ttabs]

theorem yal_mmap_ttabs (rd : RegdirFn) (w : world) (len : Nat) :
    ((yal_mmap rd w len).2).hb.len2tclas = w.hb.len2tclas ∧
    ((yal_mmap rd w len).2).hb.tclas2len = w.hb.tclas2len ∧
    ((yal_mmap rd w len).2).hb.tclascnt = w.hb.tclascnt := by
  unfold yal_mmap
  simp only []
  split_ifs <;> simp [newregion_tabs, osmem_tabs]

theorem yalloc_clas_ttabs (rd : RegdirFn) (w : world) (len : Nat) (clear : Bool) :
    ((yalloc_clas rd w len clear).1).hb.len2tclas = (clas_tclas w len).1.hb.len2tclas ∧
    ((yalloc_clas rd w len clear).1).hb.tclas2len = (clas_tclas w len).1.hb.tclas2len ∧
    ((yalloc_clas rd w len clear).1).hb.tclascnt = (clas_tclas w len).1.hb.tclascnt := by
  unfold yalloc_clas
  simp only []
  split_ifs <;> simp [clas_bin_ttabs, clas_ring_ttabs, clas_commit_ttabs]

/-! ### The class key -/

theorem land_mask16 (x : Nat) (hx : x < 2 ^ 32) : x &&& (2 ^ 32 - 16) = x / 16 * 16 := by
  have hm : (2 ^ 32 - 16 : Nat) = (2 ^ 28 - 1) <<< 4 := by decide
  have hr : x / 16 * 16 = (x >>> 4) <<< 4 := by
    rw [Nat.shiftLeft_eq, Nat.shiftRight_eq_div_pow]
  rw [hm, hr]
  apply Nat.eq_of_testBit_eq
  intro i
  simp only [Nat.testBit_and, Nat.testBit_shiftLeft, Nat.testBit_shiftRight,
    Nat.testBit_two_pow_sub_one]
  by_cases h4 : i ≥ 4
  · have e : 4 + (i - 4) = i := by omega
    simp only [h4, decide_True, Bool.true_and, e]
    by_cases h32 : i - 4 < 28
    · simp [h32]
    · have : x.testBit i = false := by
        apply Nat.testBit_lt_two_pow
        calc x < 2 ^ 32 := hx
          _ ≤ 2 ^ i := Nat.pow_le_pow_right (by decide) (by omega)
      simp [h32, this]
  · simp [h4]

/-- For a length above 16 and below `Maxclasslen`, `alen` is the length rounded up to a
multiple of 16. -/
theorem class_alen_eq (L : Nat) (h1 : 16 < L) (h2 : L < Maxclasslen) :
    class_alen L = (L + 15) / 16 * 16 := by
  unfold Maxclasslen at h2
  have e : doalign 64 32 L 16 = (L + 15) &&& (2 ^ 32 - 16) := by
    unfold doalign subw notw
    have a1 : (1 : Nat) % 2 ^ max 64 32 = 1 := by decide
    have a2 : (L + 16) % 2 ^ max 64 32 = L + 16 := Nat.mod_eq_of_lt (by
      have : (2 : Nat) ^ max 64 32 = 2 ^ 64 := by decide
      rw [this]; omega)
    have a3 : (16 : Nat) % 2 ^ 32 = 16 := by decide
    have a4 : (1 : Nat) % 2 ^ 32 = 1 := by decide
    rw [a1, a2, a3, a4, if_pos (by omega), if_pos (by decide)]
    have a5 : (16 - 1 : Nat) % 2 ^ 32 = 15 := by decide
    rw [a5]
    rfl
  unfold class_alen
  rw [if_neg (by omega), if_neg (by omega), e, land_mask16 _ (by omega)]
  unfold u32
  apply Nat.mod_eq_of_lt
  omega

theorem class_calen_eq (L : Nat) (h1 : 16 < L) :
    class_calen L = (class_alen L >>> 4) + 16 := by
  unfold class_calen
  rw [if_neg (by omega), if_neg (by omega)]

theorem miniclas_le (L : Nat) (h : L ≤ 8) : miniclas L ≤ 8 := by
  interval_cases L <;> decide

/-- The key of a length below `Maxclasslen` is at most 272. -/
theorem class_calen_le (L : Nat) (h : L < Maxclasslen) : class_calen L ≤ 272 := by
  by_cases h8 : L ≤ 8
  · have := miniclas_le L h8
    unfold class_calen
    rw [if_pos h8]
    omega
  · by_cases h16 : L ≤ 16
    · unfold class_calen
      rw [if_neg h8, if_pos h16]
      omega
    · rw [class_calen_eq L (by omega), class_alen_eq L (by omega) h, Nat.shiftRight_eq_div_pow]
      unfold Maxclasslen at h
      omega

/-- The facts about the key of a length above 16. -/
theorem class_key_spec (L : Nat) (h1 : 16 < L) (h2 : L < Maxclasslen) :
    class_alen L % 16 = 0 ∧ L ≤ class_alen L ∧ class_alen L < L + 16 ∧
    class_calen L = (class_alen L >>> 4) + 16 ∧
    18 ≤ class_calen L ∧ class_calen L ≤ 272 := by
  have ha := class_alen_eq L h1 h2
  have hc := class_calen_eq L h1
  rw [hc, ha, Nat.shiftRight_eq_div_pow]
  unfold Maxclasslen at h2
  refine ⟨by omega, by omega, by omega, rfl, by omega, by omega⟩

theorem class_key_inj (L L1 : Nat) (h1 : 16 < L) (h2 : L < Maxclasslen) (h3 : 16 < L1)
    (h4 : L1 < Maxclasslen) : class_calen L = class_calen L1 ↔ class_alen L = class_alen L1 := by
  rw [class_calen_eq L h1, class_calen_eq L1 h3, class_alen_eq L h1 h2, class_alen_eq L1 h3 h4,
    Nat.shiftRight_eq_div_pow, Nat.shiftRight_eq_div_pow]
  constructor <;> intro h <;> omega

/-- The key of a tiny length other than 8, the index past the table `miniclas`. -/
theorem class_key_tiny (L : Nat) (h : L ≤ 16) (h8 : L ≠ 8) : class_calen L ≤ 16 := by
  have h7 : L < 8 ∨ (8 < L ∧ L ≤ 16) := by omega
  rcases h7 with h | h
  · interval_cases L <;> decide
  · unfold class_calen
    rw [if_neg (by omega), if_pos h.2]

/-! ### The tables of tentative classes -/

theorem TclasInv_congr {w w1 : world} (h1 : w1.hb.len2tclas = w.hb.len2tclas)
    (h2 : w1.hb.tclas2len = w.hb.tclas2len) (h3 : w1.hb.tclascnt = w.hb.tclascnt)
    (h : TclasInv w) : TclasInv w1 :=
  ⟨by rw [h3]; exact h.cnt, by rw [h1, h2, h3]; exact h.back, by rw [h1, h3]; exact h.below⟩

/-- The step of `yalloc_heap` that gives a key its tentative class keeps the tables
consistent. -/
theorem clas_tclas_inv (w : world) (len : Nat) (hL : len < Maxclasslen) (h : TclasInv w) :
    TclasInv (clas_tclas w len).1 := by
  have hk := class_calen_le len hL
  unfold clas_tclas
  simp only []
  split_ifs with hc
  · obtain ⟨hkey, ht⟩ := hc
    have hcnt := h.cnt
    unfold Maxtclass at ht hcnt
    have e16 : u16 (class_calen len) = class_calen len :=
      Nat.mod_eq_of_lt (by omega)
    have e1 : u16 (w.hb.tclascnt + 1) = w.hb.tclascnt + 1 :=
      Nat.mod_eq_of_lt (by omega)
    refine ⟨?_, ?_, ?_⟩
    · show u16 (w.hb.tclascnt + 1) ≤ Maxtclass
      rw [e1]
      unfold Maxtclass
      omega
    · intro t
      show t < u16 (w.hb.tclascnt + 1) →
        upd w.hb.len2tclas (class_calen len) w.hb.tclascnt
          (upd w.hb.tclas2len w.hb.tclascnt (u16 (class_calen len)) t) = t
      rw [e1, e16]
      intro htl
      by_cases ht0 : t = w.hb.tclascnt
      · subst ht0
        simp [upd]
      · have hlt : t < w.hb.tclascnt := by omega
        have hb := h.back t hlt
        have hne : w.hb.tclas2len t ≠ class_calen len := by
          intro he
          rw [he, hkey] at hb
          unfold hi16 at hb
          omega
        simp only [upd, if_neg ht0, if_neg hne]
        exact hb
    · intro k
      show upd w.hb.len2tclas (class_calen len) w.hb.tclascnt k ≠ hi16 →
        upd w.hb.len2tclas (class_calen len) w.hb.tclascnt k < u16 (w.hb.tclascnt + 1)
      rw [e1]
      by_cases hk0 : k = class_calen len
      · simp [upd, hk0]
      · simp only [upd, if_neg hk0]
        intro hne
        have := h.below k hne
        omega
  · exact h

/-- After `yalloc_heap` the tables of tentative classes are those of the state before,
or, for a request below `Maxclasslen`, those after the key got its tentative class. -/
theorem yalloc_heap_ttabs (rd : RegdirFn) (w : world) (len : Nat) (clear : Bool)
    (hl : len < 2 ^ 64) :
    ((yalloc_heap rd w len clear).w.hb.len2tclas = w.hb.len2tclas ∧
      (yalloc_heap rd w len clear).w.hb.tclas2len = w.hb.tclas2len ∧
      (yalloc_heap rd w len clear).w.hb.tclascnt = w.hb.tclascnt) ∨
    (len < Maxclasslen ∧
      (yalloc_heap rd w len clear).w.hb.len2tclas = (clas_tclas w len).1.hb.len2tclas ∧
      (yalloc_heap rd w len clear).w.hb.tclas2len = (clas_tclas w len).1.hb.tclas2len ∧
      (yalloc_heap rd w len clear).w.hb.tclascnt = (clas_tclas w len).1.hb.tclascnt) := by
  unfold yalloc_heap
  simp only [u64_lt len hl]
  split_ifs with h1 h2 h3
  · left
    exact yal_mmap_ttabs rd w len
  · left
    exact ⟨rfl, rfl, rfl⟩
  · right
    have hc := yalloc_clas_ttabs rd w len clear
    refine ⟨h2, ?_⟩
    cases hr : (yalloc_clas rd w len clear).2 with
    | some r =>
      simp only []
      exact hc
    | none =>
      simp only []
      unfold yalloc_buddy
      have hb := buddy_alloc_tabs rd (yalloc_clas rd w len clear).1
        (if len < 2 ^ Minorder then 2 ^ Minorder else len) clear
      exact ⟨by rw [hb.1, hc.1], by rw [hb.2.1, hc.2.1], by rw [hb.2.2.2.1, hc.2.2]⟩
  · left
    unfold yalloc_buddy
    have hb := buddy_alloc_tabs rd w (if len < 2 ^ Minorder then 2 ^ Minorder else len) clear
    exact ⟨hb.1, hb.2.1, hb.2.2.2.1⟩

theorem yalloc_heap_inv (rd : RegdirFn) (w : world) (len : Nat) (clear : Bool)
    (hl : len < 2 ^ 64) (h : TclasInv w) : TclasInv (yalloc_heap rd w len clear).w := by
  rcases yalloc_heap_ttabs rd w len clear hl with ⟨h1, h2, h3⟩ | ⟨hL, h1, h2, h3⟩
  · exact TclasInv_congr h1 h2 h3 h
  · exact TclasInv_congr h1 h2 h3 (clas_tclas_inv w len hL h)

theorem reach_inv (rd : RegdirFn) (w : world) (h : reach rd w) : TclasInv w := by
  induction h with
  | fresh w h0 h1 =>
    refine ⟨by rw [h0]; exact Nat.zero_le _, ?_, ?_⟩
    · intro t ht
      rw [h0] at ht
      exact absurd ht (Nat.not_lt_zero _)
    · intro k hk
      exact absurd (h1 k) hk
  | alloc w len clear _ hl ih => exact yalloc_heap_inv rd w len clear hl ih

/-- A key seen for the first time, with room in the table, gets the old `tclascnt` as its
tentative class. -/
theorem yalloc_heap_new_tclas (rd : RegdirFn) (w : world) (len : Nat) (clear : Bool)
    (hL : len < Maxclasslen) (hfull : Inimem < w.hb.inipos + len + 2 * Basealign)
    (hkey : w.hb.len2tclas (class_calen len) = hi16) (ht : w.hb.tclascnt < Maxtclass) :
    (yalloc_heap rd w len clear).w.hb.len2tclas (class_calen len) = w.hb.tclascnt ∧
    (yalloc_heap rd w len clear).w.hb.tclascnt = w.hb.tclascnt + 1 := by
  have hl : len < 2 ^ 64 := by
    unfold Maxclasslen at hL
    omega
  have htc : clas_tclas w len =
      ({ w with hb.len2tclas := upd w.hb.len2tclas (class_calen len) w.hb.tclascnt,
                hb.tclas2len := upd w.hb.tclas2len w.hb.tclascnt (u16 (class_calen len)),
                hb.tclascnt := u16 (w.hb.tclascnt + 1) }, w.hb.tclascnt) := by
    unfold clas_tclas
    simp only []
    rw [if_pos ⟨hkey, ht⟩]
  have e1 : u16 (w.hb.tclascnt + 1) = w.hb.tclascnt + 1 := by
    unfold Maxtclass at ht
    exact Nat.mod_eq_of_lt (by omega)
  have h1 : ¬ (len ≥ mmap_threshold) := by
    unfold mmap_threshold Mmap_threshold
    unfold Maxclasslen at hL
    omega
  have hc := yalloc_clas_ttabs rd w len clear
  rw [htc] at hc
  have key : (yalloc_heap rd w len clear).w.hb.len2tclas = (yalloc_clas rd w len clear).1.hb.len2tclas ∧
      (yalloc_heap rd w len clear).w.hb.tclascnt = (yalloc_clas rd w len clear).1.hb.tclascnt := by
    unfold yalloc_heap
    simp only [u64_small len hL]
    rw [if_neg h1, if_pos hL, if_neg (by omega)]
    cases hr : (yalloc_clas rd w len clear).2 with
    | some r => exact ⟨rfl, rfl⟩
    | none =>
      simp only []
      unfold yalloc_buddy
      have hb := buddy_alloc_tabs rd (yalloc_clas rd w len clear).1
        (if len < 2 ^ Minorder then 2 ^ Minorder else len) clear
      exact ⟨hb.1, hb.2.2.2.1⟩
  rw [key.1, key.2, hc.1, hc.2.2]
  exact ⟨by simp [upd], e1⟩

/-- The tables of a heap that `newheap` returns are empty. -/
theorem newheap_fresh (w : world) (d : Nat) (hne : (newheap w d).1 ≠ 0) :
    (newheap w d).2.hb.tclascnt = 0 ∧ ∀ k, (newheap w d).2.hb.len2tclas k = hi16 := by
  unfold newheap at hne ⊢
  simp only [] at hne ⊢
  split_ifs at hne ⊢
  · exact absurd rfl hne
  · exact ⟨rfl, fun _ => rfl⟩

/-! ### The loop of `mini_vsnprintf` -/

theorem u32_small (x : Nat) (h : x < 2 ^ 32) : u32 x = x := by
  unfold u32
  exact Nat.mod_eq_of_lt h

theorem wr_list_append (l1 l2 : List Nat) : ∀ (d : Nat → Nat) (a : Nat),
    wr_list d a (l1 ++ l2) = wr_list (wr_list d a l1) (a + l1.length) l2 := by
  induction l1 with
  | nil => intro d a; simp [wr_list]
  | cons b r ih =>
    intro d a
    show wr_list (upd d a b) (a + 1) (r ++ l2) =
      wr_list (wr_list (upd d a b) (a + 1) r) (a + (r.length + 1)) l2
    rw [ih, show a + 1 + r.length = a + (r.length + 1) by omega]

theorem wr_list_get (l : List Nat) : ∀ (d : Nat → Nat) (a j : Nat),
    wr_list d a l j = if a ≤ j ∧ j < a + l.length then l.getD (j - a) 0 else d j := by
  induction l with
  | nil =>
    intro d a j
    rw [if_neg (by simp)]
    rfl
  | cons b r ih =>
    intro d a j
    simp only [wr_list, List.length_cons]
    rw [ih]
    by_cases h1 : a + 1 ≤ j
    · by_cases h2 : j < a + 1 + r.length
      · have e : j - a = (j - (a + 1)) + 1 := by omega
        rw [if_pos ⟨h1, h2⟩, if_pos ⟨by omega, by omega⟩, e]
        simp
      · rw [if_neg (fun h => h2 h.2), if_neg (fun h => h2 (by omega))]
        simp [upd]
        intro h; omega
    · rw [if_neg (fun h => h1 h.1)]
      by_cases h3 : j = a
      · subst h3
        simp [upd]
      · rw [if_neg (fun h => h3 (by omega))]
        simp [upd, h3]

theorem vsn_loop_succ (fmt : List Nat) (pos dlen fuel : Nat) (s : pst) :
    vsn_loop fmt pos dlen (fuel + 1) s =
      if u32 (pos + s.n + 2) < dlen then
        if fget fmt s.pi = 37 then
          match conv fmt pos dlen { s with pi := s.pi + 1 } with
          | none => none
          | some r =>
            if r.2 = Fmteof then some (r.1.n, upd r.1.dst (pos + r.1.n) 0)
            else vsn_loop fmt pos dlen fuel r.1
        else if fget fmt s.pi = 0 then some (s.n, upd s.dst (pos + s.n) 0)
        else
          vsn_loop fmt pos dlen fuel
            { s with dst := upd s.dst (pos + s.n) (fget fmt s.pi), n := u32 (s.n + 1),
                     pi := s.pi + 1 }
      else some (s.n, upd s.dst (pos + s.n) 0) := rfl

/-- A run of literal bytes of the format is copied to the buffer, where the buffer has
room for them. -/
theorem vsn_loop_lit (fmt : List Nat) (pos dlen : Nat) (ap : List Arg) (u4 : Nat)
    (hd : dlen < 2 ^ 32) (lit : List Nat) :
    ∀ (fuel : Nat) (d : Nat → Nat) (n pi : Nat),
      (∀ b, b ∈ lit → b ≠ 0 ∧ b ≠ 37) →
      (∀ i, i < lit.length → fget fmt (pi + i) = lit.getD i 0) →
      pos + n + lit.length + 2 ≤ dlen →
      vsn_loop fmt pos dlen (fuel + lit.length) ⟨d, n, pi, ap, u4⟩ =
        vsn_loop fmt pos dlen fuel
          ⟨wr_list d (pos + n) lit, n + lit.length, pi + lit.length, ap, u4⟩ := by
  induction lit with
  | nil => intro fuel d n pi _ _ _; simp [wr_list]
  | cons b r ih =>
    intro fuel d n pi hb hf hfit
    simp only [List.length_cons] at hfit ⊢
    have h0 := hf 0 (by simp)
    simp only [Nat.add_zero, List.getD_cons_zero] at h0
    have hb0 := hb b (by simp)
    have e : fuel + (r.length + 1) = (fuel + r.length) + 1 := by omega
    rw [e, vsn_loop_succ]
    simp only []
    have hc : u32 (pos + n + 2) < dlen := by
      rw [u32_small _ (by omega)]; omega
    rw [if_pos hc, h0, if_neg hb0.2, if_neg hb0.1, u32_small (n + 1) (by omega)]
    rw [ih fuel (upd d (pos + n) b) (n + 1) (pi + 1) (fun x hx => hb x (by simp [hx]))
      (fun i hi => by
        have := hf (i + 1) (by simp; omega)
        simp only [List.getD_cons_succ] at this
        rw [← this]; congr 1; omega)
      (by omega)]
    simp only [wr_list]
    have e1 : pos + (n + 1) = pos + n + 1 := by omega
    have e2 : n + 1 + r.length = n + (r.length + 1) := by omega
    have e3 : pi + 1 + r.length = pi + (r.length + 1) := by omega
    rw [e1, e2, e3]

/-- The copy loop of `%s` writes the whole string where the precision allows it. -/
theorem str_copy_all (pos : Nat) (ap : List Arg) (u4 pi : Nat) (str : List Nat) :
    ∀ (prec : Nat) (d : Nat → Nat) (n : Nat),
      (∀ b, b ∈ str → b ≠ 0) → str.length ≤ prec → n + str.length < 2 ^ 32 →
      str_copy pos str prec ⟨d, n, pi, ap, u4⟩ =
        ⟨wr_list d (pos + n) str, n + str.length, pi, ap, u4⟩ := by
  induction str with
  | nil => intro prec d n _ _ _; simp [str_copy, wr_list]
  | cons b r ih =>
    intro prec d n hb hp hn
    simp only [List.length_cons] at hp hn ⊢
    have hb0 := hb b (by simp)
    unfold str_copy
    rw [if_pos ⟨by omega, hb0⟩]
    simp only [putc]
    rw [u32_small (n + 1) (by omega),
      ih (prec - 1) (upd d (pos + n) b) (n + 1) (fun x hx => hb x (by simp [hx])) (by omega)
        (by omega)]
    simp only [wr_list]
    have e1 : pos + (n + 1) = pos + n + 1 := by omega
    have e2 : n + 1 + r.length = n + (r.length + 1) := by omega
    rw [e1, e2]

theorem spec_step_s (fmt : List Nat) (pos dlen : Nat) (s : pst) (q : cspec) :
    spec_step fmt pos dlen s q 115 Fmts =
      some (s, { q with prec := min q.prec (subw 32 (subw 32 dlen pos) s.n), cnv := Cnv.Cnvs }) :=
  rfl

theorem conv_s0 (fmt : List Nat) (pos dlen : Nat) (d : Nat → Nat) (n pi u4 : Nat)
    (str : List Nat) (rest : List Arg) (hf : fget fmt pi = 115) :
    conv fmt pos dlen ⟨d, n, pi, Arg.strp (some str) :: rest, u4⟩ =
      some (str_copy pos str (min hi32 (subw 32 (subw 32 dlen pos) n))
        ⟨d, n, pi + 1, rest, u4⟩, Fmts) := by
  unfold conv
  have e : fmt.length + 2 = (fmt.length + 1) + 1 := rfl
  rw [e]
  unfold spec_loop
  simp only [hf]
  have e2 : (if 115 < 128 then fmtmap 115 else Fmtinv) = Fmts := rfl
  rw [e2, spec_step_s]
  simp [Fmts, Fmtc, spec_mods, spec_args, spec_print, print_s, spec_emit, hi16]

/-- The conversion `%s` with no flag, width or precision copies the string argument. -/
theorem conv_s (fmt : List Nat) (pos dlen : Nat) (d : Nat → Nat) (n pi u4 : Nat)
    (str : List Nat) (rest : List Arg)
    (hf : fget fmt pi = 115) (hs : ∀ b, b ∈ str → b ≠ 0) (hd : dlen < 2 ^ 32)
    (hfit : pos + n + str.length ≤ dlen) :
    conv fmt pos dlen ⟨d, n, pi, Arg.strp (some str) :: rest, u4⟩ =
      some (⟨wr_list d (pos + n) str, n + str.length, pi + 1, rest, u4⟩, Fmts) := by
  have hprec : str.length ≤ min hi32 (subw 32 (subw 32 dlen pos) n) := by
    have h1 : subw 32 dlen pos = dlen - pos := by
      unfold subw
      rw [Nat.mod_eq_of_lt (show pos < 2 ^ 32 by omega), Nat.mod_eq_of_lt hd, if_pos (by omega)]
    have h2 : subw 32 (dlen - pos) n = dlen - pos - n := by
      unfold subw
      rw [Nat.mod_eq_of_lt (show n < 2 ^ 32 by omega),
        Nat.mod_eq_of_lt (show dlen - pos < 2 ^ 32 by omega), if_pos (by omega)]
    rw [h1, h2]
    have : hi32 = 2 ^ 32 - 1 := by decide
    omega
  rw [conv_s0 fmt pos dlen d n pi u4 str rest hf,
    str_copy_all pos rest u4 (pi + 1) str _ d n hs hprec (by omega)]

theorem fget_append_left (a b : List Nat) (i : Nat) (h : i < a.length) :
    fget (a ++ b) i = a.getD i 0 := by
  unfold fget
  exact List.getD_append a b 0 i h

theorem fget_append_right (a b : List Nat) (i : Nat) :
    fget (a ++ b) (a.length + i) = fget b i := by
  unfold fget
  rw [List.getD_append_right a b 0 (a.length + i) (by omega)]
  congr 1
  omega

theorem fget_end (a : List Nat) : fget a a.length = 0 := by
  unfold fget
  simp

/-- The loop of `mini_vsnprintf` stops at the null of the format. -/
theorem vsn_loop_end (fmt : List Nat) (pos dlen fuel : Nat) (s : pst)
    (h : fget fmt s.pi = 0) :
    vsn_loop fmt pos dlen (fuel + 1) s = some (s.n, upd s.dst (pos + s.n) 0) := by
  rw [vsn_loop_succ, h]
  simp

/-- The format `pre%ssuf` with a string argument, where `pre` and `suf` hold no `%`:
`mini_vsnprintf` returns the length of the text and writes the text and a null. -/
theorem vsnprintf_s (dst : Nat → Nat) (pos dlen : Nat) (pre s suf : List Nat)
    (hpre : ∀ b, b ∈ pre → b ≠ 0 ∧ b ≠ 37) (hs : ∀ b, b ∈ s → b ≠ 0)
    (hsuf : ∀ b, b ∈ suf → b ≠ 0 ∧ b ≠ 37) (hd : dlen < 2 ^ 32)
    (hfit : pos + (pre ++ s ++ suf).length + 2 ≤ dlen) :
    mini_vsnprintf dst pos dlen (pre ++ [37, 115] ++ suf) [Arg.strp (some s)] =
      some ((pre ++ s ++ suf).length,
        upd (wr_list (upd dst pos 0) pos (pre ++ s ++ suf))
          (pos + (pre ++ s ++ suf).length) 0) := by
  simp only [List.length_append] at hfit
  unfold mini_vsnprintf
  have e : (pre ++ [37, 115] ++ suf).length + 2 = (suf.length + 3 + 1) + pre.length := by
    simp only [List.length_append, List.length_cons, List.length_nil]; omega
  rw [e, vsn_loop_lit _ pos dlen _ 0 hd pre _ _ 0 0 hpre
    (fun i hi => by
      rw [Nat.zero_add, List.append_assoc, fget_append_left _ _ _ hi])
    (by omega)]
  simp only [Nat.zero_add, Nat.add_zero]
  by_cases hlt : pos + pre.length + 2 < dlen
  · rw [vsn_loop_succ]
    simp only []
    have h37 : fget (pre ++ [37, 115] ++ suf) pre.length = 37 := by
      have := fget_append_right pre ([37, 115] ++ suf) 0
      rw [Nat.add_zero] at this
      rw [List.append_assoc, this]; rfl
    have h115 : fget (pre ++ [37, 115] ++ suf) (pre.length + 1) = 115 := by
      rw [List.append_assoc, fget_append_right]; rfl
    rw [if_pos (by rw [u32_small _ (by omega)]; exact hlt), if_pos h37,
      conv_s _ pos dlen _ pre.length (pre.length + 1) 0 s [] h115 hs hd (by omega)]
    simp only []
    rw [if_neg (by decide)]
    have e2 : suf.length + 3 = 3 + suf.length := by omega
    rw [e2, vsn_loop_lit _ pos dlen _ 0 hd suf _ _ _ _ hsuf
      (fun i hi => by
        have : pre.length + 1 + 1 + i = (pre ++ [37, 115]).length + i := by
          simp only [List.length_append, List.length_cons, List.length_nil]
        rw [this, fget_append_right]
        rfl)
      (by omega)]
    rw [vsn_loop_end _ _ _ 2 _ (by
      show fget (pre ++ [37, 115] ++ suf) (pre.length + 1 + 1 + suf.length) = 0
      have := fget_end (pre ++ [37, 115] ++ suf)
      simp only [List.length_append, List.length_cons, List.length_nil] at this
      rw [← this])]
    simp only []
    rw [wr_list_append, wr_list_append]
    simp only [List.length_append, Nat.add_assoc]
  · have hs0 : s = [] := List.eq_nil_of_length_eq_zero (by omega)
    have hsuf0 : suf = [] := List.eq_nil_of_length_eq_zero (by omega)
    subst hs0 hsuf0
    rw [vsn_loop_succ]
    simp only []
    rw [if_neg (by rw [u32_small _ (by omega)]; exact hlt)]
    simp

/-! ## C21: the last block of a buddy region -/

/-- C21, the code for every call: `buddy_free` or-s the number of the order into a copy
of `reg->smask` when the summary of the order has reached its maximum, compares the
copy with `hi32`, and stores no descriptor field. For a region whose `smask` is 0, the
value of a new descriptor (no statement of the sources assigns `smask`), and a block
whose order byte holds a byte, `buddy_free` returns false and leaves every descriptor
as it was, whatever the summaries are after the call. -/
theorem C21_sole_buddy_block_not_released (w : world) (reg ip : Nat)
    (hs : (w.regs reg).smask = 0)
    (hb : rd1 w.mem ((w.regs reg).meta + 8 * subw 32 (w.regs reg).order (w.regs reg).minorder
      + (u32 (subw 64 ip (w.regs reg).user) >>> (w.regs reg).minorder)) < 256) :
    (buddy_free w reg ip).2 = false ∧ (buddy_free w reg ip).1.regs = w.regs := by
  unfold buddy_free
  simp only [hs]
  refine ⟨?_, trivial⟩
  simp only [decide_eq_false_iff_not]
  split_ifs
  · rw [Nat.zero_or]
    unfold hi32
    omega
  · decide

set_option maxRecDepth 100000 in
/-- C21, witness: the region `w_bud`, whose only block, of the order 5, is allocated.
After `buddy_free` of the block the summaries of both orders are at their maximum,
`2 ^ (5 - 5)` and `2 ^ (5 - 4)`: the region is all free, and the result is false. -/
theorem C21_sole_buddy_block_not_released_witness :
    (w_bud.regs 0x610000).typ = Rtype.Rbuddy ∧
    rd1 w_bud.mem (0x30000000 + 8 * 1 + 0) = 5 ∧
    rd4 w_bud.mem (0x30000000 + 4 * 5) = 0 ∧
    rd4 (buddy_free w_bud 0x610000 0x20000000).1.mem (0x30000000 + 4 * 5) = 2 ^ (5 - 5) ∧
    rd4 (buddy_free w_bud 0x610000 0x20000000).1.mem (0x30000000 + 4 * 4) = 2 ^ (5 - 4) ∧
    (buddy_free w_bud 0x610000 0x20000000).2 = false ∧
    (buddy_free w_bud 0x610000 0x20000000).1.regs = w_bud.regs :=
  ⟨by decide, by decide, by decide, by decide, by decide,
    C21_sole_buddy_block_not_released w_bud 0x610000 0x20000000 (by decide) (by decide)⟩

/-! ## C22: `realloc` of a buddy block -/

/-- C22, the code for every call: `buddy_realloc` returns the pointer it was given and
leaves the state as it is, for every new length: no block is allocated, nothing is
copied and the old block is not freed. For the block of the order 5, 32 bytes, of the
region `w_bud` and the new length 100000, which does not fit, the result is the block
itself. -/
theorem C22_buddy_realloc_returns_same_block (w : world) (reg p newlen : Nat) :
    buddy_realloc w reg p newlen = (p, w) ∧
    (w_bud.regs 0x610000).typ = Rtype.Rbuddy ∧ (w_bud.regs 0x610000).user = 0x20000000 ∧
    rd1 w_bud.mem (0x30000000 + 8 * 1 + 0) = 5 ∧ 2 ^ 5 < 100000 ∧
    (buddy_realloc w_bud 0x610000 0x20000000 100000).1 = 0x20000000 :=
  ⟨rfl, by decide, by decide, by decide, by decide, rfl⟩

/-! ## C23: the order of a new region -/

/-- C23, the code at the failing input: with 4 live mappings `newregorder` returns the
order 31, with 5 live mappings the order 16. It takes the index into `mapshifts` from
the trailing zero bits of the count, and the table holds 31 values for its 32 places. -/
theorem C23_newregorder_not_monotone :
    1 ≤ 4 ∧ 4 ≤ 5 ∧ 5 ≤ INT_MAX ∧
    newregorder { w_boot with global_mapcnt := 4 } = 31 ∧
    newregorder { w_boot with global_mapcnt := 5 } = 16 ∧
    mapshifts_tab.length = 31 ∧ ctz 4 = 2 ∧ ctz 5 = 0 := by
  decide

/-! ## C24: the OS has no memory -/

set_option maxRecDepth 100000 in
/-- C24, the code at the failing input: the heap of `w_noos` exists, its bump arena is
full, and every request to the OS fails. `yalloc_heap` returns null for 32 bytes, which
needs a new slab region, yet `newslab` has stored the cell length 32 and the cell count
2048 in the descriptor at the address 0, the result of the failed `newregion`. For 5000
bytes (a new buddy region) and `2 ^ 24` bytes (a new mapping) it returns null and leaves
that descriptor alone. -/
theorem C24_newslab_writes_through_nil :
    w_noos.os = [] ∧ w_noos.thread_heap ≠ 0 ∧
    (yalloc_heap regdir_root w_noos 32 false).p = 0 ∧
    (w_noos.regs 0).cellen = 0 ∧ (w_noos.regs 0).frecnt = 0 ∧
    ((yalloc_heap regdir_root w_noos 32 false).w.regs 0).cellen = 32 ∧
    ((yalloc_heap regdir_root w_noos 32 false).w.regs 0).frecnt = 2048 ∧
    (yalloc_heap regdir_root w_noos 5000 false).p = 0 ∧
    (yalloc_heap regdir_root w_noos 5000 false).w.regs 0 = w_noos.regs 0 ∧
    (yalloc_heap regdir_root w_noos (2 ^ 24) false).p = 0 ∧
    (yalloc_heap regdir_root w_noos (2 ^ 24) false).w.regs 0 = w_noos.regs 0 := by
  decide

/-! ## C25: the count of heap deletions -/

set_option maxRecDepth 100000 in
/-- C25, the code at the failing input: a thread whose heap came from the OS has the
delete count 0 after `malloc(24)`. `delheap(hb, 1)` deletes the heap and leaves the
count 1 in `thread_heap`; the next `malloc(24)` creates the heap again with
`delcnt = 1`; the `getheap` of the `malloc(24)` after that finds the live heap and sets
its `delcnt` to 0. -/
theorem C25_getheap_resets_delcnt :
    v_heap2.thread_heap ≠ 0 ∧ v_heap2.hb.iniheap = false ∧ v_heap2.hb.delcnt = 0 ∧
    v_deleted.thread_heap = (((0 + 1) % 2 ^ 24) <<< 1) ||| 1 ∧
    v_recreated.thread_heap ≠ 0 ∧ v_recreated.thread_heap &&& 1 = 0 ∧
    v_recreated.hb.delcnt = (0 + 1) % 2 ^ 24 ∧
    (getheap v_recreated).1 = v_recreated.thread_heap ∧
    (getheap v_recreated).2.hb.delcnt = 0 ∧
    (malloc regdir_spec v_recreated 24).2.hb.delcnt = 0 := by
  decide

/-! ## C26: the bytes that `mini_vsnprintf` writes -/

/-- C26, the code at the failing input: for the buffer length 3, the offset 0 and the
format `"%q"`, `mini_vsnprintf` returns 3; it writes `%q!` to the indices 0 to 2 and the
null to the index 3, which is outside the buffer; before the call the byte there
was 32. -/
theorem C26_null_written_past_buffer :
    0 + 2 < 3 ∧
    (mini_vsnprintf (fun _ => 32) 0 3 [37, 113] []).map
      (fun r => (r.1, r.2 0, r.2 1, r.2 2, r.2 3)) = some (3, 37, 113, 33, 0) := by
  decide

/-! ## C27: the conversion `%d` -/

/-- C27, the code at the failing input: for the format `"%d"` and the argument -5 (the
word `2 ^ 32 - 5`), `mini_vsnprintf` returns 1 and writes the byte 251 and the null,
where `-5` is the bytes 45, 53: `%d` is converted as `%c`. For the argument 65 it writes
`A`. -/
theorem C27_percent_d_writes_one_byte :
    (mini_vsnprintf (fun _ => 32) 0 64 [37, 100] [Arg.int (2 ^ 32 - 5)]).map
      (fun r => (r.1, r.2 0, r.2 1)) = some (1, 251, 0) ∧
    (251, 0) ≠ (45, 53) ∧
    (mini_vsnprintf (fun _ => 32) 0 64 [37, 100] [Arg.int 65]).map
      (fun r => (r.1, r.2 0, r.2 1)) = some (1, 65, 0) := by
  decide

/-! ## C28: the conversion `%s` between literal text -/

/-- C28: for a prefix and a suffix without `%` and a string `s` (lists of bytes that are
not null), a buffer of `dlen` bytes (an `unsigned int`) and an offset `pos`, where the
text `prefix ++ s ++ suffix` of `T` bytes is within what the function may write, one
byte less than the buffer with the null counted (`pos + T + 2 ≤ dlen`), `mini_vsnprintf`
with the format `prefix ++ "%s" ++ suffix` and the argument `s` returns `T`; the buffer
holds the text at the indices `pos` to `pos + T - 1` and the null at `pos + T`, and every
other byte is as before. -/
theorem C28_string_between_literals (dst : Nat → Nat) (pos dlen : Nat) (pre s suf : List Nat)
    (hpre : ∀ b, b ∈ pre → b ≠ 0 ∧ b ≠ 37) (hs : ∀ b, b ∈ s → b ≠ 0)
    (hsuf : ∀ b, b ∈ suf → b ≠ 0 ∧ b ≠ 37) (hd : dlen < 2 ^ 32)
    (hfit : pos + (pre ++ s ++ suf).length + 2 ≤ dlen) :
    ∃ out, mini_vsnprintf dst pos dlen (pre ++ [37, 115] ++ suf) [Arg.strp (some s)]
        = some ((pre ++ s ++ suf).length, out) ∧
      (∀ i, i < (pre ++ s ++ suf).length → out (pos + i) = (pre ++ s ++ suf).getD i 0) ∧
      out (pos + (pre ++ s ++ suf).length) = 0 ∧
      (∀ j, j < pos ∨ pos + (pre ++ s ++ suf).length < j → out j = dst j) := by
  refine ⟨_, vsnprintf_s dst pos dlen pre s suf hpre hs hsuf hd hfit, ?_, ?_, ?_⟩
  · intro i hi
    unfold upd
    rw [if_neg (by omega), wr_list_get, if_pos ⟨by omega, by omega⟩, Nat.add_sub_cancel_left]
  · unfold upd
    rw [if_pos rfl]
  · intro j hj
    have h1 : j ≠ pos + (pre ++ s ++ suf).length := by omega
    have h2 : ¬ (pos ≤ j ∧ j < pos + (pre ++ s ++ suf).length) := by omega
    have h3 : j ≠ pos := by omega
    unfold upd
    rw [if_neg h1, wr_list_get, if_neg h2, if_neg h3]

/-- C28, witness: the test of `printf.c`, the format `"abc '%s' def"` with the argument
`"ghi"` in a buffer of 1024 bytes; the return value is 13. -/
theorem C28_string_between_literals_witness :
    ∃ out, mini_vsnprintf (fun _ => 32) 0 1024
          ([97, 98, 99, 32, 39] ++ [37, 115] ++ [39, 32, 100, 101, 102])
          [Arg.strp (some [103, 104, 105])]
        = some (([97, 98, 99, 32, 39] ++ [103, 104, 105] ++ [39, 32, 100, 101, 102]).length, out) ∧
      (∀ i, i < ([97, 98, 99, 32, 39] ++ [103, 104, 105] ++ [39, 32, 100, 101, 102]).length →
        out (0 + i)
          = ([97, 98, 99, 32, 39] ++ [103, 104, 105] ++ [39, 32, 100, 101, 102]).getD i 0) ∧
      out (0 + ([97, 98, 99, 32, 39] ++ [103, 104, 105] ++ [39, 32, 100, 101, 102]).length) = 0 ∧
      (∀ j, j < 0 ∨
          0 + ([97, 98, 99, 32, 39] ++ [103, 104, 105] ++ [39, 32, 100, 101, 102]).length < j →
        out j = (fun _ => 32) j) :=
  C28_string_between_literals (fun _ => 32) 0 1024 [97, 98, 99, 32, 39] [103, 104, 105]
    [39, 32, 100, 101, 102] (by decide) (by decide) (by decide) (by decide) (by decide)

/-! ## C29: the key of a size class -/

/-- C29: for a length `L` with `16 < L < Maxclasslen`, `class_alen L` is the least
multiple of 16 that is at least `L`, and the key `class_calen L` is
`(class_alen L >> 4) + 16`; the key is in `[18, 272]` and below `Maxclasslen`, the
number of entries of `len2tclas`; another such length `L1` has the same key exactly when
it has the same rounded length; and a length `L2 ≤ 16` other than 8, for which the code
reads past the table `miniclas`, has a key of at most 16, which differs from the key of
`L`. -/
theorem C29_class_key (L L1 L2 : Nat) (h1 : 16 < L) (h2 : L < Maxclasslen) (h3 : 16 < L1)
    (h4 : L1 < Maxclasslen) (h5 : L2 ≤ 16) (h6 : L2 ≠ 8) :
    class_alen L % 16 = 0 ∧ L ≤ class_alen L ∧
    (∀ m, m % 16 = 0 → L ≤ m → class_alen L ≤ m) ∧
    class_calen L = (class_alen L >>> 4) + 16 ∧
    18 ≤ class_calen L ∧ class_calen L ≤ 272 ∧ class_calen L < Maxclasslen ∧
    (class_calen L = class_calen L1 ↔ class_alen L = class_alen L1) ∧
    class_calen L2 ≤ 16 ∧ class_calen L ≠ class_calen L2 := by
  obtain ⟨a1, a2, a3, a4, a5, a6⟩ := class_key_spec L h1 h2
  have t := class_key_tiny L2 h5 h6
  refine ⟨a1, a2, ?_, a4, a5, a6, ?_, class_key_inj L L1 h1 h2 h3 h4, t, ?_⟩
  · intro m hm hL
    omega
  · unfold Maxclasslen
    omega
  · omega

/-- C29, witness: the lengths 17 and 32 share the rounded length 32 and the key 18; the
length 16 has the key 16. -/
theorem C29_class_key_witness :
    class_alen 17 % 16 = 0 ∧ 17 ≤ class_alen 17 ∧
    (∀ m, m % 16 = 0 → 17 ≤ m → class_alen 17 ≤ m) ∧
    class_calen 17 = (class_alen 17 >>> 4) + 16 ∧
    18 ≤ class_calen 17 ∧ class_calen 17 ≤ 272 ∧ class_calen 17 < Maxclasslen ∧
    (class_calen 17 = class_calen 32 ↔ class_alen 17 = class_alen 32) ∧
    class_calen 16 ≤ 16 ∧ class_calen 17 ≠ class_calen 16 :=
  C29_class_key 17 32 16 (by decide) (by decide) (by decide) (by decide) (by decide)
    (by decide)

/-! ## C30: the tables of tentative classes -/

/-- C30: in every state `w` reached from a heap with empty tables of tentative classes
(as `newheap` leaves them) through calls of `yalloc_heap`, `tclascnt ≤ Maxtclass`, every
`t < tclascnt` has `len2tclas[tclas2len[t]] = t`, and every key with a tentative class
(an entry other than `hi16`) has `len2tclas[k] < tclascnt`; and a call of `yalloc_heap`
in `w` for a length below `Maxclasslen` that the bump arena cannot serve, with a key not
seen before and `tclascnt < Maxtclass`, gives the key the index `tclascnt` and raises
`tclascnt` by one. -/
theorem C30_tentative_class_tables (rd : RegdirFn) (w : world) (h : reach rd w) :
    w.hb.tclascnt ≤ Maxtclass ∧
    (∀ t, t < w.hb.tclascnt → w.hb.len2tclas (w.hb.tclas2len t) = t) ∧
    (∀ k, w.hb.len2tclas k ≠ hi16 → w.hb.len2tclas k < w.hb.tclascnt) ∧
    (∀ len clear, len < Maxclasslen → Inimem < w.hb.inipos + len + 2 * Basealign →
      w.hb.len2tclas (class_calen len) = hi16 → w.hb.tclascnt < Maxtclass →
      (yalloc_heap rd w len clear).w.hb.len2tclas (class_calen len) = w.hb.tclascnt ∧
      (yalloc_heap rd w len clear).w.hb.tclascnt = w.hb.tclascnt + 1) ∧
    (∀ w0 d, (newheap w0 d).1 ≠ 0 →
      (newheap w0 d).2.hb.tclascnt = 0 ∧ ∀ k, (newheap w0 d).2.hb.len2tclas k = hi16) := by
  have i := reach_inv rd w h
  exact ⟨i.cnt, i.back, i.below,
    fun len clear hL hfull hkey ht => yalloc_heap_new_tclas rd w len clear hL hfull hkey ht,
    fun w0 d hne => newheap_fresh w0 d hne⟩

theorem reach_w_key32 : reach regdir_root w_key32 :=
  reach.alloc w_full 32 false (reach.fresh w_full (by decide) (fun _ => rfl)) (by decide)

/-- C30, witness: the state after `malloc(1000)` and `yalloc_heap` for 32 bytes, reached
from the heap `w_full`, whose tables are empty. -/
theorem C30_tentative_class_tables_witness :
    reach regdir_root w_key32 ∧
    w_key32.hb.tclascnt ≤ Maxtclass ∧
    (∀ t, t < w_key32.hb.tclascnt → w_key32.hb.len2tclas (w_key32.hb.tclas2len t) = t) ∧
    (∀ k, w_key32.hb.len2tclas k ≠ hi16 → w_key32.hb.len2tclas k < w_key32.hb.tclascnt) ∧
    (∀ len clear, len < Maxclasslen → Inimem < w_key32.hb.inipos + len + 2 * Basealign →
      w_key32.hb.len2tclas (class_calen len) = hi16 → w_key32.hb.tclascnt < Maxtclass →
      (yalloc_heap regdir_root w_key32 len clear).w.hb.len2tclas (class_calen len)
        = w_key32.hb.tclascnt ∧
      (yalloc_heap regdir_root w_key32 len clear).w.hb.tclascnt = w_key32.hb.tclascnt + 1) ∧
    (∀ w0 d, (newheap w0 d).1 ≠ 0 →
      (newheap w0 d).2.hb.tclascnt = 0 ∧ ∀ k, (newheap w0 d).2.hb.len2tclas k = hi16) :=
  ⟨reach_w_key32, C30_tentative_class_tables regdir_root w_key32 reach_w_key32⟩

/-! ### The bump arena -/

theorem land_mask8 (x : Nat) (hx : x < 2 ^ 32) : x &&& (2 ^ 32 - 8) = x / 8 * 8 := by
  have hm : (2 ^ 32 - 8 : Nat) = (2 ^ 29 - 1) <<< 3 := by decide
  have hr : x / 8 * 8 = (x >>> 3) <<< 3 := by
    rw [Nat.shiftLeft_eq, Nat.shiftRight_eq_div_pow]
  rw [hm, hr]
  apply Nat.eq_of_testBit_eq
  intro i
  simp only [Nat.testBit_and, Nat.testBit_shiftLeft, Nat.testBit_shiftRight,
    Nat.testBit_two_pow_sub_one]
  by_cases h3 : i ≥ 3
  · have e : 3 + (i - 3) = i := by omega
    simp only [h3, decide_True, Bool.true_and, e]
    by_cases h32 : i - 3 < 29
    · simp [h32]
    · have : x.testBit i = false := by
        apply Nat.testBit_lt_two_pow
        calc x < 2 ^ 32 := hx
          _ ≤ 2 ^ i := Nat.pow_le_pow_right (by decide) (by omega)
      simp [h32, this]
  · simp [h3]

/-- The length of a bump block, rounded to `Basealign`. -/
theorem doalign_8_eq (L : Nat) (h : L < Maxclasslen) :
    doalign 64 32 L Basealign = (L + 7) / 8 * 8 := by
  unfold Maxclasslen at h
  have e : doalign 64 32 L Basealign = (L + 7) &&& (2 ^ 32 - 8) := by
    unfold doalign subw notw Basealign
    have a1 : (1 : Nat) % 2 ^ max 64 32 = 1 := by decide
    have a2 : (L + 8) % 2 ^ max 64 32 = L + 8 := Nat.mod_eq_of_lt (by
      have : (2 : Nat) ^ max 64 32 = 2 ^ 64 := by decide
      rw [this]; omega)
    have a3 : (8 : Nat) % 2 ^ 32 = 8 := by decide
    have a4 : (1 : Nat) % 2 ^ 32 = 1 := by decide
    rw [a1, a2, a3, a4, if_pos (by omega), if_pos (by decide)]
    have a5 : (8 - 1 : Nat) % 2 ^ 32 = 7 := by decide
    rw [a5]
    rfl
  rw [e, land_mask8 _ (by omega)]

/-- The state of the bump arena after `yalloc_heap`: on the bump path `inipos` moves by
the header and the rounded length, on every other path it stays. -/
theorem yalloc_heap_ini (rd : RegdirFn) (w : world) (len : Nat) (clear : Bool) :
    (yalloc_heap rd w len clear).w.hb.inimem = w.hb.inimem ∧
    ((yalloc_heap rd w len clear).path = Apath.bump →
      (yalloc_heap rd w len clear).w.hb.inipos =
        u32 (w.hb.inipos + (u32 (doalign 64 32 (u64 (len <<< guardbit)) Basealign) + Basealign))) ∧
    ((yalloc_heap rd w len clear).path ≠ Apath.bump →
      (yalloc_heap rd w len clear).w.hb.inipos = w.hb.inipos) := by
  have hc := yalloc_clas_path rd w (u64 (len <<< guardbit)) clear
  unfold yalloc_heap
  simp only []
  split_ifs with h1 h2 h3
  · exact ⟨(yal_mmap_frame rd w _).1, fun h => absurd h (by simp), fun _ => (yal_mmap_frame rd w _).2⟩
  · exact ⟨rfl, fun _ => rfl, fun h => absurd rfl h⟩
  · split
    · exact ⟨(yalloc_clas_frame rd w _ clear).1, fun h => by simp_all,
        fun _ => (yalloc_clas_frame rd w _ clear).2⟩
    · unfold yalloc_buddy
      simp only []
      exact ⟨by rw [(buddy_alloc_frame rd _ _ clear).1, (yalloc_clas_frame rd w _ clear).1],
        fun h => absurd h (by simp),
        fun _ => by rw [(buddy_alloc_frame rd _ _ clear).2, (yalloc_clas_frame rd w _ clear).2]⟩
  · unfold yalloc_buddy
    simp only []
    exact ⟨(buddy_alloc_frame rd _ _ clear).1, fun h => absurd h (by simp),
      fun _ => (buddy_alloc_frame rd _ _ clear).2⟩

/-- The fill of the bump arena after a call of `yalloc_heap`: it does not go down, it
stays within `Inimem`, and a bump block with its header lies between the old and the
new fill. -/
theorem yalloc_heap_fill (rd : RegdirFn) (w : world) (len : Nat) (clear : Bool)
    (h0 : w.hb.inipos ≤ Inimem) :
    (yalloc_heap rd w len clear).w.hb.inimem = w.hb.inimem ∧
    w.hb.inipos ≤ (yalloc_heap rd w len clear).w.hb.inipos ∧
    (yalloc_heap rd w len clear).w.hb.inipos ≤ Inimem ∧
    ((yalloc_heap rd w len clear).path = Apath.bump →
      (yalloc_heap rd w len clear).p = w.hb.inimem + w.hb.inipos + Basealign ∧
      (yalloc_heap rd w len clear).p + u64 (len <<< guardbit)
        ≤ w.hb.inimem + (yalloc_heap rd w len clear).w.hb.inipos ∧
      (yalloc_heap rd w len clear).p + u64 (len <<< guardbit) + Basealign
        ≤ w.hb.inimem + Inimem) := by
  obtain ⟨i1, i2, i3⟩ := yalloc_heap_ini rd w len clear
  by_cases hb : (yalloc_heap rd w len clear).path = Apath.bump
  · have hc := (yalloc_heap_bump_iff rd w len clear).1 hb
    have hs := yalloc_heap_bump_spec rd w len clear hb
    have hd := doalign_8_eq _ hc.2.1
    have hp := i2 hb
    rw [hd] at hp
    unfold Inimem Basealign at *
    unfold Maxclasslen at hc
    have e1 : u32 ((u64 (len <<< guardbit) + 7) / 8 * 8) = (u64 (len <<< guardbit) + 7) / 8 * 8 :=
      u32_small _ (by omega)
    rw [e1, u32_small _ (by omega)] at hp
    refine ⟨i1, by omega, by omega, fun _ => ⟨hs.1, by omega, hs.2.2.1⟩⟩
  · have hp := i3 hb
    exact ⟨i1, by omega, by omega, fun h => absurd h hb⟩

/-- The fill of the bump arena after a run of calls of `yalloc_heap`. -/
theorem yallocs_fill (rd : RegdirFn) (reqs : List (Nat × Bool)) :
    ∀ w : world, w.hb.inipos ≤ Inimem →
      (yallocs rd reqs w).hb.inimem = w.hb.inimem ∧
      w.hb.inipos ≤ (yallocs rd reqs w).hb.inipos ∧
      (yallocs rd reqs w).hb.inipos ≤ Inimem := by
  induction reqs with
  | nil => intro w h0; exact ⟨rfl, Nat.le_refl _, h0⟩
  | cons q qs ih =>
    intro w h0
    obtain ⟨a1, a2, a3, _⟩ := yalloc_heap_fill rd w q.1 q.2 h0
    obtain ⟨b1, b2, b3⟩ := ih (yalloc_heap rd w q.1 q.2).w a3
    show (yallocs rd qs (yalloc_heap rd w q.1 q.2).w).hb.inimem = w.hb.inimem ∧
      w.hb.inipos ≤ (yallocs rd qs (yalloc_heap rd w q.1 q.2).w).hb.inipos ∧
      (yallocs rd qs (yalloc_heap rd w q.1 q.2).w).hb.inipos ≤ Inimem
    exact ⟨by rw [b1, a1], by omega, b3⟩

/-- Two bump blocks, the second one allocated after the first and after any run of
calls of `yalloc_heap`: both lie in the arena, and the header of the second starts at
or after the end of the first. -/
theorem bump_blocks (rd : RegdirFn) (w : world) (len : Nat) (clear : Bool)
    (reqs : List (Nat × Bool)) (len2 : Nat) (clear2 : Bool)
    (h0 : w.hb.inipos ≤ Inimem) (hl : len < 2 ^ 64) (hl2 : len2 < 2 ^ 64)
    (hb : (yalloc_heap rd w len clear).path = Apath.bump)
    (hb2 : (yalloc_heap rd (yallocs rd reqs (yalloc_heap rd w len clear).w) len2 clear2).path
      = Apath.bump) :
    w.hb.inimem + Basealign ≤ (yalloc_heap rd w len clear).p ∧
    (yalloc_heap rd w len clear).p + len ≤ w.hb.inimem + Inimem ∧
    w.hb.inimem + Basealign
      ≤ (yalloc_heap rd (yallocs rd reqs (yalloc_heap rd w len clear).w) len2 clear2).p ∧
    (yalloc_heap rd (yallocs rd reqs (yalloc_heap rd w len clear).w) len2 clear2).p + len2
      ≤ w.hb.inimem + Inimem ∧
    (yalloc_heap rd w len clear).p + len + Basealign
      ≤ (yalloc_heap rd (yallocs rd reqs (yalloc_heap rd w len clear).w) len2 clear2).p ∧
    (yalloc_heap rd w len clear).w.hb.inipos ≤ Inimem ∧
    (yallocs rd reqs (yalloc_heap rd w len clear).w).hb.inipos ≤ Inimem ∧
    (yalloc_heap rd (yallocs rd reqs (yalloc_heap rd w len clear).w) len2 clear2).w.hb.inipos
      ≤ Inimem := by
  obtain ⟨a1, a2, a3, a4⟩ := yalloc_heap_fill rd w len clear h0
  obtain ⟨b1, b2, b3⟩ := yallocs_fill rd reqs (yalloc_heap rd w len clear).w a3
  obtain ⟨c1, c2, c3, c4⟩ :=
    yalloc_heap_fill rd (yallocs rd reqs (yalloc_heap rd w len clear).w) len2 clear2 b3
  obtain ⟨p1, p2, p3⟩ := a4 hb
  obtain ⟨q1, q2, q3⟩ := c4 hb2
  rw [u64_lt len hl] at p2 p3
  rw [u64_lt len2 hl2] at q2 q3
  rw [b1, a1] at q1 q3
  refine ⟨by omega, by omega, by omega, by omega, by omega, a3, b3, c3⟩

/-- The bump arena of a new heap is empty. -/
theorem newheap_inipos (w : world) (d : Nat) (hne : (newheap w d).1 ≠ 0) :
    (newheap w d).2.hb.inipos = 0 := by
  unfold newheap at hne ⊢
  simp only [] at hne ⊢
  split_ifs at hne ⊢
  · exact absurd rfl hne
  · rfl

/-! ### The directory walk, and the test of `slab_chk4free` -/

theorem findregion_walk_nil (dp : direntry) (h : dp.reg = 0) :
    ∀ n shift, findregion_walk dp n shift = 0 := by
  intro n
  induction n with
  | zero => intro shift; rfl
  | succ n ih =>
    intro shift
    unfold findregion_walk
    rw [if_neg (by simp [h])]
    split_ifs
    · rfl
    · exact ih _
    · rfl

/-- The walk of `findregion` returns the region of the entry it starts at, or nil. -/
theorem findregion_walk_root (dp : direntry) (n shift : Nat) :
    findregion_walk dp (n + 1) shift = dp.reg := by
  by_cases h : dp.reg = 0
  · rw [findregion_walk_nil dp h, h]
  · unfold findregion_walk
    rw [if_pos h]

theorem findregion_root (w : world) (ip : Nat) :
    findregion w ip = (w.hb.rootdir (((ip >>> Minregion) >>> (Maxvm - Dir)) &&& Dirmsk)).reg := by
  unfold findregion
  exact findregion_walk_root _ 3 _

/-- The function `slab_chk4free` in terms of the cell index it computes. -/
theorem slab_chk4free_eq (w : world) (reg ip : Nat) :
    slab_chk4free w reg ip =
      if u32 (subw 64 ip (w.regs reg).user) ≥ (w.regs reg).cnt then true
      else decide (slab_line_bit w reg (slab_chk4free_cel w reg ip) = 0) := by
  unfold slab_chk4free slab_line_bit slab_chk4free_cel
  simp only []
  split_ifs <;> simp_all

/-! ## C31: a free into a partially full bin -/

/-- The bin part of `yfree_heap` on a partially full bin that does not hold the
pointer: the state it returns. -/
theorem yfree_bin_partial (rd : RegdirFn) (w : world) (reg clas p : Nat)
    (hm : w.hb.binmasks clas < 2 ^ 16) (h0 : w.hb.binmasks clas ≠ 0)
    (hf : w.hb.binmasks clas ≠ Binmask)
    (hp : bin_has w clas (w.hb.binmasks clas) p true Bin = false) :
    (w.hb.binmasks clas).testBit (ctz (w.hb.binmasks clas)) = true ∧
    ∃ w1, yfree_bin rd w reg clas p = some w1 ∧
      w1.hb.bins (clas * Bin + ctz (w.hb.binmasks clas)) = ⟨p, reg⟩ ∧
      w1.hb.binmasks clas = w.hb.binmasks clas ∧
      (∀ k, k ≠ clas * Bin + ctz (w.hb.binmasks clas) → w1.hb.bins k = w.hb.bins k) := by
  refine ⟨ctzAux_testBit 32 _ h0 (Nat.lt_of_lt_of_le hm (by decide)), ?_⟩
  unfold yfree_bin
  simp only [hf, h0, hp, if_false, Bool.false_eq_true]
  refine ⟨_, rfl, ?_, ?_, ?_⟩
  · simp [upd]
  · simp only [upd, if_true]
    exact binmask_or_ctz _ h0 hm
  · intro k hk
    simp [upd, hk]

/-- C31, the code for every call: when the bin part of `yfree_heap` runs for a pointer
`p` on a bin that is partially full (its mask is neither 0 nor `Binmask`) and does not
hold `p`, it stores `(p, reg)` in the slot `ctz(binmask)`. The mask bit of that slot is
set, the slot is an occupied one, so that the entry it held is overwritten; the mask
and every other entry stay as they were. -/
theorem C31_partial_bin_overwrites_slot (rd : RegdirFn) (w : world) (reg clas p : Nat)
    (hm : w.hb.binmasks clas < 2 ^ 16) (h0 : w.hb.binmasks clas ≠ 0)
    (hf : w.hb.binmasks clas ≠ Binmask)
    (hp : bin_has w clas (w.hb.binmasks clas) p true Bin = false) :
    (w.hb.binmasks clas).testBit (ctz (w.hb.binmasks clas)) = true ∧
    ∃ w1, yfree_bin rd w reg clas p = some w1 ∧
      w1.hb.bins (clas * Bin + ctz (w.hb.binmasks clas)) = ⟨p, reg⟩ ∧
      w1.hb.binmasks clas = w.hb.binmasks clas ∧
      (∀ k, k ≠ clas * Bin + ctz (w.hb.binmasks clas) → w1.hb.bins k = w.hb.bins k) :=
  yfree_bin_partial rd w reg clas p hm h0 hf hp

set_option maxRecDepth 100000 in
/-- C31, witness: after `malloc(1000); p0 = malloc(32); p1 = malloc(32)` and the bin
part of `yfree_heap` for `p0`, the bin of the class 0 holds `p0` in slot 0 and its mask
is 1. The bin part for `p1` stores `p1` in slot `ctz(1) = 0`: `p0` is overwritten and
the mask is still 1. -/
theorem C31_partial_bin_overwrites_slot_witness :
    q_slab32 ≠ 0 ∧ q_slab32b ≠ 0 ∧ q_slab32 ≠ q_slab32b ∧
    v_binned32b.hb.binmasks 0 = 1 ∧ ctz 1 = 0 ∧
    (v_binned32b.hb.bins (0 * Bin + 0)).p = q_slab32 ∧
    ((v_binned32b.hb.binmasks 0).testBit (ctz (v_binned32b.hb.binmasks 0)) = true ∧
    ∃ w1, yfree_bin regdir_spec v_binned32b (v_slab32b.hb.clasreg 0) 0 q_slab32b = some w1 ∧
      w1.hb.bins (0 * Bin + ctz (v_binned32b.hb.binmasks 0))
        = ⟨q_slab32b, v_slab32b.hb.clasreg 0⟩ ∧
      w1.hb.binmasks 0 = v_binned32b.hb.binmasks 0 ∧
      (∀ k, k ≠ 0 * Bin + ctz (v_binned32b.hb.binmasks 0) →
        w1.hb.bins k = v_binned32b.hb.bins k)) :=
  ⟨by decide, by decide, by decide, by decide, by decide, by decide,
    C31_partial_bin_overwrites_slot regdir_spec v_binned32b (v_slab32b.hb.clasreg 0) 0
      q_slab32b (by decide) (by decide) (by decide) (by decide)⟩

/-! ## C32: the cell index of an address -/

set_option maxRecDepth 100000 in
/-- C32, the code at the failing input: after `malloc(1000); p0 = malloc(17)` the slab
region of the class has the cell length 32, `celord = 5`, and `reg->len = 17`, the
length of the first request. `p1 = malloc(32)` is the address `slab_alloc` gives the
cell 1, `user + 1 * 17`. For `p1`, `slab_chk4free` computes the cell `17 >> 5 = 0`;
`slab_free` computes the cell 1, by a division, for `reg->minorder` is 0. -/
theorem C32_chk4free_cell_index_differs :
    (w_slab17b.regs (findregion w_slab17b p_slab17b)).typ = Rtype.Rslab ∧
    (w_slab17b.regs (findregion w_slab17b p_slab17b)).cellen = 32 ∧
    (w_slab17b.regs (findregion w_slab17b p_slab17b)).celord = 5 ∧
    (w_slab17b.regs (findregion w_slab17b p_slab17b)).minorder = 0 ∧
    (w_slab17b.regs (findregion w_slab17b p_slab17b)).len = 17 ∧
    1 < (w_slab17b.regs (findregion w_slab17b p_slab17b)).cnt ∧
    (yalloc_heap regdir_root w_slab17 32 false).path = Apath.slab ∧
    (yalloc_heap regdir_root w_slab17 32 false).p = p_slab17b ∧
    p_slab17b = (w_slab17b.regs (findregion w_slab17b p_slab17b)).user + 1 * 17 ∧
    slab_chk4free_cel w_slab17b (findregion w_slab17b p_slab17b) p_slab17b = 0 ∧
    slab_free_cel w_slab17b (findregion w_slab17b p_slab17b) p_slab17b = 1 := by
  decide

/-! ## C33: the test of `slab_chk4free` -/

set_option maxRecDepth 100000 in
/-- C33, the code at the failing input: after `malloc(1000)` and 17 calls of
`malloc(64)`, the last pointer `p` is the cell 16 of the slab region of the class 0, a
region of `2 ^ 16` bytes with 1024 cells: it lies in the user range, and the bit of its
cell in `line` is set, the cell is in use. `slab_chk4free` returns true for `p`, the
pointer is rejected: the offset in bytes, 1024, is compared with the count of cells,
1024. For the pointer of the call before, at the offset 960, `slab_chk4free` returns
false. -/
theorem C33_live_cell_rejected :
    newregorder v_full = 16 ∧ q_slab64 ≠ 0 ∧
    (v_slab64.regs (v_slab64.hb.clasreg 0)).typ = Rtype.Rslab ∧
    (v_slab64.regs (v_slab64.hb.clasreg 0)).cnt = 1024 ∧
    (v_slab64.regs (v_slab64.hb.clasreg 0)).user ≤ q_slab64 ∧
    q_slab64 + 64 ≤ (v_slab64.regs (v_slab64.hb.clasreg 0)).user + 2 ^ 16 ∧
    q_slab64 - (v_slab64.regs (v_slab64.hb.clasreg 0)).user = 1024 ∧
    slab_chk4free_cel v_slab64 (v_slab64.hb.clasreg 0) q_slab64 = 16 ∧
    slab_line_bit v_slab64 (v_slab64.hb.clasreg 0) 16 ≠ 0 ∧
    slab_chk4free v_slab64 (v_slab64.hb.clasreg 0) q_slab64 = true ∧
    slab_chk4free v_slab64 (v_slab64.hb.clasreg 0) (q_slab64 - 64) = false := by
  decide

/-! ## C34: the walk of the directory -/

set_option maxRecDepth 100000 in
/-- C34, the code: for every state and address `findregion` returns the region of the
root entry it starts at, nil when that entry has none: it never reads a child node. In
the state `w_child` the root entry 0 has no region and points to a node whose 256
entries all hold the region `0x610000`; `findregion` returns nil for the address
`0x10000000`, which that node covers. -/
theorem C34_findregion_reads_root_entry (w : world) (ip : Nat) :
    findregion w ip
      = (w.hb.rootdir (((ip >>> Minregion) >>> (Maxvm - Dir)) &&& Dirmsk)).reg ∧
    ((0x10000000 >>> Minregion) >>> (Maxvm - Dir)) &&& Dirmsk = 0 ∧
    (w_child.hb.rootdir 0).reg = 0 ∧ (w_child.hb.rootdir 0).dir = 0x700000 ∧
    (∀ k, k < 256 → (w_child.dirents (0x700000 + 16 * k)).reg = 0x610000) ∧
    findregion w_child 0x10000000 = 0 :=
  ⟨findregion_root w ip, by decide, by decide, by decide, by decide, by decide⟩

/-! ## C35: the cells of the fast path -/

set_option maxRecDepth 100000 in
/-- C35, the code at the failing input: after `malloc(1000)` the slab region for
requests of 2000 bytes has `2 ^ 16` bytes and 32 cells. The 33rd call of `malloc(2000)`
is served by `slab_alloc`, which returns the address of the cell 32, `user + 32 * 2000`;
the index is not below the count of cells, and the block ends after the end of the
region. -/
theorem C35_cell_beyond_region :
    newregorder w_full = 16 ∧
    (w_slab2000.regs (findregion w_slab2000 p_slab2000)).typ = Rtype.Rslab ∧
    (w_slab2000.regs (findregion w_slab2000 p_slab2000)).cellen = 2000 ∧
    (w_slab2000.regs (findregion w_slab2000 p_slab2000)).cnt = 32 ∧
    (yalloc_heap regdir_root (mallocs regdir_root 2000 32 w_full).2 2000 false).path
      = Apath.slab ∧
    (yalloc_heap regdir_root (mallocs regdir_root 2000 32 w_full).2 2000 false).p
      = p_slab2000 ∧
    p_slab2000 = (w_slab2000.regs (findregion w_slab2000 p_slab2000)).user + 32 * 2000 ∧
    ¬ (32 < (w_slab2000.regs (findregion w_slab2000 p_slab2000)).cnt) ∧
    (w_slab2000.regs (findregion w_slab2000 p_slab2000)).user + 2 ^ 16
      < p_slab2000 + 2000 := by
  decide

/-! ## C36: the distance of the cells -/

set_option maxRecDepth 100000 in
/-- C36, the code at the failing input: the lengths 17 and 32 have the same class, with
the rounded length 32. After `malloc(1000); p0 = malloc(17)`, `p1 = malloc(32)` is
`p0 + 17` and `p2 = malloc(17)` is `p0 + 34`: the cells are 17 bytes apart, the length
of the first request, and the 32 bytes of `p1` reach into `p2`. -/
theorem C36_cells_overlap :
    class_alen 17 = 32 ∧ class_alen 32 = 32 ∧ class_calen 17 = class_calen 32 ∧
    (w_slab17b.regs (findregion w_slab17b p_slab17b)).cellen = 32 ∧
    p_slab17 ≠ 0 ∧ p_slab17b = p_slab17 + 17 ∧
    (malloc regdir_root w_slab17b 17).1 = p_slab17 + 34 ∧
    (malloc regdir_root w_slab17b 17).1 - p_slab17b < 32 ∧
    (malloc regdir_root w_slab17b 17).1 < p_slab17b + 32 := by
  decide

/-! ## C37: the descriptors of `newregmem` -/

set_option maxRecDepth 100000 in
/-- C37, the code at the failing input: on a new heap two calls of `newregmem` in a row
return the same descriptor, for `regmem_pos` stays 0. After `q1 = malloc(2^24)` the
region of `q1` has the descriptor `lastreg`; after `q2 = malloc(2^24)`, with no region
deleted, the region of `q2` has the same descriptor, which now holds `q2`. -/
theorem C37_descriptor_handed_out_twice :
    (newregmem regdir_root w_fresh).1 ≠ 0 ∧
    (newregmem regdir_root (newregmem regdir_root w_fresh).2).1
      = (newregmem regdir_root w_fresh).1 ∧
    (newregmem regdir_root w_fresh).2.hb.regmem_pos = 0 ∧
    w_map1.hb.lastreg ≠ 0 ∧
    (w_map1.regs w_map1.hb.lastreg).typ = Rtype.Rmmap ∧
    (w_map1.regs w_map1.hb.lastreg).user = (malloc regdir_root w_boot (2 ^ 24)).1 ∧
    w_map2.hb.freereg = 0 ∧ w_map2.hb.freeregcnt = 0 ∧
    w_map2.hb.lastreg = w_map1.hb.lastreg ∧
    (w_map2.regs w_map2.hb.lastreg).user = (malloc regdir_root w_map1 (2 ^ 24)).1 ∧
    (malloc regdir_root w_map1 (2 ^ 24)).1 ≠ (malloc regdir_root w_boot (2 ^ 24)).1 := by
  decide

/-! ## C38: the table of the tiny lengths -/

set_option maxRecDepth 100000 in
/-- C38, the code at the failing input: `miniclas` has 8 entries, and for `len = 8`
`yalloc_heap` and `yalloc_align` read `miniclas[8]`, one past the table. In the state
after `malloc(1000)`, `yalloc_heap` for 8 bytes reaches the lookup and makes a slab with
the cell length it read (in this model an entry outside the table reads as 0, which is
below 8). For every other length from 1 to 16 the index is within the table, where it
is used, and the cell length is at least the length. -/
theorem C38_miniclas_index_8 :
    miniclas_tab.length = 8 ∧ ¬ (8 < miniclas_tab.length) ∧
    class_alen 8 = miniclas 8 ∧ miniclas 8 = 0 ∧
    (yalloc_heap regdir_root w_full 8 false).path = Apath.slab ∧
    ((yalloc_heap regdir_root w_full 8 false).w.regs
        (findregion (yalloc_heap regdir_root w_full 8 false).w
          (yalloc_heap regdir_root w_full 8 false).p)).cellen = miniclas 8 ∧
    (∀ len, len < 17 → 1 ≤ len → len ≠ 8 →
      (len ≤ 8 → len < miniclas_tab.length) ∧ len ≤ class_alen len) := by
  decide

/-! ## C39: the blocks of the bump arena -/

/-- C39: in a heap with `inipos ≤ Inimem`, as `newheap` leaves it (last part), a request
of `len` bytes that the bump arena serves, and a later one of `len2` bytes, after any
run of calls of `yalloc_heap`, that the bump arena serves too: both blocks lie in
`[inimem + Basealign, inimem + Inimem)`; the header of the second block, the
`Basealign` bytes before it, starts at or after the end of the first block; and
`inipos` is at most `Inimem` after each of the calls. -/
theorem C39_bump_blocks_disjoint (rd : RegdirFn) (w : world) (len : Nat) (clear : Bool)
    (reqs : List (Nat × Bool)) (len2 : Nat) (clear2 : Bool)
    (h0 : w.hb.inipos ≤ Inimem) (hl : len < 2 ^ 64) (hl2 : len2 < 2 ^ 64)
    (hb : (yalloc_heap rd w len clear).path = Apath.bump)
    (hb2 : (yalloc_heap rd (yallocs rd reqs (yalloc_heap rd w len clear).w) len2 clear2).path
      = Apath.bump) :
    (w.hb.inimem + Basealign ≤ (yalloc_heap rd w len clear).p ∧
    (yalloc_heap rd w len clear).p + len ≤ w.hb.inimem + Inimem ∧
    w.hb.inimem + Basealign
      ≤ (yalloc_heap rd (yallocs rd reqs (yalloc_heap rd w len clear).w) len2 clear2).p ∧
    (yalloc_heap rd (yallocs rd reqs (yalloc_heap rd w len clear).w) len2 clear2).p + len2
      ≤ w.hb.inimem + Inimem ∧
    (yalloc_heap rd w len clear).p + len + Basealign
      ≤ (yalloc_heap rd (yallocs rd reqs (yalloc_heap rd w len clear).w) len2 clear2).p ∧
    (yalloc_heap rd w len clear).w.hb.inipos ≤ Inimem ∧
    (yallocs rd reqs (yalloc_heap rd w len clear).w).hb.inipos ≤ Inimem ∧
    (yalloc_heap rd (yallocs rd reqs (yalloc_heap rd w len clear).w) len2 clear2).w.hb.inipos
      ≤ Inimem) ∧
    (∀ w0 d, (newheap w0 d).1 ≠ 0 → (newheap w0 d).2.hb.inipos = 0) :=
  ⟨bump_blocks rd w len clear reqs len2 clear2 h0 hl hl2 hb hb2,
    fun w0 d hne => newheap_inipos w0 d hne⟩

set_option maxRecDepth 100000 in
/-- C39, witness: on the fresh heap, `malloc(24)`, then a request of 5000 bytes, which
the buddy heap serves, then `malloc(100)`. -/
theorem C39_bump_blocks_disjoint_witness :
    (w_fresh.hb.inipos ≤ Inimem ∧
      (yalloc_heap regdir_root w_fresh 24 false).path = Apath.bump ∧
      (yalloc_heap regdir_root
        (yallocs regdir_root [(5000, false)] (yalloc_heap regdir_root w_fresh 24 false).w)
        100 false).path = Apath.bump) ∧
    ((w_fresh.hb.inimem + Basealign ≤ (yalloc_heap regdir_root w_fresh 24 false).p ∧
    (yalloc_heap regdir_root w_fresh 24 false).p + 24 ≤ w_fresh.hb.inimem + Inimem ∧
    w_fresh.hb.inimem + Basealign
      ≤ (yalloc_heap regdir_root
          (yallocs regdir_root [(5000, false)] (yalloc_heap regdir_root w_fresh 24 false).w)
          100 false).p ∧
    (yalloc_heap regdir_root
        (yallocs regdir_root [(5000, false)] (yalloc_heap regdir_root w_fresh 24 false).w)
        100 false).p + 100
      ≤ w_fresh.hb.inimem + Inimem ∧
    (yalloc_heap regdir_root w_fresh 24 false).p + 24 + Basealign
      ≤ (yalloc_heap regdir_root
          (yallocs regdir_root [(5000, false)] (yalloc_heap regdir_root w_fresh 24 false).w)
          100 false).p ∧
    (yalloc_heap regdir_root w_fresh 24 false).w.hb.inipos ≤ Inimem ∧
    (yallocs regdir_root [(5000, false)]
      (yalloc_heap regdir_root w_fresh 24 false).w).hb.inipos ≤ Inimem ∧
    (yalloc_heap regdir_root
        (yallocs regdir_root [(5000, false)] (yalloc_heap regdir_root w_fresh 24 false).w)
        100 false).w.hb.inipos
      ≤ Inimem) ∧
    (∀ w0 d, (newheap w0 d).1 ≠ 0 → (newheap w0 d).2.hb.inipos = 0)) :=
  ⟨⟨by decide, by decide, by decide⟩,
    C39_bump_blocks_disjoint regdir_root w_fresh 24 false [(5000, false)] 100 false
      (by decide) (by decide) (by decide) (by decide) (by decide)⟩

/-! ## C40: the bins after `trimbin` -/

set_option maxRecDepth 100000 in
/-- C40, the code at the failing input: after `malloc(1000); p = malloc(32)` and the bin
part of `yfree_heap` for `p`, the bin of the class 0 holds `p` in slot 0, the mask is
1, and the bit of the cell 0 of `p` in `line` is set. After `trimbin` the bit of the
cell is 0, the slab has the cell as free, and the bin still holds `p` in slot 0 with
the mask 1; the next `yalloc_heap` for 32 bytes returns `p` from the bin. `trimbin`
hands each pointer to `free_reg` and leaves `binmasks` as it was. -/
theorem C40_trimmed_cell_stays_in_bin :
    q_slab32 ≠ 0 ∧
    (v_slab32.regs (v_slab32.hb.clasreg 0)).typ = Rtype.Rslab ∧
    (v_slab32.regs (v_slab32.hb.clasreg 0)).user = q_slab32 ∧
    v_binned32.hb.clascnt = 1 ∧ v_binned32.hb.binmasks 0 = 1 ∧
    v_binned32.hb.bins (0 * Bin + 0) = ⟨q_slab32, v_slab32.hb.clasreg 0⟩ ∧
    slab_line_bit v_binned32 (v_slab32.hb.clasreg 0) 0 ≠ 0 ∧
    v_trimmed.hb.binmasks 0 = 1 ∧
    v_trimmed.hb.bins (0 * Bin + 0) = ⟨q_slab32, v_slab32.hb.clasreg 0⟩ ∧
    (v_trimmed.regs (v_slab32.hb.clasreg 0)).typ = Rtype.Rslab ∧
    slab_free_cel v_trimmed (v_slab32.hb.clasreg 0) q_slab32 = 0 ∧
    slab_line_bit v_trimmed (v_slab32.hb.clasreg 0) 0 = 0 ∧
    (yalloc_heap regdir_spec v_trimmed 32 false).path = Apath.bin ∧
    (yalloc_heap regdir_spec v_trimmed 32 false).p = q_slab32 := by
  decide

end Yalloc
